import Mathlib

/-!
# Distributed file system: coordinator S1 and shards S2, S3, S4

A shallow embedding of `S1.c`, `S2.c`, `S3.c` and `S4.c`.

* C strings and byte blocks are `List Char`; a list that stands for a C string
  holds no NUL, and `cstr` cuts a received block at its first NUL.
* A fixed-size destination buffer is modelled by `snprintf size s`, which keeps
  the first `size - 1` characters; writes that C leaves undefined (a `%s`
  conversion into a buffer that is too small, an index past the end of
  `file_map`, `dest + 4` on a shorter string, `strcat` past the end of `msg`)
  make the operation return `none`.
* The incoming side of a socket is the list of byte blocks that the successive
  `recv` calls on it return, each block within the size the call allows; the
  end of the list, or an empty block, is `recv` returning 0.  With `shards`,
  what one side passes to one `send` is what the other side gets from one
  `recv`; with `wired_shards` a `Wire` tells what the `recv` calls return for
  the blocks that were sent.
* The outgoing side of a socket is the list of blocks passed to `send`.
* The four servers run on one machine (all addresses are 127.0.0.1) and share
  its file tree, which is a table from path strings to contents together with
  the list of existing directories.  Paths are compared as strings, which is
  exact for paths of ordinary names (`plain_path`); links are not modelled.
* The external programs `find`, `sort` and `tar` are modelled by what they
  compute: `find_f`, `find_names_sorted`, and a parameter of type `Tar`.  The
  shell that runs the command lines is not modelled.
* Every connection to S1 is served by a forked child with its own copy of
  `file_map`; the file tree is shared.  Concurrent children are interleaved
  round by round of their command loops (`run_two`); the shards serve one
  connection at a time.  Signals are not modelled, and the value that `send`
  and `recv` return is used only where the code uses it.
-/

namespace DFS

/-- C strings and byte blocks. -/
abbrev Str := List Char

/-- The 3-byte end marker. -/
def EOF : Str := "EOF".toList

/-- The 8-byte not-found marker. -/
def NOTFOUND : Str := "NOTFOUND".toList

/-- The NUL byte. -/
def NUL : Char := Char.ofNat 0

/-- The newline byte. -/
def NL : Char := Char.ofNat 10

/-- The C string held in a buffer: the bytes before the first NUL. -/
def cstr (b : Str) : Str := b.takeWhile (fun c => c != NUL)

/-- Result of `snprintf(buf, size, ...)` when the formatted text is `s`. -/
def snprintf (size : Nat) (s : Str) : Str := s.take (size - 1)

/-- The function `strrchr(s, c)`: the suffix of `s` that starts at the last `c`. -/
def strrchr (c : Char) : Str → Option Str
  | [] => none
  | x :: xs =>
    match strrchr c xs with
    | some r => some r
    | none => if x = c then some (x :: xs) else none

/-- The constant `BUFFER_SIZE` of all five programs. -/
def BUFFER_SIZE : Nat := 2048

def S2_PORT : Nat := 6501
def S3_PORT : Nat := 6502
def S4_PORT : Nat := 6503

/-! ## Metadata index (`S1.c`, lines 39-63) -/

/-- The record `struct FileMap`. -/
structure FileMap where
  filename : Str
  relative_path : Str
  deriving DecidableEq, Repr

/-- Number of slots of `file_map`. -/
def FILE_MAP_SIZE : Nat := 100

/-- Function `save_file_path`: the used slots of `file_map` are the list, and
`file_map_count` is its length.  The call is undefined when the table is full,
when `strcpy` overruns `filename[256]`, or when `dest + 4` lies past the end of
`dest`. -/
def save_file_path (file_map : List FileMap) (filename dest : Str) : Option (List FileMap) :=
  if file_map.length < FILE_MAP_SIZE ∧ filename.length < 256 ∧ 4 ≤ dest.length then
    some (file_map ++ [⟨filename, snprintf 512 (dest.drop 4 ++ '/' :: filename)⟩])
  else none

/-- Function `get_relative_path`: the first slot whose filename compares equal. -/
def get_relative_path : List FileMap → Str → Option Str
  | [], _ => none
  | e :: rest, filename =>
    if e.filename = filename then some e.relative_path else get_relative_path rest filename

/-! ## Text scanning -/

/-- Whitespace in the sense of `isspace`, which `%s` skips and stops at. -/
def isSpace (c : Char) : Bool :=
  c = ' ' || c = Char.ofNat 9 || c = Char.ofNat 10 || c = Char.ofNat 11 ||
    c = Char.ofNat 12 || c = Char.ofNat 13

/-- One `%s` conversion of `sscanf`: skip whitespace, then read the run of
non-whitespace characters.  Returns the token and the unread input; an empty
token is an input failure. -/
def scan_s (s : Str) : Str × Str :=
  let t := s.dropWhile isSpace
  (t.takeWhile (fun c => !isSpace c), t.dropWhile (fun c => !isSpace c))

/-- Test `strncmp(buffer, lit, n) == 0` for a C string `buffer` and a literal
`lit` without NUL: within the literal the first `n` characters must agree, and
when `n` exceeds the length of the literal its terminator is compared too. -/
def strncmp_eq (buffer lit : Str) (n : Nat) : Bool :=
  if n ≤ lit.length then buffer.take n = lit.take n else buffer = lit

/-! ## Files -/

/-- The file tree of the machine on which the four servers run (all of them
listen on 127.0.0.1), together with the value of `$HOME`. -/
structure Disk where
  home : Str
  files : List (Str × Str)
  dirs : List Str
  deriving DecidableEq, Repr

/-- Content stored under a path. -/
def lookup (p : Str) : List (Str × Str) → Option Str
  | [] => none
  | e :: rest => if e.1 = p then some e.2 else lookup p rest

/-- Directory part of a path: the text before the last slash. -/
def dirname (p : Str) : Str :=
  match p.reverse.dropWhile (fun c => c != '/') with
  | [] => ".".toList
  | [_] => "/".toList
  | _ :: t => t.reverse

/-- Last component of a path: the text after the last slash. -/
def basename (p : Str) : Str :=
  (p.reverse.takeWhile (fun c => c != '/')).reverse

namespace Disk

/-- Is there a regular file at `p`. -/
def isFile (d : Disk) (p : Str) : Bool := (lookup p d.files).isSome

/-- Call `mkdir(p, 0755)`: it creates `p` when nothing exists there and the
parent directory exists; otherwise it fails and changes nothing. -/
def mkdir (d : Disk) (p : Str) : Disk :=
  if p ∈ d.dirs ∨ d.isFile p ∨ dirname p ∉ d.dirs then d
  else { d with dirs := d.dirs ++ [p] }

/-- Call `fopen(p, "wb")`: fails when the directory part is missing or `p` is a
directory, else the file exists afterwards and is empty. -/
def fopen_w (d : Disk) (p : Str) : Option Disk :=
  if dirname p ∈ d.dirs ∧ p ∉ d.dirs then
    some { d with files := (p, []) :: d.files.filter (fun e => e.1 ≠ p) }
  else none

/-- Effect of `fwrite` calls that append `data` to the open file `p`. -/
def fwrite (d : Disk) (p : Str) (data : Str) : Disk :=
  { d with files := d.files.map (fun e => if e.1 = p then (e.1, e.2 ++ data) else e) }

/-- Call `fopen(p, "rb")`: the bytes a reader gets, `none` when the open fails.
A directory opens and reads as empty. -/
def fopen_r (d : Disk) (p : Str) : Option Str :=
  match lookup p d.files with
  | some c => some c
  | none => if p ∈ d.dirs then some [] else none

/-- Call `remove(p)`: unlinks a file or removes an empty directory; `none` when
it fails. -/
def remove (d : Disk) (p : Str) : Option Disk :=
  if d.isFile p then some { d with files := d.files.filter (fun e => e.1 ≠ p) }
  else if p ∈ d.dirs ∧ (d.files.all fun e => dirname e.1 ≠ p) ∧
      (d.dirs.all fun q => dirname q ≠ p) then
    some { d with dirs := d.dirs.filter (fun q => q ≠ p) }
  else none

/-- Call `remove(p)` whose result is ignored. -/
def remove_ignore (d : Disk) (p : Str) : Disk := (d.remove p).getD d

end Disk

/-- Function `create_directories` (identical in S1 to S4): `mkdir` on every
prefix that ends before a slash at position 1 or later, then on the whole
path. -/
def create_directories (path : Str) (d : Disk) : Disk :=
  let temp := snprintf BUFFER_SIZE path
  let cuts := (List.range temp.length).filter (fun i => 0 < i ∧ temp.get? i = some '/')
  (cuts.foldl (fun acc i => acc.mkdir (temp.take i)) d).mkdir temp

/-- Directory in which the node whose tree is `$HOME/dir` stores an upload:
the text `"%s/<dir>/%s"` of `getenv("HOME")` and `dest + 4` in a `BUFFER_SIZE`
buffer (`path` in the `uploadf` branch of S1, `base_path` in `receive_file`). -/
def base_path (home dir dest : Str) : Str :=
  snprintf BUFFER_SIZE (home ++ '/' :: dir ++ '/' :: dest.drop 4)

/-- File under which that node stores an upload: `"%s/%s"` of the directory and
the filename (`fullpath` in S1, `full_path` in `receive_file`). -/
def full_path (home dir dest filename : Str) : Str :=
  snprintf BUFFER_SIZE (base_path home dir dest ++ '/' :: filename)

/-- File which that node opens for a relative path: `"%s/<dir>/%s"` of
`getenv("HOME")` and the relative path (`path` in `send_local_file` and
`handle_removef` of S1, `file_path` in `send_file`). -/
def file_path (home dir rel : Str) : Str :=
  snprintf BUFFER_SIZE (home ++ '/' :: dir ++ '/' :: rel)

/-- Blocks produced by the loop `while ((bytes = fread(buffer, 1, size, fp)) > 0)`
on a file that holds `data`; the first argument bounds the number of rounds. -/
def fread_chunks (size : Nat) : Nat → Str → List Str
  | 0, _ => []
  | n + 1, data =>
    if data = [] then [] else data.take size :: fread_chunks size n (data.drop size)

/-- The `fread` loop with a `BUFFER_SIZE` buffer; `data.length` rounds always
suffice because every round takes at least one byte. -/
def fread_all (data : Str) : List Str := fread_chunks BUFFER_SIZE data.length data

/-- The receive loop shared by the upload, download and forwarding paths, which
runs while `recv` returns a positive count and leaves at a block with
`bytes == 3 && strncmp(buffer, "EOF", 3) == 0`: the blocks handed to the loop
body, and the blocks left unread on the socket. -/
def recv_until_EOF : List Str → List Str × List Str
  | [] => ([], [])
  | c :: rest =>
    if c = [] then ([], [])
    else if c = EOF then ([], rest)
    else ((c :: (recv_until_EOF rest).1), (recv_until_EOF rest).2)

/-! ## External tools -/

/-- Shell pattern matching as used by `find -name`: `*` matches any run of
characters, `?` any single character, every other character itself.  Bracket
expressions and backslash escapes are not modelled. -/
def fnmatch : Str → Str → Bool
  | [], name => name.isEmpty
  | p :: ps, name =>
    if p = '*' then name.tails.any (fun t => fnmatch ps t)
    else if p = '?' then
      match name with
      | [] => false
      | _ :: ns => fnmatch ps ns
    else
      match name with
      | [] => false
      | n :: ns => n = p && fnmatch ps ns

/-- Output of `find dir -type f -name pat`: the paths of the regular files at or
below `dir` (written with or without trailing slashes) whose last component
matches `pat`. -/
def find_f (d : Disk) (dir pat : Str) : List Str :=
  let top := (dir.reverse.dropWhile (fun c => c = '/')).reverse
  (d.files.filter (fun e =>
    (e.1 = top || (top ++ ['/']).isPrefixOf e.1) && fnmatch pat (basename e.1))).map Prod.fst

/-- Byte-wise lexicographic order, the order of `sort` in the C locale. -/
def str_le : Str → Str → Bool
  | [], _ => true
  | _ :: _, [] => false
  | a :: as, b :: bs => a.toNat < b.toNat || (a = b && str_le as bs)

/-- Lines that `fgets` reads from `find dir -type f -name pat -printf "%f\n" | sort`
(each line fits the 2048-byte line buffer). -/
def find_names_sorted (d : Disk) (dir pat : Str) : List Str :=
  (((find_f d dir pat).map basename).insertionSort (fun a b => str_le a b = true)).map
    (fun n => n ++ [NL])

/-- Archiver `tar -cf archive -T list`: the archive built from the listed files,
or `none` when `tar` exits with a non-zero status. -/
abbrev Tar := List (Str × Str) → Option Str

/-- Store `content` under `p`, as a shell redirection or `tar -cf` does. -/
def Disk.put (d : Disk) (p content : Str) : Disk :=
  { d with files := (p, content) :: d.files.filter (fun e => e.1 ≠ p) }

/-- The listed paths together with their content. -/
def members (d : Disk) (paths : List Str) : List (Str × Str) :=
  paths.map (fun p => (p, (lookup p d.files).getD []))

/-- Text of a list file: one path per line. -/
def list_text (paths : List Str) : Str :=
  (paths.map (fun p => p ++ [NL])).flatten

/-! ## Network -/

/-- A server reached through `connect`: from the file tree and the blocks the
caller sends on the connection, the new file tree and the blocks sent back;
`none` when the behaviour of the server is undefined. -/
abbrev Peer := Disk → List Str → Option (Disk × List Str)

/-- What answers on each port; `none` when `connect` fails. -/
abbrev Net := Nat → Option Peer

/-! ## Shards (`S2.c`, `S3.c`, `S4.c`) -/

/-- Function `receive_file` of the shard whose tree is `$HOME/dir`. -/
def receive_file (dir : Str) (sock : List Str) (filename dest_path : Str) (d : Disk) :
    Option (Disk × List Str) :=
  if dest_path.length < 4 then none
  else
    let d1 := create_directories (base_path d.home dir dest_path) d
    match d1.fopen_w (full_path d.home dir dest_path filename) with
    | none => some (d1, [])
    | some d2 =>
      some (d2.fwrite (full_path d.home dir dest_path filename) (recv_until_EOF sock).1.flatten,
        ["OK".toList])

/-- Function `send_file` of the shard whose tree is `$HOME/dir`. -/
def send_file (dir : Str) (filename : Str) (d : Disk) : List Str :=
  match d.fopen_r (file_path d.home dir filename) with
  | none => [NOTFOUND]
  | some content => fread_all content ++ [EOF]

/-- The `uploadf` branch of `handle_client`, the same in all three shards. -/
def shard_uploadf (dir : Str) (buffer : Str) (sock : List Str) (d : Disk) :
    Option (Disk × List Str) :=
  let a := scan_s (buffer.drop 7)
  let b := scan_s a.2
  if a.1 = [] then some (d, [])
  else if 256 ≤ a.1.length then none
  else if b.1 = [] then some (d, [])
  else if 512 ≤ b.1.length then none
  else receive_file dir sock a.1 b.1 d

/-- The `removef` branch of `handle_client`, the same in all three shards: the
first line of `find $HOME/dir -type f -name "<filename>"` is removed. -/
def shard_removef (dir : Str) (buffer : Str) (d : Disk) : Option (Disk × List Str) :=
  let a := scan_s (buffer.drop 7)
  if a.1 = [] then some (d, [])
  else if 256 ≤ a.1.length then none
  else
    match find_f d (d.home ++ '/' :: dir) a.1 with
    | [] => some (d, [NOTFOUND])
    | line :: _ =>
      let filepath := (snprintf BUFFER_SIZE (line ++ [NL])).takeWhile
        (fun c => c != NL)
      match d.remove filepath with
      | some d1 => some (d1, ["REMOVED".toList])
      | none => some (d, [NOTFOUND])

/-- The `dispfnames` branch of `handle_client` in S2 and S3. -/
def shard_dispfnames (dir ext : Str) (buffer : Str) (d : Disk) : Option (Disk × List Str) :=
  let a := scan_s (buffer.drop 10)
  if a.1 = [] then some (d, ["Usage: dispfnames <foldername>".toList ++ [NL, NUL]])
  else if 512 ≤ a.1.length then none
  else
    some (d, find_names_sorted d (d.home ++ '/' :: dir ++ '/' :: a.1) ('*' :: ext) ++ [EOF])

/-- The archive part of the `downltar` branch of S2: `pdf.tar` is built in the
working directory `cwd` of the shard, streamed and removed. -/
def send_pdf_tar (tar : Tar) (cwd : Str) (d : Disk) : Disk × List Str :=
  let paths := find_f d (d.home ++ "/S2".toList) "*.pdf".toList
  let d1 := d.put (cwd ++ "/list.txt".toList) (list_text paths)
  match tar (members d1 paths) with
  | none => (d1, ["Tar creation failed".toList])
  | some blob =>
    let d2 := d1.put (cwd ++ "/pdf.tar".toList) blob
    (((d2.remove_ignore (cwd ++ "/pdf.tar".toList)).remove_ignore (cwd ++ "/list.txt".toList)),
      fread_all blob ++ [EOF])

/-- Function `send_text_tar` of S3. -/
def send_text_tar (tar : Tar) (cwd : Str) (d : Disk) : Disk × List Str :=
  let paths := find_f d (d.home ++ "/S3".toList) "*.txt".toList
  let d1 := d.put (cwd ++ "/list.txt".toList) (list_text paths)
  let d2 := match tar (members d1 paths) with
    | none => d1
    | some blob => d1.put (cwd ++ "/text.tar".toList) blob
  match d2.fopen_r (cwd ++ "/text.tar".toList) with
  | none => (d2, [NOTFOUND])
  | some content =>
    (((d2.remove_ignore (cwd ++ "/text.tar".toList)).remove_ignore (cwd ++ "/list.txt".toList)),
      fread_all content ++ [EOF])

/-- Function `handle_client` of S2. -/
def handle_client_S2 (tar : Tar) (cwd : Str) : Peer := fun d sock =>
  match sock with
  | [] => some (d, [])
  | c :: rest =>
    if c = [] then some (d, [])
    else
      let buffer := cstr c
      if strncmp_eq buffer "uploadf".toList 7 then shard_uploadf "S2".toList buffer rest d
      else if strncmp_eq buffer "downlf".toList 6 then
        let a := scan_s (buffer.drop 6)
        if a.1 = [] then some (d, [])
        else if 256 ≤ a.1.length then none
        else some (d, send_file "S2".toList a.1 d)
      else if strncmp_eq buffer "downltar".toList 8 then
        let a := scan_s (buffer.drop 8)
        if a.1 = [] then some (d, [])
        else if 10 ≤ a.1.length then none
        else if a.1 = ".pdf".toList then some (send_pdf_tar tar cwd d)
        else some (d, [])
      else if strncmp_eq buffer "dispfnames".toList 10 then
        shard_dispfnames "S2".toList ".pdf".toList buffer d
      else if strncmp_eq buffer "removef".toList 7 then shard_removef "S2".toList buffer d
      else some (d, [])

/-- Function `handle_client` of S3. -/
def handle_client_S3 (tar : Tar) (cwd : Str) : Peer := fun d sock =>
  match sock with
  | [] => some (d, [])
  | c :: rest =>
    if c = [] then some (d, [])
    else
      let buffer := cstr c
      if strncmp_eq buffer "uploadf".toList 7 then shard_uploadf "S3".toList buffer rest d
      else if strncmp_eq buffer "downlf".toList 6 then
        let a := scan_s (buffer.drop 6)
        if a.1 = [] then some (d, [])
        else if 256 ≤ a.1.length then none
        else if a.1 = "text.tar".toList then some (send_text_tar tar cwd d)
        else some (d, send_file "S3".toList a.1 d)
      else if strncmp_eq buffer "downltar".toList 8 then
        let a := scan_s (buffer.drop 8)
        if a.1 = [] then some (d, [])
        else if 16 ≤ a.1.length then none
        else if a.1 = ".txt".toList then some (send_text_tar tar cwd d)
        else some (d, ["Unsupported extension".toList ++ [NUL]])
      else if strncmp_eq buffer "dispfnames".toList 10 then
        shard_dispfnames "S3".toList ".txt".toList buffer d
      else if strncmp_eq buffer "removef".toList 7 then shard_removef "S3".toList buffer d
      else some (d, [])

/-- Function `handle_client` of S4. -/
def handle_client_S4 : Peer := fun d sock =>
  match sock with
  | [] => some (d, [])
  | c :: rest =>
    if c = [] then some (d, [])
    else
      let buffer := cstr c
      if strncmp_eq buffer "uploadf".toList 7 then shard_uploadf "S4".toList buffer rest d
      else if strncmp_eq buffer "downlf".toList 6 then
        let a := scan_s (buffer.drop 6)
        if a.1 = [] then some (d, [])
        else if 256 ≤ a.1.length then none
        else some (d, send_file "S4".toList a.1 d)
      else if strncmp_eq buffer "dispfnames".toList 11 then
        some (d, (find_f d (d.home ++ "/S4".toList) "*.zip".toList).map
          (fun p => p ++ [NL]) ++ [EOF])
      else if strncmp_eq buffer "removef".toList 7 then shard_removef "S4".toList buffer d
      else some (d, [])

/-- The three shards behind their ports; a shard that is not running refuses
the connection. -/
def shards (tar : Tar) (cwd2 cwd3 : Str) (up2 up3 up4 : Bool) : Net := fun port =>
  if port = S2_PORT then (if up2 then some (handle_client_S2 tar cwd2) else none)
  else if port = S3_PORT then (if up3 then some (handle_client_S3 tar cwd3) else none)
  else if port = S4_PORT then (if up4 then some handle_client_S4 else none)
  else none

/-! ## Coordinator (`S1.c`) -/

/-- A connection the coordinator tried to open: the port, whether `connect`
succeeded, and the blocks it sent on it. -/
structure Conn where
  port : Nat
  connected : Bool
  sent : List Str
  deriving DecidableEq, Repr

/-- State of one `prcclient` process: its copy of `file_map`, the file tree,
the unread blocks of the client socket, the blocks sent to the client so far,
and the connections opened so far. -/
structure S1 where
  file_map : List FileMap
  disk : Disk
  inp : List Str
  out : List Str
  conns : List Conn
  deriving DecidableEq, Repr

/-- Call `send(client_sock, data, len, 0)`; a send of zero bytes transmits
nothing. -/
def S1.send (s : S1) (data : Str) : S1 :=
  if data = [] then s else { s with out := s.out ++ [data] }

/-- Sends of several blocks in order. -/
def S1.sendAll (s : S1) (blocks : List Str) : S1 := blocks.foldl S1.send s

/-- Function `send_to_secondary_server`. -/
def send_to_secondary_server (net : Net) (port : Nat) (filepath filename dest : Str)
    (s : S1) : Option S1 :=
  match s.disk.fopen_r filepath with
  | none => some s
  | some content =>
    match net port with
    | none => some { s with conns := s.conns ++ [Conn.mk port false []] }
    | some peer =>
      let sent := snprintf BUFFER_SIZE ("uploadf ".toList ++ filename ++ ' ' :: dest) ::
        (fread_all content ++ [EOF])
      match peer s.disk sent with
      | none => none
      | some r =>
        some { s with disk := r.1.remove_ignore filepath,
                      conns := s.conns ++ [Conn.mk port true sent] }

/-- Function `request_file_from_secondary`. -/
def request_file_from_secondary (net : Net) (port : Nat) (rel_path save_as : Str)
    (s : S1) : Option S1 :=
  match s.disk.fopen_w save_as with
  | none => some s
  | some d1 =>
    match net port with
    | none => some { s with disk := d1, conns := s.conns ++ [Conn.mk port false []] }
    | some peer =>
      let sent := [snprintf BUFFER_SIZE ("downlf ".toList ++ rel_path)]
      match peer d1 sent with
      | none => none
      | some r =>
        some { s with disk := r.1.fwrite save_as (recv_until_EOF r.2).1.flatten,
                      conns := s.conns ++ [Conn.mk port true sent] }

/-- Function `send_local_file`. -/
def send_local_file (filename : Str) (s : S1) : S1 :=
  match get_relative_path s.file_map filename with
  | none => s.send NOTFOUND
  | some rel_path =>
    match s.disk.fopen_r (file_path s.disk.home "S1".toList rel_path) with
    | none => s.send NOTFOUND
    | some content => (s.sendAll (fread_all content)).send EOF

/-- Call `strcat(msg, buffer)` on the 16384-byte `msg` of `handle_dispfnames`;
undefined when the result does not fit. -/
def strcat_msg (msg buffer : Str) : Option Str :=
  if msg.length + buffer.length < BUFFER_SIZE * 8 then some (msg ++ buffer) else none

/-- The `fgets` loop of `handle_dispfnames` over the lines of the local
listing. -/
def cat_lines : List Str → Str → Option Str
  | [], msg => some msg
  | l :: rest, msg =>
    match strcat_msg msg (cstr l) with
    | none => none
    | some m => cat_lines rest m

/-- The `recv` loop of `handle_dispfnames` on the connection to one shard. -/
def recv_listing : List Str → Str → Option Str
  | [], msg => some msg
  | c :: rest, msg =>
    if c = [] then some msg
    else if strncmp_eq (cstr c) EOF 3 then some msg
    else
      match strcat_msg msg (cstr c) with
      | none => none
      | some m => recv_listing rest m

/-- One round of the loop over `servers[]` in `handle_dispfnames`. -/
def dispfnames_server (net : Net) (pathname : Str) (port : Nat) (acc : S1 × Str) :
    Option (S1 × Str) :=
  match net port with
  | none => some ({ acc.1 with conns := acc.1.conns ++ [Conn.mk port false []] }, acc.2)
  | some peer =>
    let cmd := snprintf BUFFER_SIZE ("dispfnames ".toList ++ pathname)
    match peer acc.1.disk [cmd] with
    | none => none
    | some r =>
      match recv_listing r.2 acc.2 with
      | none => none
      | some m =>
        some ({ acc.1 with disk := r.1, conns := acc.1.conns ++ [Conn.mk port true [cmd]] }, m)

/-- Function `handle_dispfnames`; `listing` is what the `fgets` loop reads from
the `find ... | sort` pipe. -/
def handle_dispfnames (net : Net) (listing : List Str) (pathname : Str) (s : S1) : Option S1 :=
  match cat_lines listing [] with
  | none => none
  | some m0 =>
    match dispfnames_server net pathname S2_PORT (s, m0) with
    | none => none
    | some a2 =>
      match dispfnames_server net pathname S3_PORT a2 with
      | none => none
      | some a3 =>
        match dispfnames_server net pathname S4_PORT a3 with
        | none => none
        | some a4 => some (a4.1.send a4.2)

/-- Function `forward_removef_to_secondary`. -/
def forward_removef_to_secondary (net : Net) (port : Nat) (filename : Str) (s : S1) :
    Option S1 :=
  match net port with
  | none => some (S1.send { s with conns := s.conns ++ [Conn.mk port false []] } NOTFOUND)
  | some peer =>
    let cmd := snprintf BUFFER_SIZE ("removef ".toList ++ filename)
    match peer s.disk [cmd] with
    | none => none
    | some r =>
      let s1 : S1 := { s with disk := r.1, conns := s.conns ++ [Conn.mk port true [cmd]] }
      match r.2 with
      | [] => some (s1.send NOTFOUND)
      | c :: _ => if c = [] then some (s1.send NOTFOUND) else some (s1.send c)

/-- Function `handle_removef`. -/
def handle_removef (net : Net) (filename : Str) (s : S1) : Option S1 :=
  match strrchr '.' filename with
  | none => some (s.send NOTFOUND)
  | some ext =>
    if ext = ".c".toList then
      match get_relative_path s.file_map filename with
      | none => some (s.send ("File not found in S1.".toList ++ [NUL]))
      | some rel_path =>
        match s.disk.remove (file_path s.disk.home "S1".toList rel_path) with
        | some d1 => some (S1.send { s with disk := d1 } ("File removed from S1.".toList ++ [NUL]))
        | none => some (s.send ("File not found in S1.".toList ++ [NUL]))
    else if ext = ".pdf".toList then forward_removef_to_secondary net S2_PORT filename s
    else if ext = ".txt".toList then forward_removef_to_secondary net S3_PORT filename s
    else if ext = ".zip".toList then forward_removef_to_secondary net S4_PORT filename s
    else some (s.send ("Unsupported file type.".toList ++ [NUL]))

/-- The tail shared by the branches of `handle_downltar`: open the archive and
stream it to the client. -/
def send_archive (path : Str) (s : S1) : Option (S1 × Bool) :=
  match s.disk.fopen_r path with
  | none => some (s.send NOTFOUND, false)
  | some content => some ((s.sendAll (fread_all content)).send EOF, true)

/-- Function `handle_downltar`; `cwd` is the working directory of S1, in which
the archives are created. -/
def handle_downltar (net : Net) (tar : Tar) (cwd : Str) (cmdline : Str) (s : S1) : Option S1 :=
  let a := scan_s (cmdline.drop 8)
  if a.1 = [] then some (s.send ("Invalid command format".toList ++ [NUL]))
  else if 16 ≤ a.1.length then none
  else if a.1 = ".c".toList then
    let paths := find_f s.disk (s.disk.home ++ "/S1".toList) "*.c".toList
    let d1 := s.disk.put (cwd ++ "/files_to_tar.txt".toList) (list_text paths)
    match tar (members d1 paths) with
    | none => some (S1.send { s with disk := d1 } ("Error creating tarball".toList ++ [NUL]))
    | some blob =>
      let d2 := d1.put (cwd ++ "/cfiles.tar".toList) blob
      match send_archive (cwd ++ "/cfiles.tar".toList) { s with disk := d2 } with
      | none => none
      | some (s1, false) => some s1
      | some (s1, true) =>
        let d3 := s1.disk.remove_ignore (cwd ++ "/files_to_tar.txt".toList)
        some { s1 with disk := d3.remove_ignore (cwd ++ "/cfiles.tar".toList) }
  else if a.1 = ".pdf".toList then
    match request_file_from_secondary net S2_PORT "pdf.tar".toList (cwd ++ "/pdf.tar".toList) s with
    | none => none
    | some s0 =>
      match send_archive (cwd ++ "/pdf.tar".toList) s0 with
      | none => none
      | some (s1, false) => some s1
      | some (s1, true) =>
        some { s1 with disk := s1.disk.remove_ignore (cwd ++ "/pdf.tar".toList) }
  else if a.1 = ".txt".toList then
    match request_file_from_secondary net S3_PORT "text.tar".toList (cwd ++ "/text.tar".toList) s with
    | none => none
    | some s0 =>
      match send_archive (cwd ++ "/text.tar".toList) s0 with
      | none => none
      | some (s1, false) => some s1
      | some (s1, true) =>
        some { s1 with disk := s1.disk.remove_ignore (cwd ++ "/text.tar".toList) }
  else if a.1 = ".zip".toList then some (s.send ("Zip files not supported".toList ++ [NUL]))
  else some (s.send ("Unsupported extension".toList ++ [NUL]))

/-- The apostrophe of the `File '%s' saved at %s` status line. -/
def APOS : Char := Char.ofNat 39

/-- The forwarding dispatch at the end of the `uploadf` branch of `prcclient`:
a `.pdf`, `.txt` or `.zip` file goes to S2, S3 or S4, any other file stays. -/
def forward_upload (net : Net) (ext fullpath filename dest : Str) (s : S1) : Option S1 :=
  if ext = ".pdf".toList then send_to_secondary_server net S2_PORT fullpath filename dest s
  else if ext = ".txt".toList then send_to_secondary_server net S3_PORT fullpath filename dest s
  else if ext = ".zip".toList then send_to_secondary_server net S4_PORT fullpath filename dest s
  else some s

/-- The status line `File '%s' saved at %s` in the 256-byte `msg`. -/
def upload_status (filename fullpath : Str) : Str :=
  snprintf 256 ("File ".toList ++ APOS :: filename ++ APOS :: " saved at ".toList ++ fullpath)

/-- The `uploadf` branch of `prcclient`.  The flag of the result tells whether
the command loop goes on (`true`) or `prcclient` returns (`false`). -/
def prcclient_uploadf (net : Net) (buffer : Str) (s : S1) : Option (S1 × Bool) :=
  let a := scan_s (buffer.drop 7)
  let b := scan_s a.2
  if a.1 = [] then some (s, true)
  else if 256 ≤ a.1.length then none
  else if b.1 = [] then some (s, true)
  else if 512 ≤ b.1.length then none
  else
    let filename := a.1
    let dest := b.1
    match strrchr '.' filename with
    | none => some (s.send "Invalid extension".toList, true)
    | some ext =>
      if dest.length < 4 then none
      else
        let d1 := create_directories (base_path s.disk.home "S1".toList dest) s.disk
        let fullpath := full_path s.disk.home "S1".toList dest filename
        match d1.fopen_w fullpath with
        | none => some ({ s with disk := d1 }, true)
        | some d2 =>
          let s1 := S1.send { s with disk := d2 } "OK".toList
          let r := recv_until_EOF s1.inp
          let s2 : S1 := { s1 with disk := s1.disk.fwrite fullpath r.1.flatten, inp := r.2 }
          match save_file_path s2.file_map filename dest with
          | none => none
          | some m =>
            let s3 : S1 := { s2 with file_map := m }
            match forward_upload net ext fullpath filename dest s3 with
            | none => none
            | some s4 => some (s4.send (upload_status filename fullpath), true)

/-- The `downlf` branch of `prcclient`. -/
def prcclient_downlf (net : Net) (buffer : Str) (s : S1) : Option (S1 × Bool) :=
  let a := scan_s (buffer.drop 6)
  if a.1 = [] then some (s, true)
  else if 256 ≤ a.1.length then none
  else
    let filename := a.1
    let ext := strrchr '.' filename
    let rel_path := get_relative_path s.file_map filename
    if ext = none ∨ (rel_path = none ∧ ext ≠ some ".c".toList) then some (s.send NOTFOUND, false)
    else if ext = some ".c".toList then some (send_local_file filename s, true)
    else
      let port : Option Nat :=
        if ext = some ".pdf".toList then some S2_PORT
        else if ext = some ".txt".toList then some S3_PORT
        else if ext = some ".zip".toList then some S4_PORT
        else none
      match port with
      | none => some (s.send ("Unsupported file type".toList ++ [NUL]), false)
      | some port =>
        match net port with
        | none =>
          some (S1.send { s with conns := s.conns ++ [Conn.mk port false []] } NOTFOUND, false)
        | some peer =>
          let cmd := snprintf BUFFER_SIZE ("downlf ".toList ++ rel_path.getD [])
          match peer s.disk [cmd] with
          | none => none
          | some r =>
            let s1 : S1 := { s with disk := r.1, conns := s.conns ++ [Conn.mk port true [cmd]] }
            some ((s1.sendAll (recv_until_EOF r.2).1).send EOF, true)

/-- One round of the `while (1)` loop of `prcclient` after a command was
received into `buffer`. -/
def prcclient_body (net : Net) (tar : Tar) (cwd : Str) (buffer : Str) (s : S1) :
    Option (S1 × Bool) :=
  if strncmp_eq buffer "uploadf".toList 7 then prcclient_uploadf net buffer s
  else if strncmp_eq buffer "downlf".toList 6 then prcclient_downlf net buffer s
  else if strncmp_eq buffer "removef".toList 7 then
    let a := scan_s (buffer.drop 7)
    if a.1 = [] then some (s, true)
    else if 256 ≤ a.1.length then none
    else (handle_removef net a.1 s).map (fun t => (t, true))
  else if strncmp_eq buffer "dispfnames".toList 10 then
    let a := scan_s (buffer.drop 10)
    if a.1 = [] then some (s.send ("Usage: dispfnames <pathname>".toList ++ [NL, NUL]), true)
    else if 512 ≤ a.1.length then none
    else
      (handle_dispfnames net
        (find_names_sorted s.disk (s.disk.home ++ "/S1/".toList ++ a.1) "*.c".toList) a.1 s).map
        (fun t => (t, true))
  else if strncmp_eq buffer "downltar".toList 8 then
    (handle_downltar net tar cwd buffer s).map (fun t => (t, true))
  else some (s, true)

/-- The command loop of `prcclient`, for at most the given number of rounds. -/
def prcclient_loop (net : Net) (tar : Tar) (cwd : Str) : Nat → S1 → Option S1
  | 0, s => some s
  | n + 1, s =>
    match s.inp with
    | [] => some s
    | c :: rest =>
      if c = [] then some s
      else
        match prcclient_body net tar cwd (cstr c) { s with inp := rest } with
        | none => none
        | some (s1, true) => prcclient_loop net tar cwd n s1
        | some (s1, false) => some s1

/-- Function `prcclient`: every round reads at least one block, so as many
rounds as there are unread blocks suffice. -/
def prcclient (net : Net) (tar : Tar) (cwd : Str) (s : S1) : Option S1 :=
  prcclient_loop net tar cwd s.inp.length s

/-! ## Auxiliary notions used in the statements -/

/-- A word as `%s` reads it from a C string: not empty, without whitespace and
without NUL. -/
def Token (t : Str) : Prop := t ≠ [] ∧ ∀ c ∈ t, isSpace c = false ∧ c ≠ NUL

/-- A run of `save_file_path` calls, one per upload, in order. -/
def save_all : List (Str × Str) → List FileMap → Option (List FileMap)
  | [], m => some m
  | u :: rest, m =>
    match save_file_path m u.1 u.2 with
    | none => none
    | some m1 => save_all rest m1

/-- Extensions served by a shard, with the port of the shard. -/
def remote_route (ext : Str) (port : Nat) : Prop :=
  (ext = ".pdf".toList ∧ port = S2_PORT) ∨ (ext = ".txt".toList ∧ port = S3_PORT) ∨
    (ext = ".zip".toList ∧ port = S4_PORT)

/-- Text that the listing loop of the coordinator keeps from the blocks of one
shard: the C strings of the blocks before the first block that is empty or
begins with the three characters `EOF`. -/
def reply_lines : List Str → Str
  | [] => []
  | c :: rest =>
    if c = [] ∨ strncmp_eq (cstr c) EOF 3 = true then [] else cstr c ++ reply_lines rest

/-- Answer to a single request on a fresh connection: the file tree afterwards
and the blocks received; a refused connection yields no blocks. -/
def ask (p : Option Peer) (d : Disk) (cmd : Str) : Option (Disk × List Str) :=
  match p with
  | none => some (d, [])
  | some peer => peer d [cmd]

/-- A machine on which the text shard holds the single file `docs/notes.txt`
and the coordinator tree is empty. -/
def notes_disk : Disk :=
  { home := "/h".toList,
    files := [("/h/S3/docs/notes.txt".toList, "hello".toList)],
    dirs := ["/".toList, "/h".toList, "/h/S3".toList, "/h/S3/docs".toList] }

/-- A machine with one file in `docs` on the coordinator, on the document shard
and on the text shard. -/
def three_files_disk : Disk :=
  { home := "/h".toList,
    files := [("/h/S1/docs/x.c".toList, "int x;".toList),
      ("/h/S2/docs/EOF_report.pdf".toList, "report".toList),
      ("/h/S3/docs/z.txt".toList, "hello".toList)],
    dirs := ["/".toList, "/h".toList, "/h/S1".toList, "/h/S1/docs".toList, "/h/S2".toList,
      "/h/S2/docs".toList, "/h/S3".toList, "/h/S3/docs".toList] }

/-- The filename operand of an `uploadf` command line. -/
abbrev uploadf_filename (buffer : Str) : Str := (scan_s (buffer.drop 7)).1

/-- The destination operand of an `uploadf` command line. -/
abbrev uploadf_dest (buffer : Str) : Str := (scan_s (scan_s (buffer.drop 7)).2).1

/-- The command line that the client builds for an upload
(`"uploadf %s %s"` in `w25clients.c`). -/
def uploadf_line (f dest : Str) : Str := "uploadf ".toList ++ f ++ ' ' :: dest

/-- The command line that the client builds for a download (`"downlf %s"`). -/
def downlf_line (f : Str) : Str := "downlf ".toList ++ f

/-- The supported extensions, each with the directory name of the node that
keeps its files. -/
def owner_dir (ext dir : Str) : Prop :=
  (ext = ".c".toList ∧ dir = "S1".toList) ∨ (ext = ".pdf".toList ∧ dir = "S2".toList) ∨
    (ext = ".txt".toList ∧ dir = "S3".toList) ∨ (ext = ".zip".toList ∧ dir = "S4".toList)

/-- A machine with an empty home directory `/h`. -/
def empty_disk : Disk := { home := "/h".toList, files := [], dirs := ["/".toList, "/h".toList] }

/-- State of the session after `uploadf a.txt ~S3/docs` with the content
`hello` on `empty_disk`, all shards running. -/
def upload_example_result : S1 :=
  { file_map := [⟨"a.txt".toList, "docs/a.txt".toList⟩],
    disk :=
      { home := "/h".toList,
        files := [("/h/S3/docs/a.txt".toList, "hello".toList)],
        dirs := ["/".toList, "/h".toList, "/h/S1".toList, "/h/S1/docs".toList, "/h/S3".toList,
          "/h/S3/docs".toList] },
    inp := [],
    out := ["OK".toList, upload_status "a.txt".toList "/h/S1/docs/a.txt".toList],
    conns := [Conn.mk S3_PORT true
      [uploadf_line "a.txt".toList "~S3/docs".toList, "hello".toList, EOF]] }

/-- A stand-in for `tar` in the examples: the archive is the list of member
names, each followed by a newline and the content of the member. -/
def toy_tar : Tar := fun ms => some (ms.map (fun m => m.1 ++ NL :: m.2)).flatten

/-- A machine with one document on S2, one text on S3 and two archives on S4;
`/w1`, `/w2` and `/w3` are the working directories of S1, S2 and S3. -/
def archive_disk : Disk :=
  { home := "/h".toList,
    files := [("/h/S2/docs/a.pdf".toList, "PDF".toList),
      ("/h/S3/docs/z.txt".toList, "hello".toList),
      ("/h/S4/docs/a.zip".toList, "ZIP".toList),
      ("/h/S4/other/b.zip".toList, "ZIP2".toList)],
    dirs := ["/".toList, "/h".toList, "/w1".toList, "/w2".toList, "/w3".toList,
      "/h/S2".toList, "/h/S2/docs".toList, "/h/S3".toList, "/h/S3/docs".toList,
      "/h/S4".toList, "/h/S4/docs".toList, "/h/S4/other".toList] }

/-- The three shards of the examples, all running, with `toy_tar`. -/
def example_net : Net := shards toy_tar "/w2".toList "/w3".toList true true true

/-- The extension operand of a `downltar` command line. -/
abbrev downltar_ext (cmdline : Str) : Str := (scan_s (cmdline.drop 8)).1

/-- The remote extensions for which `handle_downltar` asks a shard, with the
port of the shard and the name of the archive file. -/
def archive_route (ext name : Str) (port : Nat) : Prop :=
  (ext = ".pdf".toList ∧ name = "pdf.tar".toList ∧ port = S2_PORT) ∨
    (ext = ".txt".toList ∧ name = "text.tar".toList ∧ port = S3_PORT)

/-- The five command words of `prcclient`, each with the count that its
`strncmp` test uses. -/
def command_words : List (Str × Nat) :=
  [("uploadf".toList, 7), ("downlf".toList, 6), ("removef".toList, 7),
    ("dispfnames".toList, 10), ("downltar".toList, 8)]

/-- The index entry that `save_file_path` writes for an upload of the file
`u.1` to the destination `u.2`. -/
def index_entry (u : Str × Str) : FileMap :=
  ⟨u.1, snprintf 512 (u.2.drop 4 ++ '/' :: u.1)⟩

/-- Uploads of `n` files with pairwise distinct names to one destination. -/
def distinct_uploads (n : Nat) : List (Str × Str) :=
  (List.range n).map (fun i => (List.replicate (i + 1) 'a' ++ ".c".toList, "~S1/d".toList))

/-- The tree of `archive_disk` once S1 has created `/w1/text.tar`. -/
def archive_disk_opened : Disk :=
  { archive_disk with files := ("/w1/text.tar".toList, []) :: archive_disk.files }

/-! ## Connections (`main` of `S1.c`) -/

/-- The child that `main` forks for an accepted connection: `fork` gives it a
copy of the `file_map` of the parent; `tree` is the file tree at that moment
and `inp` the blocks that the client is going to send. -/
def fork_child (parent : List FileMap) (tree : Disk) (inp : List Str) : S1 :=
  ⟨parent, tree, inp, [], []⟩

/-- The accept loop of `main` with the connections served one after the other:
each child runs `prcclient` on its copy of `file_map`, and nothing of its
memory returns to the parent, which never calls `save_file_path` itself.  A
child whose `prcclient` returns goes back into the loop with the listening
socket closed, where it serves no client any more.  The result is the file
tree after the last connection and, for each connection, the blocks sent to
its client. -/
def main_sessions (net : Net) (tar : Tar) (cwd : Str) (parent : List FileMap) :
    List (List Str) → Disk → Option (Disk × List (List Str))
  | [], d => some (d, [])
  | inp :: rest, d =>
    match prcclient net tar cwd (fork_child parent d inp) with
    | none => none
    | some s1 =>
      match main_sessions net tar cwd parent rest s1.disk with
      | none => none
      | some r => some (r.1, s1.out :: r.2)

/-- Function `main`: the index of the parent is the zero-initialised global,
that is, empty (`file_map_count = 0`). -/
def main (net : Net) (tar : Tar) (cwd : Str) (conns : List (List Str)) (d : Disk) :
    Option (Disk × List (List Str)) :=
  main_sessions net tar cwd [] conns d

/-- One round of the `while (1)` loop of `prcclient`: receive a command and
handle it.  The flag is `false` when the loop is left (`recv` returned no
bytes, or the handler returned). -/
def prcclient_round (net : Net) (tar : Tar) (cwd : Str) (s : S1) : Option (S1 × Bool) :=
  match s.inp with
  | [] => some (s, false)
  | c :: rest =>
    if c = [] then some (s, false)
    else prcclient_body net tar cwd (cstr c) { s with inp := rest }

/-- Two children of `main` that serve two connections at the same time.  Each
child has its own memory (its copy of `file_map`, its sockets); the file tree
is the one of the machine, and the shards serve one connection at a time. -/
structure Pair where
  first : S1
  first_live : Bool
  second : S1
  second_live : Bool
  tree : Disk
  deriving DecidableEq, Repr

/-- A step of two concurrent children: the scheduler lets one of them run one
round of its command loop on the file tree as it is now.  A child that has
left its loop does nothing more. -/
def Pair.step (net : Net) (tar : Tar) (cwd : Str) (w : Pair) (pick_first : Bool) :
    Option Pair :=
  if pick_first then
    if w.first_live then
      match prcclient_round net tar cwd { w.first with disk := w.tree } with
      | none => none
      | some (s1, live) => some { w with first := s1, first_live := live, tree := s1.disk }
    else some w
  else
    if w.second_live then
      match prcclient_round net tar cwd { w.second with disk := w.tree } with
      | none => none
      | some (s1, live) => some { w with second := s1, second_live := live, tree := s1.disk }
    else some w

/-- A run of two concurrent children under a schedule: `true` lets the first
child run its next round, `false` the second. -/
def run_two (net : Net) (tar : Tar) (cwd : Str) : List Bool → Pair → Option Pair
  | [], w => some w
  | b :: rest, w =>
    match w.step net tar cwd b with
    | none => none
    | some w1 => run_two net tar cwd rest w1

/-- Two children forked by `main` for two connections accepted on the tree
`d`. -/
def fork_two (parent : List FileMap) (d : Disk) (inp1 inp2 : List Str) : Pair :=
  ⟨fork_child parent d inp1, true, fork_child parent d inp2, true, d⟩

/-- A machine on which a regular file `S2` in the home directory stands where
the tree of the shard S2 should be, so that S2 can create no file. -/
def blocked_disk : Disk :=
  { home := "/h".toList, files := [("/h/S2".toList, [])], dirs := ["/".toList, "/h".toList] }

/-- The command line `removef <filename>`. -/
def removef_line (f : Str) : Str := "removef ".toList ++ f

/-- What the client of the first of two example connections sends: an upload
of `a.txt`, then a download of the file of the other connection. -/
def txt_session : List Str :=
  [uploadf_line "a.txt".toList "~S3/docs".toList, "hello".toList, EOF, downlf_line "b.pdf".toList]

/-- What the client of the second example connection sends. -/
def pdf_session : List Str :=
  [uploadf_line "b.pdf".toList "~S2/docs".toList, "world".toList, EOF, downlf_line "a.txt".toList]

/-- The file tree after both example uploads. -/
def two_sessions_tree : Disk :=
  { home := "/h".toList,
    files := [("/h/S2/docs/b.pdf".toList, "world".toList),
      ("/h/S3/docs/a.txt".toList, "hello".toList)],
    dirs := ["/".toList, "/h".toList, "/h/S1".toList, "/h/S1/docs".toList, "/h/S3".toList,
      "/h/S3/docs".toList, "/h/S2".toList, "/h/S2/docs".toList] }

/-- The two example children after both uploads and both downloads, the
uploads first. -/
def two_sessions_result : Pair :=
  { first :=
      { file_map := [⟨"a.txt".toList, "docs/a.txt".toList⟩],
        disk := two_sessions_tree,
        inp := [],
        out := ["OK".toList, upload_status "a.txt".toList "/h/S1/docs/a.txt".toList, NOTFOUND],
        conns := [Conn.mk S3_PORT true
          [uploadf_line "a.txt".toList "~S3/docs".toList, "hello".toList, EOF]] },
    first_live := false,
    second :=
      { file_map := [⟨"b.pdf".toList, "docs/b.pdf".toList⟩],
        disk := two_sessions_tree,
        inp := [],
        out := ["OK".toList, upload_status "b.pdf".toList "/h/S1/docs/b.pdf".toList, NOTFOUND],
        conns := [Conn.mk S2_PORT true
          [uploadf_line "b.pdf".toList "~S2/docs".toList, "world".toList, EOF]] },
    second_live := false,
    tree := two_sessions_tree }

/-- Chunks of a stream in which the second one is exactly the end marker. -/
def example_chunks : List Str := ["he".toList, EOF, "llo".toList]

/-! ## Stream connections to the shards -/

/-- What a connection between S1 and a shard does to the blocks passed to
`send`: `to_shard` gives the blocks that the `recv` calls of the shard return
for the blocks that S1 sent, `to_S1` does the same for the other direction.  A
stream socket keeps the bytes and their order, not the boundaries between the
blocks. -/
structure Wire where
  to_shard : List Str → List Str
  to_S1 : List Str → List Str

/-- The shard handler `h` reached through the connection `w`. -/
def over_wire (w : Wire) (h : Peer) : Peer := fun d sent =>
  match h d (w.to_shard sent) with
  | none => none
  | some r => some (r.1, w.to_S1 r.2)

/-- The three shards, all running, each reached through `w`. -/
def wired_shards (w : Wire) (tar : Tar) (cwd2 cwd3 : Str) : Net := fun port =>
  if port = S2_PORT then some (over_wire w (handle_client_S2 tar cwd2))
  else if port = S3_PORT then some (over_wire w (handle_client_S3 tar cwd3))
  else if port = S4_PORT then some (over_wire w handle_client_S4)
  else none

/-- The connection on which every block arrives as it was sent. -/
def intact_wire : Wire := ⟨fun blocks => blocks, fun blocks => blocks⟩

/-- A connection that delivers what follows the first block in one piece: the
content blocks and the end marker, sent back to back, come out of one `recv`. -/
def merging_wire : Wire :=
  ⟨fun blocks =>
    match blocks with
    | [] => []
    | c :: rest => [c, rest.flatten],
   fun blocks => [blocks.flatten]⟩

/-- The blocks of the upload of `f` with the content blocks `cs` to `dest`,
of the download request that follows, and of its answer, arrive through `w` as
they were sent. -/
def transfers_intact (w : Wire) (f dest : Str) (cs : List Str) : Prop :=
  w.to_shard (uploadf_line f dest :: (fread_all cs.flatten ++ [EOF])) =
      uploadf_line f dest :: (fread_all cs.flatten ++ [EOF]) ∧
    w.to_shard [downlf_line (dest.drop 4 ++ '/' :: f)] =
      [downlf_line (dest.drop 4 ++ '/' :: f)] ∧
    w.to_S1 (fread_all cs.flatten ++ [EOF]) = fread_all cs.flatten ++ [EOF]

/-- The components of a path: the runs of characters between its slashes. -/
def components : Str → List Str
  | [] => [[]]
  | c :: rest =>
    if c = '/' then [] :: components rest
    else
      match components rest with
      | [] => [[c]]
      | x :: xs => (c :: x) :: xs

/-- A path made of ordinary names: no component is empty, `.` or `..`.  Two
such paths under one directory name the same file only when they are the same
string. -/
def plain_path (p : Str) : Prop :=
  ∀ c ∈ components p, c ≠ [] ∧ c ≠ ".".toList ∧ c ≠ "..".toList

/-- The directory name of the node that keeps an upload with the extension
`ext` in the end, as `forward_upload` decides it: a shard for `.pdf`, `.txt`
and `.zip`, the coordinator for everything else. -/
def keeper_dir (ext dir : Str) : Prop :=
  (ext = ".pdf".toList ∧ dir = "S2".toList) ∨ (ext = ".txt".toList ∧ dir = "S3".toList) ∨
    (ext = ".zip".toList ∧ dir = "S4".toList) ∨
    (ext ≠ ".pdf".toList ∧ ext ≠ ".txt".toList ∧ ext ≠ ".zip".toList ∧ dir = "S1".toList)

/-- The paths on which `create_directories` calls `mkdir`, in order. -/
def mkdir_targets (path : Str) : List Str :=
  ((List.range (snprintf BUFFER_SIZE path).length).filter
      (fun i => 0 < i ∧ (snprintf BUFFER_SIZE path).get? i = some '/')).map
    (fun i => (snprintf BUFFER_SIZE path).take i) ++ [snprintf BUFFER_SIZE path]

/-! ## Two concurrent uploads -/

/-- What one client uploads: the filename, the destination, the extension, the
directory name of the node that keeps files of that extension, and the content
as the blocks in which S1 receives it. -/
structure Upload where
  f : Str
  dest : Str
  ext : Str
  dir : Str
  cs : List Str

namespace Upload

/-- What the client sends on its connection: the upload, then the download of
the same file. -/
def session (u : Upload) : List Str :=
  uploadf_line u.f u.dest :: (u.cs ++ [EOF, downlf_line u.f])

/-- The file in which the coordinator receives the upload. -/
def staged (home : Str) (u : Upload) : Str := full_path home "S1".toList u.dest u.f

/-- The file in which the owning node keeps the upload. -/
def kept (home : Str) (u : Upload) : Str := full_path home u.dir u.dest u.f

/-- The directories that the upload may create. -/
def dirs (home : Str) (u : Upload) : List Str :=
  mkdir_targets (base_path home "S1".toList u.dest) ++ mkdir_targets (base_path home u.dir u.dest)

/-- The files that the upload writes. -/
def files (home : Str) (u : Upload) : List Str := [u.staged home, u.kept home]

/-- The side conditions of the round trip on one upload: a supported extension,
a filename without slash, ordinary names below the root token, a destination
of at least four characters, unsaturated buffers, and content blocks that are
not empty and not the end marker, as seen by S1 and by the shard. -/
def wellformed (home : Str) (u : Upload) : Prop :=
  Token u.f ∧ Token u.dest ∧ strrchr '.' u.f = some u.ext ∧ owner_dir u.ext u.dir ∧
    '/' ∉ u.f ∧ plain_path (u.dest.drop 4 ++ '/' :: u.f) ∧ 4 ≤ u.dest.length ∧
    u.dest.length - 4 + 1 + u.f.length < 256 ∧
    home.length + 2 + u.dest.length + u.f.length < 2048 ∧
    (∀ c ∈ u.cs, c ≠ [] ∧ c ≠ EOF) ∧ EOF ∉ fread_all u.cs.flatten

/-- On the tree `d` the coordinator can create the staged file and, for a file
that a shard keeps, the shard can then create its file. -/
def storable (d : Disk) (u : Upload) : Prop :=
  ∃ d2, (create_directories (base_path d.home "S1".toList u.dest) d).fopen_w (u.staged d.home) =
      some d2 ∧
    (u.dir ≠ "S1".toList →
      ((create_directories (base_path d.home u.dir u.dest)
        (d2.fwrite (u.staged d.home) u.cs.flatten)).fopen_w (u.kept d.home)).isSome)

/-- Neither upload needs as a directory what the other writes as a file. -/
def apart (home : Str) (a b : Upload) : Prop :=
  (∀ t ∈ a.dirs home, t ∉ b.files home) ∧ (∀ t ∈ b.dirs home, t ∉ a.files home)

/-- The memory of the child that serves the session of `u`, after `k` rounds of
its command loop. -/
def child_at (home : Str) (u : Upload) (k : Nat) (s : S1) : Prop :=
  match k with
  | 0 => s.file_map = [] ∧ s.inp = u.session ∧ s.out = []
  | 1 => s.file_map = [index_entry (u.f, u.dest)] ∧ s.inp = [downlf_line u.f] ∧
      s.out = ["OK".toList, upload_status u.f (u.staged home)]
  | _ => s.file_map = [index_entry (u.f, u.dest)] ∧ s.inp = [] ∧
      s.out = ["OK".toList, upload_status u.f (u.staged home)] ++ fread_all u.cs.flatten ++ [EOF]

end Upload

/-- The file tree once the child of `a` has run `ka` rounds and the child of
`b` has run `kb` rounds, in any order, starting from `d0`: only directories
that the uploads may create were added, only files that the uploads write
differ, and the file of each finished upload holds its content. -/
def tree_at (d0 : Disk) (a b : Upload) (ka kb : Nat) (d : Disk) : Prop :=
  d.home = d0.home ∧ (∀ t ∈ d0.dirs, t ∈ d.dirs) ∧
    (∀ t ∈ d.dirs, t ∈ d0.dirs ∨ (1 ≤ ka ∧ t ∈ a.dirs d0.home) ∨ (1 ≤ kb ∧ t ∈ b.dirs d0.home)) ∧
    (∀ p, (ka = 0 ∨ p ∉ a.files d0.home) → (kb = 0 ∨ p ∉ b.files d0.home) →
      lookup p d.files = lookup p d0.files) ∧
    (1 ≤ ka → lookup (a.kept d0.home) d.files = some a.cs.flatten) ∧
    (1 ≤ kb → lookup (b.kept d0.home) d.files = some b.cs.flatten)

/-- Two concurrent children that serve the sessions of `a` and `b`, after `ka`
and `kb` rounds. -/
def pair_at (d0 : Disk) (a b : Upload) (ka kb : Nat) (w : Pair) : Prop :=
  a.child_at d0.home ka w.first ∧ b.child_at d0.home kb w.second ∧
    (ka < 2 → w.first_live = true) ∧ (kb < 2 → w.second_live = true) ∧
    tree_at d0 a b ka kb w.tree

/-- An upload of `a.txt` with the content `hello` to `~S3/docs`. -/
def txt_upload : Upload :=
  ⟨"a.txt".toList, "~S3/docs".toList, ".txt".toList, "S3".toList, ["hello".toList]⟩

/-- An upload of `b.pdf` with the content `world` to `~S2/docs`. -/
def pdf_upload : Upload :=
  ⟨"b.pdf".toList, "~S2/docs".toList, ".pdf".toList, "S2".toList, ["world".toList]⟩

/-! ## Lemmas -/

theorem snprintf_of_lt (size : Nat) (s : Str) (h : s.length < size) : snprintf size s = s := by
  unfold snprintf
  exact List.take_of_length_le (by omega)

theorem get_relative_path_append (m₁ m₂ : List FileMap) (f : Str) :
    get_relative_path (m₁ ++ m₂) f =
      (get_relative_path m₁ f).orElse (fun _ => get_relative_path m₂ f) := by
  induction m₁ with
  | nil => simp [get_relative_path]
  | cons e rest ih =>
    by_cases h : e.filename = f
    · simp [get_relative_path, h]
    · simp [get_relative_path, h, ih]

theorem get_relative_path_eq_none (m : List FileMap) (f : Str) :
    get_relative_path m f = none ↔ ∀ e ∈ m, e.filename ≠ f := by
  induction m with
  | nil => simp [get_relative_path]
  | cons e rest ih =>
    by_cases h : e.filename = f
    · simp [get_relative_path, h]
    · simp [get_relative_path, h, ih]

theorem save_file_path_eq (m : List FileMap) (f dest : Str) (hm : m.length < 100)
    (hf : f.length < 256) (hd : 4 ≤ dest.length) :
    save_file_path m f dest = some (m ++ [⟨f, snprintf 512 (dest.drop 4 ++ '/' :: f)⟩]) := by
  simp [save_file_path, FILE_MAP_SIZE, hm, hf, hd]

theorem save_file_path_some (m m1 : List FileMap) (f dest : Str)
    (h : save_file_path m f dest = some m1) :
    m1 = m ++ [⟨f, snprintf 512 (dest.drop 4 ++ '/' :: f)⟩] := by
  unfold save_file_path at h
  split at h
  · exact (Option.some.inj h).symm
  · exact absurd h (by simp)

theorem save_all_filenames (ups : List (Str × Str)) (m m1 : List FileMap)
    (h : save_all ups m = some m1) :
    m1.map FileMap.filename = m.map FileMap.filename ++ ups.map Prod.fst := by
  induction ups generalizing m with
  | nil => simp [save_all] at h; simp [h]
  | cons u rest ih =>
    unfold save_all at h
    cases hs : save_file_path m u.1 u.2 with
    | none => simp [hs] at h
    | some m2 =>
      simp only [hs] at h
      rw [ih m2 h, save_file_path_some _ _ _ _ hs]
      simp

theorem send_NOTFOUND (s : S1) : s.send NOTFOUND = { s with out := s.out ++ [NOTFOUND] } := by
  simp [S1.send, NOTFOUND]

theorem cstr_of_no_NUL (t : Str) (h : ∀ c ∈ t, c ≠ NUL) : cstr t = t := by
  unfold cstr
  rw [List.takeWhile_eq_self_iff]
  intro c hc
  simpa using h c hc

theorem takeWhile_not_space (t rest : Str) (ht : ∀ c ∈ t, isSpace c = false)
    (hrest : ∀ c, rest.head? = some c → isSpace c = true) :
    (t ++ rest).takeWhile (fun c => !isSpace c) = t := by
  induction t with
  | nil =>
    cases rest with
    | nil => rfl
    | cons c r => simp [List.takeWhile, hrest c rfl]
  | cons a t ih =>
    have ha := ht a (List.mem_cons_self _ _)
    simp [List.takeWhile_cons, ha, ih (fun c hc => ht c (List.mem_cons_of_mem _ hc))]

theorem dropWhile_not_space (t rest : Str) (ht : ∀ c ∈ t, isSpace c = false)
    (hrest : ∀ c, rest.head? = some c → isSpace c = true) :
    (t ++ rest).dropWhile (fun c => !isSpace c) = rest := by
  induction t with
  | nil =>
    cases rest with
    | nil => rfl
    | cons c r => simp [List.dropWhile, hrest c rfl]
  | cons a t ih =>
    have ha := ht a (List.mem_cons_self _ _)
    simp [List.dropWhile_cons, ha, ih (fun c hc => ht c (List.mem_cons_of_mem _ hc))]

/-- Scanning a blank followed by a word yields the word. -/
theorem scan_s_word (t rest : Str) (ht : Token t)
    (hrest : ∀ c, rest.head? = some c → isSpace c = true) :
    scan_s (' ' :: (t ++ rest)) = (t, rest) := by
  obtain ⟨hne, hall⟩ := ht
  have hsp : ∀ c ∈ t, isSpace c = false := fun c hc => (hall c hc).1
  have hdrop : (' ' :: (t ++ rest)).dropWhile isSpace = t ++ rest := by
    cases t with
    | nil => exact absurd rfl hne
    | cons a t =>
      have ha := hsp a (List.mem_cons_self _ _)
      have h1 : isSpace ' ' = true := by decide
      simp [List.dropWhile, ha, h1]
  unfold scan_s
  simp only [hdrop]
  rw [takeWhile_not_space t rest hsp hrest, dropWhile_not_space t rest hsp hrest]

theorem file_path_eq (home dir rel : Str) (h : home.length + dir.length + rel.length < 2045) :
    file_path home dir rel = home ++ '/' :: dir ++ '/' :: rel := by
  unfold file_path
  exact snprintf_of_lt _ _ (by simp [BUFFER_SIZE]; omega)

theorem full_path_eq (home dir dest f : Str) (hd : 4 ≤ dest.length)
    (h : home.length + dir.length + dest.length + f.length < 2048) :
    full_path home dir dest f = home ++ '/' :: dir ++ '/' :: (dest.drop 4 ++ '/' :: f) := by
  unfold full_path base_path
  rw [snprintf_of_lt _ (home ++ '/' :: dir ++ '/' :: dest.drop 4) (by simp [BUFFER_SIZE]; omega)]
  rw [snprintf_of_lt _ _ (by simp [BUFFER_SIZE]; omega)]
  simp

theorem Token.rel {f dest : Str} (hf : Token f) (hdest : Token dest) :
    Token (dest.drop 4 ++ '/' :: f) := by
  refine ⟨by simp, ?_⟩
  intro c hc
  rcases List.mem_append.1 hc with h | h
  · exact hdest.2 c (List.mem_of_mem_drop h)
  · rcases List.mem_cons.1 h with h | h
    · subst h; exact ⟨by decide, by decide⟩
    · exact hf.2 c h

theorem lookup_filter_self (p : Str) (l : List (Str × Str)) :
    lookup p (l.filter (fun e => e.1 ≠ p)) = none := by
  induction l with
  | nil => rfl
  | cons e rest ih =>
    rw [List.filter_cons]
    by_cases h : e.1 = p
    · rw [if_neg (by simp [h])]; exact ih
    · rw [if_pos (by simp [h]), lookup, if_neg h]; exact ih

theorem lookup_filter_ne (p q : Str) (l : List (Str × Str)) (hq : q ≠ p) :
    lookup q (l.filter (fun e => e.1 ≠ p)) = lookup q l := by
  induction l with
  | nil => rfl
  | cons e rest ih =>
    rw [List.filter_cons]
    by_cases h : e.1 = p
    · have hne : ¬e.1 = q := fun h2 => hq (h2.symm.trans h)
      rw [if_neg (by simp [h]), lookup, if_neg hne]; exact ih
    · rw [if_pos (by simp [h]), lookup, lookup]
      by_cases h2 : e.1 = q
      · rw [if_pos h2, if_pos h2]
      · rw [if_neg h2, if_neg h2]; exact ih

theorem lookup_fwrite_self (p data : Str) (l : List (Str × Str)) :
    lookup p (l.map (fun e => if e.1 = p then (e.1, e.2 ++ data) else e)) =
      (lookup p l).map (fun c => c ++ data) := by
  induction l with
  | nil => rfl
  | cons e rest ih =>
    rw [List.map_cons, lookup, lookup]
    by_cases h : e.1 = p
    · rw [if_pos h, if_pos h, if_pos h]; rfl
    · rw [if_neg h, if_neg h, if_neg h]; exact ih

theorem lookup_fwrite_ne (p q data : Str) (l : List (Str × Str)) (hq : q ≠ p) :
    lookup q (l.map (fun e => if e.1 = p then (e.1, e.2 ++ data) else e)) = lookup q l := by
  induction l with
  | nil => rfl
  | cons e rest ih =>
    rw [List.map_cons, lookup, lookup]
    by_cases h : e.1 = p
    · have hne : ¬e.1 = q := fun h2 => hq (h2.symm.trans h)
      rw [if_pos h, if_neg hne, if_neg hne]; exact ih
    · rw [if_neg h]
      by_cases h2 : e.1 = q
      · rw [if_pos h2, if_pos h2]
      · rw [if_neg h2, if_neg h2]; exact ih

theorem fopen_w_some (d d2 : Disk) (p : Str) (h : d.fopen_w p = some d2) :
    d2 = { d with files := (p, []) :: d.files.filter (fun e => e.1 ≠ p) } := by
  unfold Disk.fopen_w at h
  split at h
  · exact (Option.some.inj h).symm
  · exact absurd h (by simp)

/-- What was written to a freshly opened file is what a reader gets. -/
theorem fopen_r_after_write (d d2 : Disk) (p data : Str) (h : d.fopen_w p = some d2) :
    (d2.fwrite p data).fopen_r p = some data := by
  rw [fopen_w_some d d2 p h]
  unfold Disk.fopen_r Disk.fwrite
  simp only
  rw [lookup_fwrite_self]
  simp [lookup]

theorem send_conns (s : S1) (data : Str) : (s.send data).conns = s.conns := by
  unfold S1.send; split <;> rfl

theorem send_disk (s : S1) (data : Str) : (s.send data).disk = s.disk := by
  unfold S1.send; split <;> rfl

theorem send_out_of_ne (s : S1) (data : Str) (h : data ≠ []) :
    (s.send data).out = s.out ++ [data] := by
  unfold S1.send; rw [if_neg h]

/-- The `uploadf` branch on a command that passes every check up to the
forwarding step. -/
theorem prcclient_uploadf_eq (net : Net) (buffer : Str) (s : S1) (ext : Str) (d2 : Disk)
    (m : List FileMap)
    (hf1 : uploadf_filename buffer ≠ []) (hf2 : (uploadf_filename buffer).length < 256)
    (hd1 : uploadf_dest buffer ≠ []) (hd2 : (uploadf_dest buffer).length < 512)
    (hext : strrchr '.' (uploadf_filename buffer) = some ext)
    (hd4 : 4 ≤ (uploadf_dest buffer).length)
    (hopen : (create_directories (base_path s.disk.home "S1".toList (uploadf_dest buffer))
      s.disk).fopen_w
        (full_path s.disk.home "S1".toList (uploadf_dest buffer) (uploadf_filename buffer)) =
      some d2)
    (hsave : save_file_path s.file_map (uploadf_filename buffer) (uploadf_dest buffer) = some m) :
    prcclient_uploadf net buffer s =
      (forward_upload net ext
        (full_path s.disk.home "S1".toList (uploadf_dest buffer) (uploadf_filename buffer))
        (uploadf_filename buffer) (uploadf_dest buffer)
        { file_map := m,
          disk := d2.fwrite
            (full_path s.disk.home "S1".toList (uploadf_dest buffer) (uploadf_filename buffer))
            (recv_until_EOF s.inp).1.flatten,
          inp := (recv_until_EOF s.inp).2,
          out := s.out ++ ["OK".toList],
          conns := s.conns }).map
        (fun s4 => (s4.send (upload_status (uploadf_filename buffer)
          (full_path s.disk.home "S1".toList (uploadf_dest buffer) (uploadf_filename buffer))),
          true)) := by
  unfold uploadf_filename uploadf_dest at *
  unfold prcclient_uploadf
  dsimp only
  rw [if_neg hf1, if_neg (Nat.not_le.2 hf2), if_neg hd1, if_neg (Nat.not_le.2 hd2), hext]
  dsimp only
  rw [if_neg (Nat.not_lt.2 hd4), hopen]
  dsimp only
  have hs : (S1.send { s with disk := d2 } "OK".toList) =
      { s with disk := d2, out := s.out ++ ["OK".toList] } := by
    unfold S1.send; rw [if_neg (by decide)]
  rw [hs]
  dsimp only
  rw [hsave]
  dsimp only
  cases forward_upload net ext _ _ _ _ <;> rfl

/-- An upload that the coordinator acknowledged with `OK` passed every check
up to the forwarding step. -/
theorem prcclient_uploadf_acked (net : Net) (buffer : Str) (s s1 : S1) (goes_on : Bool)
    (rest : List Str) (hres : prcclient_uploadf net buffer s = some (s1, goes_on))
    (hok : s1.out = s.out ++ "OK".toList :: rest) :
    ∃ ext d2 m,
      uploadf_filename buffer ≠ [] ∧ (uploadf_filename buffer).length < 256 ∧
      uploadf_dest buffer ≠ [] ∧ (uploadf_dest buffer).length < 512 ∧
      strrchr '.' (uploadf_filename buffer) = some ext ∧
      4 ≤ (uploadf_dest buffer).length ∧
      (create_directories (base_path s.disk.home "S1".toList (uploadf_dest buffer))
        s.disk).fopen_w
          (full_path s.disk.home "S1".toList (uploadf_dest buffer) (uploadf_filename buffer)) =
        some d2 ∧
      save_file_path s.file_map (uploadf_filename buffer) (uploadf_dest buffer) = some m := by
  have hno : ∀ t : S1, t.out = s.out → (t, true) = (s1, goes_on) → False := by
    intro t ht he
    have : s1.out = s.out := by rw [← (Prod.mk.inj he).1]; exact ht
    rw [this] at hok
    have := congrArg List.length hok
    simp at this
  unfold uploadf_filename uploadf_dest
  unfold prcclient_uploadf at hres
  dsimp only at hres
  split at hres
  · exact (hno s rfl (Option.some.inj hres)).elim
  · next hf1 =>
    split at hres
    · exact absurd hres (by simp)
    · next hf2 =>
      split at hres
      · exact (hno s rfl (Option.some.inj hres)).elim
      · next hd1 =>
        split at hres
        · exact absurd hres (by simp)
        · next hd2 =>
          split at hres
          · next hext =>
            exfalso
            have he := Option.some.inj hres
            have h1 : s1.out = s.out ++ ["Invalid extension".toList] := by
              rw [← (Prod.mk.inj he).1]; exact send_out_of_ne _ _ (by decide)
            rw [h1] at hok
            have h2 := List.append_cancel_left hok
            simp at h2
          · next ext hext =>
            split at hres
            · exact absurd hres (by simp)
            · next hd4 =>
              split at hres
              · exact (hno _ (by rfl) (Option.some.inj hres)).elim
              · next d2 hopen =>
                split at hres
                · exact absurd hres (by simp)
                · next m hsave =>
                  have hs : (S1.send { s with disk := d2 } "OK".toList) =
                      { s with disk := d2, out := s.out ++ ["OK".toList] } := by
                    unfold S1.send; rw [if_neg (by decide)]
                  rw [hs] at hsave
                  exact ⟨ext, d2, m, hf1, Nat.lt_of_not_le hf2, hd1, Nat.lt_of_not_le hd2, hext,
                    Nat.le_of_not_lt hd4, hopen, hsave⟩

theorem fread_chunks_flatten (size : Nat) (hsize : 0 < size) (n : Nat) (data : Str)
    (h : data.length ≤ n) : (fread_chunks size n data).flatten = data := by
  induction n generalizing data with
  | zero =>
    have : data = [] := List.length_eq_zero.1 (Nat.le_zero.1 h)
    subst this; rfl
  | succ n ih =>
    unfold fread_chunks
    by_cases hd : data = []
    · subst hd; rfl
    · rw [if_neg hd, List.flatten_cons]
      have hpos : 0 < data.length := List.length_pos.2 hd
      rw [ih (data.drop size) (by rw [List.length_drop]; omega)]
      exact List.take_append_drop size data

theorem fread_chunks_ne_nil (size : Nat) (hsize : 0 < size) (n : Nat) (data : Str) :
    ∀ c ∈ fread_chunks size n data, c ≠ [] := by
  induction n generalizing data with
  | zero => intro c hc; simp [fread_chunks] at hc
  | succ n ih =>
    intro c hc
    unfold fread_chunks at hc
    by_cases hd : data = []
    · rw [if_pos hd] at hc; simp at hc
    · rw [if_neg hd] at hc
      rcases List.mem_cons.1 hc with h | h
      · subst h
        intro h0
        have hlen := congrArg List.length h0
        rw [List.length_take, List.length_nil] at hlen
        have hpos : 0 < data.length := List.length_pos.2 hd
        rcases Nat.min_eq_zero_iff.1 hlen with h1 | h1 <;> omega
      · exact ih _ c h

theorem fread_all_flatten (data : Str) : (fread_all data).flatten = data :=
  fread_chunks_flatten BUFFER_SIZE (by decide) _ data (Nat.le_refl _)

theorem fread_all_ne_nil (data : Str) : ∀ c ∈ fread_all data, c ≠ [] :=
  fread_chunks_ne_nil BUFFER_SIZE (by decide) _ data

theorem recv_until_EOF_append (blocks tail : List Str)
    (h : ∀ c ∈ blocks, c ≠ [] ∧ c ≠ EOF) :
    recv_until_EOF (blocks ++ EOF :: tail) = (blocks, tail) := by
  induction blocks with
  | nil => simp [recv_until_EOF, EOF]
  | cons c rest ih =>
    have hc := h c (List.mem_cons_self _ _)
    rw [List.cons_append, recv_until_EOF, if_neg hc.1, if_neg hc.2,
      ih (fun x hx => h x (List.mem_cons_of_mem _ hx))]

theorem sendAll_eq (s : S1) (blocks : List Str) (h : ∀ c ∈ blocks, c ≠ []) :
    s.sendAll blocks = { s with out := s.out ++ blocks } := by
  unfold S1.sendAll
  induction blocks generalizing s with
  | nil => simp
  | cons c rest ih =>
    rw [List.foldl_cons, ih _ (fun x hx => h x (List.mem_cons_of_mem _ hx))]
    unfold S1.send
    rw [if_neg (h c (List.mem_cons_self _ _))]
    simp

theorem prcclient_loop_done (net : Net) (tar : Tar) (cwd : Str) (n : Nat) (s : S1)
    (h : s.inp = []) : prcclient_loop net tar cwd n s = some s := by
  cases n with
  | zero => rfl
  | succ n => unfold prcclient_loop; rw [h]

theorem mkdir_files (d : Disk) (p : Str) : (d.mkdir p).files = d.files := by
  unfold Disk.mkdir; split <;> rfl

theorem mkdir_home (d : Disk) (p : Str) : (d.mkdir p).home = d.home := by
  unfold Disk.mkdir; split <;> rfl

theorem create_directories_files (path : Str) (d : Disk) :
    (create_directories path d).files = d.files := by
  unfold create_directories
  dsimp only
  rw [mkdir_files]
  generalize (List.filter _ _) = cuts
  induction cuts generalizing d with
  | nil => rfl
  | cons i rest ih => rw [List.foldl_cons, ih, mkdir_files]

theorem create_directories_home (path : Str) (d : Disk) :
    (create_directories path d).home = d.home := by
  unfold create_directories
  dsimp only
  rw [mkdir_home]
  generalize (List.filter _ _) = cuts
  induction cuts generalizing d with
  | nil => rfl
  | cons i rest ih => rw [List.foldl_cons, ih, mkdir_home]

theorem lookup_remove_ignore (d : Disk) (p q : Str) (hq : q ≠ p) :
    lookup q (d.remove_ignore p).files = lookup q d.files := by
  unfold Disk.remove_ignore Disk.remove
  split
  · exact lookup_filter_ne p q d.files hq
  · split <;> rfl

theorem remove_ignore_home (d : Disk) (p : Str) : (d.remove_ignore p).home = d.home := by
  unfold Disk.remove_ignore Disk.remove
  split
  · rfl
  · split <;> rfl

theorem fopen_r_of_lookup (d : Disk) (p c : Str) (h : lookup p d.files = some c) :
    d.fopen_r p = some c := by
  unfold Disk.fopen_r; rw [h]

theorem fopen_w_home (d d2 : Disk) (p : Str) (h : d.fopen_w p = some d2) : d2.home = d.home := by
  rw [fopen_w_some d d2 p h]

theorem lookup_after_write (d d2 : Disk) (p data : Str) (h : d.fopen_w p = some d2) :
    lookup p (d2.fwrite p data).files = some data := by
  rw [fopen_w_some d d2 p h]
  unfold Disk.fwrite
  simp only
  rw [lookup_fwrite_self]
  simp [lookup]

theorem uploadf_line_drop (f dest : Str) :
    (uploadf_line f dest).drop 7 = ' ' :: (f ++ ' ' :: dest) := rfl

theorem uploadf_line_operands (f dest : Str) (hf : Token f) (hdest : Token dest) :
    uploadf_filename (uploadf_line f dest) = f ∧ uploadf_dest (uploadf_line f dest) = dest := by
  unfold uploadf_filename uploadf_dest
  rw [uploadf_line_drop, scan_s_word f (' ' :: dest) hf (by intro c hc; simp at hc; subst hc; decide)]
  refine ⟨rfl, ?_⟩
  have := scan_s_word dest [] hdest (by simp)
  rw [List.append_nil] at this
  simp only [this]

theorem uploadf_line_no_NUL (f dest : Str) (hf : Token f) (hdest : Token dest) :
    cstr (uploadf_line f dest) = uploadf_line f dest := by
  apply cstr_of_no_NUL
  have hlit : ∀ c ∈ "uploadf ".toList, c ≠ NUL := by decide
  intro c hc
  unfold uploadf_line at hc
  rcases List.mem_append.1 hc with h | h
  · rcases List.mem_append.1 h with h | h
    · exact hlit c h
    · exact (hf.2 c h).2
  · rcases List.mem_cons.1 h with h | h
    · subst h; decide
    · exact (hdest.2 c h).2

theorem downlf_line_no_NUL (f : Str) (hf : Token f) : cstr (downlf_line f) = downlf_line f := by
  apply cstr_of_no_NUL
  have hlit : ∀ c ∈ "downlf ".toList, c ≠ NUL := by decide
  intro c hc
  unfold downlf_line at hc
  rcases List.mem_append.1 hc with h | h
  · exact hlit c h
  · exact (hf.2 c h).2

theorem downlf_line_operand (f : Str) (hf : Token f) :
    scan_s ((downlf_line f).drop 6) = (f, []) := by
  have h : (downlf_line f).drop 6 = ' ' :: (f ++ []) := by
    rw [List.append_nil]; rfl
  rw [h, scan_s_word f [] hf (by simp)]

theorem uploadf_line_length (f dest : Str) :
    (uploadf_line f dest).length = f.length + dest.length + 9 := by
  unfold uploadf_line
  simp
  omega

theorem downlf_line_length (f : Str) : (downlf_line f).length = f.length + 7 := by
  unfold downlf_line
  simp

theorem uploadf_line_ne_nil (f dest : Str) : uploadf_line f dest ≠ [] := by
  intro h
  have := congrArg List.length h
  rw [uploadf_line_length] at this
  simp at this

theorem downlf_line_ne_nil (f : Str) : downlf_line f ≠ [] := by
  intro h
  have := congrArg List.length h
  rw [downlf_line_length] at this
  simp at this

theorem forward_upload_remote (net : Net) (ext fullpath filename dest : Str) (s : S1)
    (port : Nat) (h : remote_route ext port) :
    forward_upload net ext fullpath filename dest s =
      send_to_secondary_server net port fullpath filename dest s := by
  unfold forward_upload
  rcases h with ⟨h, hp⟩ | ⟨h, hp⟩ | ⟨h, hp⟩ <;> subst h <;> subst hp <;> simp

theorem handle_removef_remote (net : Net) (s : S1) (f ext : Str) (port : Nat)
    (hext : strrchr '.' f = some ext) (hroute : remote_route ext port) :
    handle_removef net f s = forward_removef_to_secondary net port f s := by
  unfold handle_removef
  rw [hext]
  rcases hroute with ⟨h, hp⟩ | ⟨h, hp⟩ | ⟨h, hp⟩ <;> subst h <;> subst hp <;> simp

theorem strncmp_uploadf_line (f dest : Str) :
    strncmp_eq (uploadf_line f dest) "uploadf".toList 7 = true := rfl

theorem strncmp_downlf_line (f : Str) :
    strncmp_eq (downlf_line f) "downlf".toList 6 = true := rfl

theorem strncmp_downlf_line_uploadf (f : Str) :
    strncmp_eq (downlf_line f) "uploadf".toList 7 = false := rfl

/-- The round of `prcclient` that handles an upload command whose file can be
created, up to the forwarding step. -/
theorem upload_round (net : Net) (tar : Tar) (cwd : Str) (s : S1) (f dest ext : Str) (d2 : Disk)
    (hf : Token f) (hdest : Token dest) (hf2 : f.length < 256) (hd2 : dest.length < 512)
    (hext : strrchr '.' f = some ext) (hd4 : 4 ≤ dest.length)
    (hcount : s.file_map.length < 100)
    (hopen : (create_directories (base_path s.disk.home "S1".toList dest) s.disk).fopen_w
      (full_path s.disk.home "S1".toList dest f) = some d2) :
    prcclient_body net tar cwd (cstr (uploadf_line f dest)) s =
      (forward_upload net ext (full_path s.disk.home "S1".toList dest f) f dest
        { file_map := s.file_map ++ [⟨f, snprintf 512 (dest.drop 4 ++ '/' :: f)⟩],
          disk := d2.fwrite (full_path s.disk.home "S1".toList dest f)
            (recv_until_EOF s.inp).1.flatten,
          inp := (recv_until_EOF s.inp).2,
          out := s.out ++ ["OK".toList],
          conns := s.conns }).map
        (fun s4 => (s4.send (upload_status f (full_path s.disk.home "S1".toList dest f)),
          true)) := by
  obtain ⟨e1, e2⟩ := uploadf_line_operands f dest hf hdest
  rw [uploadf_line_no_NUL f dest hf hdest]
  unfold prcclient_body
  rw [if_pos (strncmp_uploadf_line f dest)]
  have h := prcclient_uploadf_eq net (uploadf_line f dest) s ext d2
    (s.file_map ++ [⟨f, snprintf 512 (dest.drop 4 ++ '/' :: f)⟩])
    (by rw [e1]; exact hf.1) (by rw [e1]; exact hf2) (by rw [e2]; exact hdest.1)
    (by rw [e2]; exact hd2) (by rw [e1]; exact hext) (by rw [e2]; exact hd4)
    (by rw [e1, e2]; exact hopen)
    (by rw [e1, e2]; exact save_file_path_eq _ f dest hcount hf2 hd4)
  rw [e1, e2] at h
  exact h

/-- The `uploadf` branch of a shard on the request of the coordinator. -/
theorem shard_uploadf_eq (dir : Str) (d d5 : Disk) (f dest : Str) (blocks : List Str)
    (hf : Token f) (hdest : Token dest) (hf2 : f.length < 256) (hd2 : dest.length < 512)
    (hd4 : 4 ≤ dest.length) (hblocks : ∀ c ∈ blocks, c ≠ [] ∧ c ≠ EOF)
    (hopen : (create_directories (base_path d.home dir dest) d).fopen_w
      (full_path d.home dir dest f) = some d5) :
    shard_uploadf dir (uploadf_line f dest) (blocks ++ [EOF]) d =
      some (d5.fwrite (full_path d.home dir dest f) blocks.flatten, ["OK".toList]) := by
  obtain ⟨e1, e2⟩ := uploadf_line_operands f dest hf hdest
  unfold uploadf_filename at e1
  unfold uploadf_dest at e2
  unfold shard_uploadf
  dsimp only
  rw [e1, e2, if_neg hf.1, if_neg (Nat.not_le.2 hf2), if_neg hdest.1, if_neg (Nat.not_le.2 hd2)]
  unfold receive_file
  rw [if_neg (Nat.not_lt.2 hd4)]
  dsimp only
  rw [hopen, recv_until_EOF_append blocks [] hblocks]

/-- The function `send_file` of a shard on a file that exists. -/
theorem send_file_eq (dir rel : Str) (d : Disk) (data : Str)
    (h : lookup (file_path d.home dir rel) d.files = some data) :
    send_file dir rel d = fread_all data ++ [EOF] := by
  unfold send_file
  rw [fopen_r_of_lookup d _ data h]

theorem handle_client_S2_uploadf (tar : Tar) (cwd : Str) (d : Disk) (f dest : Str)
    (blocks : List Str) (hf : Token f) (hdest : Token dest) :
    handle_client_S2 tar cwd d (uploadf_line f dest :: blocks) =
      shard_uploadf "S2".toList (uploadf_line f dest) blocks d := by
  unfold handle_client_S2
  dsimp only
  rw [if_neg (by unfold uploadf_line; simp), uploadf_line_no_NUL f dest hf hdest,
    if_pos (strncmp_uploadf_line f dest)]

theorem handle_client_S3_uploadf (tar : Tar) (cwd : Str) (d : Disk) (f dest : Str)
    (blocks : List Str) (hf : Token f) (hdest : Token dest) :
    handle_client_S3 tar cwd d (uploadf_line f dest :: blocks) =
      shard_uploadf "S3".toList (uploadf_line f dest) blocks d := by
  unfold handle_client_S3
  dsimp only
  rw [if_neg (by unfold uploadf_line; simp), uploadf_line_no_NUL f dest hf hdest,
    if_pos (strncmp_uploadf_line f dest)]

theorem handle_client_S4_uploadf (d : Disk) (f dest : Str)
    (blocks : List Str) (hf : Token f) (hdest : Token dest) :
    handle_client_S4 d (uploadf_line f dest :: blocks) =
      shard_uploadf "S4".toList (uploadf_line f dest) blocks d := by
  unfold handle_client_S4
  dsimp only
  rw [if_neg (by unfold uploadf_line; simp), uploadf_line_no_NUL f dest hf hdest,
    if_pos (strncmp_uploadf_line f dest)]

theorem handle_client_S2_downlf (tar : Tar) (cwd : Str) (d : Disk) (rel : Str)
    (hrel : Token rel) (hlen : rel.length < 256) :
    handle_client_S2 tar cwd d [downlf_line rel] = some (d, send_file "S2".toList rel d) := by
  unfold handle_client_S2
  dsimp only
  rw [if_neg (by unfold downlf_line; simp), downlf_line_no_NUL rel hrel,
    if_neg (by rw [strncmp_downlf_line_uploadf]; simp), if_pos (strncmp_downlf_line rel),
    downlf_line_operand rel hrel, if_neg hrel.1, if_neg (Nat.not_le.2 hlen)]

theorem handle_client_S3_downlf (tar : Tar) (cwd : Str) (d : Disk) (rel : Str)
    (hrel : Token rel) (hlen : rel.length < 256) (htar : rel ≠ "text.tar".toList) :
    handle_client_S3 tar cwd d [downlf_line rel] = some (d, send_file "S3".toList rel d) := by
  unfold handle_client_S3
  dsimp only
  rw [if_neg (by unfold downlf_line; simp), downlf_line_no_NUL rel hrel,
    if_neg (by rw [strncmp_downlf_line_uploadf]; simp), if_pos (strncmp_downlf_line rel),
    downlf_line_operand rel hrel, if_neg hrel.1, if_neg (Nat.not_le.2 hlen), if_neg htar]

theorem handle_client_S4_downlf (d : Disk) (rel : Str)
    (hrel : Token rel) (hlen : rel.length < 256) :
    handle_client_S4 d [downlf_line rel] = some (d, send_file "S4".toList rel d) := by
  unfold handle_client_S4
  dsimp only
  rw [if_neg (by unfold downlf_line; simp), downlf_line_no_NUL rel hrel,
    if_neg (by rw [strncmp_downlf_line_uploadf]; simp), if_pos (strncmp_downlf_line rel),
    downlf_line_operand rel hrel, if_neg hrel.1, if_neg (Nat.not_le.2 hlen)]

theorem file_path_rel (home dir f dest : Str) (hd4 : 4 ≤ dest.length)
    (hfull : home.length + dir.length + dest.length + f.length < 2048) :
    file_path home dir (dest.drop 4 ++ '/' :: f) = full_path home dir dest f := by
  rw [file_path_eq _ _ _ (by simp; omega), full_path_eq _ _ _ _ hd4 hfull]

theorem full_path_ne (home dir f dest : Str) (hd4 : 4 ≤ dest.length)
    (hfull : home.length + 2 + dest.length + f.length < 2048)
    (hdir : dir = "S2".toList ∨ dir = "S3".toList ∨ dir = "S4".toList) :
    full_path home dir dest f ≠ full_path home "S1".toList dest f := by
  have hlen : dir.length = 2 := by rcases hdir with h | h | h <;> subst h <;> rfl
  rw [full_path_eq _ _ _ _ hd4 (by rw [hlen]; exact hfull),
    full_path_eq _ _ _ _ hd4 (by simpa using hfull)]
  intro h
  rw [List.append_assoc, List.append_assoc] at h
  have h2 := List.append_cancel_left h
  rcases hdir with h3 | h3 | h3 <;> subst h3 <;> simp at h2

theorem upload_status_ne_nil (f p : Str) : upload_status f p ≠ [] := by
  unfold upload_status snprintf
  intro h
  have := congrArg List.length h
  simp at this

theorem get_after_save (m : List FileMap) (f rel : Str) (hfresh : ∀ e ∈ m, e.filename ≠ f) :
    get_relative_path (m ++ [⟨f, rel⟩]) f = some rel := by
  rw [get_relative_path_append, (get_relative_path_eq_none m f).2 hfresh]
  simp [get_relative_path]

theorem prcclient_loop_step (net : Net) (tar : Tar) (cwd : Str) (n : Nat) (s s1 : S1)
    (c : Str) (rest : List Str) (hinp : s.inp = c :: rest) (hc : c ≠ [])
    (hbody : prcclient_body net tar cwd (cstr c) { s with inp := rest } = some (s1, true)) :
    prcclient_loop net tar cwd (n + 1) s = prcclient_loop net tar cwd n s1 := by
  rw [prcclient_loop, hinp]
  dsimp only
  rw [if_neg hc, hbody]

/-- The round of `prcclient` that downloads a `.c` file which is in the index
and in the coordinator tree. -/
theorem download_round_local (net : Net) (tar : Tar) (cwd : Str) (s : S1) (f rel data : Str)
    (hf : Token f) (hf2 : f.length < 256) (hext : strrchr '.' f = some ".c".toList)
    (hget : get_relative_path s.file_map f = some rel)
    (hfile : lookup (file_path s.disk.home "S1".toList rel) s.disk.files = some data) :
    prcclient_body net tar cwd (cstr (downlf_line f)) s =
      some ({ s with out := s.out ++ fread_all data ++ [EOF] }, true) := by
  rw [downlf_line_no_NUL f hf]
  unfold prcclient_body
  rw [if_neg (by rw [strncmp_downlf_line_uploadf]; simp), if_pos (strncmp_downlf_line f)]
  unfold prcclient_downlf
  dsimp only
  rw [downlf_line_operand f hf]
  dsimp only
  rw [if_neg hf.1, if_neg (Nat.not_le.2 hf2), hext, hget,
    if_neg (by simp), if_pos rfl]
  unfold send_local_file
  rw [hget]
  dsimp only
  rw [fopen_r_of_lookup _ _ data hfile]
  dsimp only
  rw [sendAll_eq _ _ (fread_all_ne_nil data)]
  unfold S1.send
  rw [if_neg (by decide)]

/-- The round of `prcclient` that downloads a file kept by a shard. -/
theorem download_round_remote (net : Net) (tar : Tar) (cwd : Str) (s : S1)
    (f rel ext data : Str) (port : Nat) (peer : Peer)
    (hf : Token f) (hf2 : f.length < 256) (hext : strrchr '.' f = some ext)
    (hroute : remote_route ext port) (hnet : net port = some peer)
    (hget : get_relative_path s.file_map f = some rel) (hrel : rel.length < 512)
    (hpeer : peer s.disk [downlf_line rel] = some (s.disk, fread_all data ++ [EOF]))
    (hb : EOF ∉ fread_all data) :
    prcclient_body net tar cwd (cstr (downlf_line f)) s =
      some ({ s with out := s.out ++ fread_all data ++ [EOF],
                     conns := s.conns ++ [Conn.mk port true [downlf_line rel]] }, true) := by
  have hcmd : snprintf BUFFER_SIZE ("downlf ".toList ++ rel) = downlf_line rel :=
    snprintf_of_lt _ _ (by rw [show "downlf ".toList ++ rel = downlf_line rel from rfl,
      downlf_line_length]; simp [BUFFER_SIZE]; omega)
  have hnc : ext ≠ ".c".toList := by
    rcases hroute with ⟨h, _⟩ | ⟨h, _⟩ | ⟨h, _⟩ <;> subst h <;> decide
  have hport : (if some ext = some ".pdf".toList then some S2_PORT
      else if some ext = some ".txt".toList then some S3_PORT
      else if some ext = some ".zip".toList then some S4_PORT
      else none) = some port := by
    rcases hroute with ⟨h, hp⟩ | ⟨h, hp⟩ | ⟨h, hp⟩ <;> subst h <;> subst hp <;> simp
  rw [downlf_line_no_NUL f hf]
  unfold prcclient_body
  rw [if_neg (by rw [strncmp_downlf_line_uploadf]; simp), if_pos (strncmp_downlf_line f)]
  unfold prcclient_downlf
  dsimp only
  rw [downlf_line_operand f hf]
  dsimp only
  rw [if_neg hf.1, if_neg (Nat.not_le.2 hf2), hext, hget,
    if_neg (by simp), if_neg (by simpa using hnc), hport]
  dsimp only
  rw [hnet]
  dsimp only
  rw [Option.getD_some, hcmd, hpeer]
  dsimp only
  have hblocks : ∀ c ∈ fread_all data, c ≠ [] ∧ c ≠ EOF :=
    fun c hc => ⟨fread_all_ne_nil data c hc, fun h => hb (h ▸ hc)⟩
  rw [recv_until_EOF_append _ [] hblocks, sendAll_eq _ _ (fread_all_ne_nil data)]
  unfold S1.send
  rw [if_neg (by decide)]

theorem fwrite_home (d : Disk) (p data : Str) : (d.fwrite p data).home = d.home := rfl

/-- The upload round for a `.c` file: the file stays with the coordinator. -/
theorem upload_round_local (net : Net) (tar : Tar) (cwd : Str) (s : S1) (f dest : Str)
    (cs tail : List Str) (d2 : Disk)
    (hf : Token f) (hdest : Token dest) (hf2 : f.length < 256) (hd2 : dest.length < 512)
    (hext : strrchr '.' f = some ".c".toList) (hd4 : 4 ≤ dest.length)
    (hcount : s.file_map.length < 100) (hcs : ∀ c ∈ cs, c ≠ [] ∧ c ≠ EOF)
    (hinp : s.inp = cs ++ EOF :: tail)
    (hopen : (create_directories (base_path s.disk.home "S1".toList dest) s.disk).fopen_w
      (full_path s.disk.home "S1".toList dest f) = some d2) :
    prcclient_body net tar cwd (cstr (uploadf_line f dest)) s =
      some ({ file_map := s.file_map ++ [⟨f, snprintf 512 (dest.drop 4 ++ '/' :: f)⟩],
              disk := d2.fwrite (full_path s.disk.home "S1".toList dest f) cs.flatten,
              inp := tail,
              out := s.out ++ ["OK".toList,
                upload_status f (full_path s.disk.home "S1".toList dest f)],
              conns := s.conns }, true) := by
  rw [upload_round net tar cwd s f dest _ d2 hf hdest hf2 hd2 hext hd4 hcount hopen, hinp,
    recv_until_EOF_append cs tail hcs]
  have hfw : ∀ p g d t, forward_upload net ".c".toList p g d t = some t := by
    intro p g d t; unfold forward_upload; simp
  rw [hfw]
  simp only [Option.map_some']
  unfold S1.send
  rw [if_neg (upload_status_ne_nil _ _)]
  simp

/-- The upload round for a file that a running shard takes over. -/
theorem upload_round_remote (net : Net) (tar : Tar) (cwd : Str) (s : S1)
    (f dest ext dir : Str) (port : Nat) (peer : Peer) (cs tail : List Str) (d2 d5 : Disk)
    (hf : Token f) (hdest : Token dest) (hf2 : f.length < 256) (hd2 : dest.length < 512)
    (hext : strrchr '.' f = some ext) (hroute : remote_route ext port)
    (hnet : net port = some peer) (hd4 : 4 ≤ dest.length)
    (hup : ∀ d blocks, peer d (uploadf_line f dest :: blocks) =
      shard_uploadf dir (uploadf_line f dest) blocks d)
    (hcount : s.file_map.length < 100) (hcs : ∀ c ∈ cs, c ≠ [] ∧ c ≠ EOF)
    (hb : EOF ∉ fread_all cs.flatten)
    (hinp : s.inp = cs ++ EOF :: tail)
    (hopen : (create_directories (base_path s.disk.home "S1".toList dest) s.disk).fopen_w
      (full_path s.disk.home "S1".toList dest f) = some d2)
    (hopenk : (create_directories (base_path s.disk.home dir dest)
      (d2.fwrite (full_path s.disk.home "S1".toList dest f) cs.flatten)).fopen_w
        (full_path s.disk.home dir dest f) = some d5) :
    prcclient_body net tar cwd (cstr (uploadf_line f dest)) s =
      some ({ file_map := s.file_map ++ [⟨f, snprintf 512 (dest.drop 4 ++ '/' :: f)⟩],
              disk := (d5.fwrite (full_path s.disk.home dir dest f) cs.flatten).remove_ignore
                (full_path s.disk.home "S1".toList dest f),
              inp := tail,
              out := s.out ++ ["OK".toList,
                upload_status f (full_path s.disk.home "S1".toList dest f)],
              conns := s.conns ++ [Conn.mk port true
                (uploadf_line f dest :: (fread_all cs.flatten ++ [EOF]))] }, true) := by
  have hline : snprintf BUFFER_SIZE ("uploadf ".toList ++ f ++ ' ' :: dest) =
      uploadf_line f dest :=
    snprintf_of_lt _ _ (by rw [show "uploadf ".toList ++ f ++ ' ' :: dest = uploadf_line f dest
      from rfl, uploadf_line_length]; simp [BUFFER_SIZE]; omega)
  have hhome : (d2.fwrite (full_path s.disk.home "S1".toList dest f) cs.flatten).home =
      s.disk.home := by
    rw [fwrite_home, fopen_w_home _ d2 _ hopen, create_directories_home]
  have hblocks : ∀ c ∈ fread_all cs.flatten, c ≠ [] ∧ c ≠ EOF :=
    fun c hc => ⟨fread_all_ne_nil _ c hc, fun h => hb (h ▸ hc)⟩
  rw [upload_round net tar cwd s f dest ext d2 hf hdest hf2 hd2 hext hd4 hcount hopen, hinp,
    recv_until_EOF_append cs tail hcs, forward_upload_remote net ext _ _ _ _ port hroute]
  unfold send_to_secondary_server
  dsimp only
  rw [fopen_r_after_write _ d2 _ _ hopen]
  dsimp only
  rw [hnet]
  dsimp only
  rw [hline, hup,
    shard_uploadf_eq dir _ d5 f dest (fread_all cs.flatten) hf hdest hf2 hd2 hd4 hblocks
      (by rw [hhome]; exact hopenk)]
  dsimp only
  rw [fread_all_flatten, hhome]
  simp only [Option.map_some']
  unfold S1.send
  rw [if_neg (upload_status_ne_nil _ _)]
  simp

/-- The session of a client that uploads and then downloads the same file,
with a shard taking the file over. -/
theorem round_trip_remote (net : Net) (tar : Tar) (cwd : Str) (s : S1)
    (f dest ext dir : Str) (port : Nat) (peer : Peer) (cs : List Str) (d2 d5 : Disk)
    (hf : Token f) (hdest : Token dest) (hext : strrchr '.' f = some ext)
    (hroute : remote_route ext port) (hnet : net port = some peer)
    (hdir : dir = "S2".toList ∨ dir = "S3".toList ∨ dir = "S4".toList)
    (hup : ∀ d blocks, peer d (uploadf_line f dest :: blocks) =
      shard_uploadf dir (uploadf_line f dest) blocks d)
    (hdown : ∀ d, peer d [downlf_line (dest.drop 4 ++ '/' :: f)] =
      some (d, send_file dir (dest.drop 4 ++ '/' :: f) d))
    (hd4 : 4 ≤ dest.length) (hrel : dest.length - 4 + 1 + f.length < 256)
    (hfull : s.disk.home.length + 2 + dest.length + f.length < 2048)
    (hcount : s.file_map.length < 100) (hfresh : ∀ e ∈ s.file_map, e.filename ≠ f)
    (hcs : ∀ c ∈ cs, c ≠ [] ∧ c ≠ EOF) (hb : EOF ∉ fread_all cs.flatten)
    (hinp : s.inp = uploadf_line f dest :: (cs ++ [EOF, downlf_line f]))
    (hopen : (create_directories (base_path s.disk.home "S1".toList dest) s.disk).fopen_w
      (full_path s.disk.home "S1".toList dest f) = some d2)
    (hopenk : (create_directories (base_path s.disk.home dir dest)
      (d2.fwrite (full_path s.disk.home "S1".toList dest f) cs.flatten)).fopen_w
        (full_path s.disk.home dir dest f) = some d5) :
    ∃ t : S1, prcclient net tar cwd s = some t ∧
      t.out = s.out ++ ["OK".toList,
        upload_status f (full_path s.disk.home "S1".toList dest f)] ++
        fread_all cs.flatten ++ [EOF] := by
  have hf2 : f.length < 256 := by omega
  have hd2 : dest.length < 512 := by omega
  have hdlen : dir.length = 2 := by rcases hdir with h | h | h <;> subst h <;> rfl
  have hrelEq : snprintf 512 (dest.drop 4 ++ '/' :: f) = dest.drop 4 ++ '/' :: f :=
    snprintf_of_lt _ _ (by simp; omega)
  have hhome5 : d5.home = s.disk.home := by
    rw [fopen_w_home _ d5 _ hopenk, create_directories_home, fwrite_home,
      fopen_w_home _ d2 _ hopen, create_directories_home]
  have h1 := upload_round_remote net tar cwd { s with inp := cs ++ [EOF, downlf_line f] }
    f dest ext dir port peer cs [downlf_line f] d2 d5 hf hdest hf2 hd2 hext hroute hnet hd4 hup
    hcount hcs hb rfl hopen hopenk
  rw [hrelEq] at h1
  dsimp only at h1
  have hlook : lookup (full_path s.disk.home dir dest f)
      ((d5.fwrite (full_path s.disk.home dir dest f) cs.flatten).remove_ignore
        (full_path s.disk.home "S1".toList dest f)).files = some cs.flatten := by
    rw [lookup_remove_ignore _ _ _ (full_path_ne _ dir f dest hd4 hfull hdir)]
    exact lookup_after_write _ d5 _ _ hopenk
  have h2 := download_round_remote net tar cwd
    { file_map := s.file_map ++ [⟨f, dest.drop 4 ++ '/' :: f⟩],
      disk := (d5.fwrite (full_path s.disk.home dir dest f) cs.flatten).remove_ignore
        (full_path s.disk.home "S1".toList dest f),
      inp := [],
      out := s.out ++ ["OK".toList, upload_status f (full_path s.disk.home "S1".toList dest f)],
      conns := s.conns ++ [Conn.mk port true
        (uploadf_line f dest :: (fread_all cs.flatten ++ [EOF]))] }
    f (dest.drop 4 ++ '/' :: f) ext cs.flatten port peer hf hf2 hext hroute hnet
    (get_after_save _ f _ hfresh) (by simp; omega)
    (by
      rw [hdown, send_file_eq dir _ _ cs.flatten]
      rw [remove_ignore_home, fwrite_home, hhome5,
        file_path_rel _ dir f dest hd4 (by rw [hdlen]; exact hfull)]
      exact hlook)
    hb
  exact ⟨_, by
    unfold prcclient
    rw [hinp]
    rw [show (uploadf_line f dest :: (cs ++ [EOF, downlf_line f])).length = cs.length + 1 + 1 + 1
      by simp]
    rw [prcclient_loop_step net tar cwd _ s _ (uploadf_line f dest) (cs ++ [EOF, downlf_line f])
      hinp (uploadf_line_ne_nil f dest) h1]
    rw [prcclient_loop_step net tar cwd _
      { file_map := s.file_map ++ [⟨f, dest.drop 4 ++ '/' :: f⟩],
        disk := (d5.fwrite (full_path s.disk.home dir dest f) cs.flatten).remove_ignore
          (full_path s.disk.home "S1".toList dest f),
        inp := [downlf_line f],
        out := s.out ++ ["OK".toList,
          upload_status f (full_path s.disk.home "S1".toList dest f)],
        conns := s.conns ++ [Conn.mk port true
          (uploadf_line f dest :: (fread_all cs.flatten ++ [EOF]))] }
      _ (downlf_line f) [] rfl (downlf_line_ne_nil f) h2]
    exact prcclient_loop_done net tar cwd _ _ rfl, rfl⟩

/-- The session of a client that uploads and then downloads the same `.c`
file. -/
theorem round_trip_local (net : Net) (tar : Tar) (cwd : Str) (s : S1)
    (f dest : Str) (cs : List Str) (d2 : Disk)
    (hf : Token f) (hdest : Token dest) (hext : strrchr '.' f = some ".c".toList)
    (hd4 : 4 ≤ dest.length) (hrel : dest.length - 4 + 1 + f.length < 256)
    (hfull : s.disk.home.length + 2 + dest.length + f.length < 2048)
    (hcount : s.file_map.length < 100) (hfresh : ∀ e ∈ s.file_map, e.filename ≠ f)
    (hcs : ∀ c ∈ cs, c ≠ [] ∧ c ≠ EOF)
    (hinp : s.inp = uploadf_line f dest :: (cs ++ [EOF, downlf_line f]))
    (hopen : (create_directories (base_path s.disk.home "S1".toList dest) s.disk).fopen_w
      (full_path s.disk.home "S1".toList dest f) = some d2) :
    ∃ t : S1, prcclient net tar cwd s = some t ∧
      t.out = s.out ++ ["OK".toList,
        upload_status f (full_path s.disk.home "S1".toList dest f)] ++
        fread_all cs.flatten ++ [EOF] := by
  have hf2 : f.length < 256 := by omega
  have hd2 : dest.length < 512 := by omega
  have hrelEq : snprintf 512 (dest.drop 4 ++ '/' :: f) = dest.drop 4 ++ '/' :: f :=
    snprintf_of_lt _ _ (by simp; omega)
  have hhome2 : d2.home = s.disk.home := by
    rw [fopen_w_home _ d2 _ hopen, create_directories_home]
  have h1 := upload_round_local net tar cwd { s with inp := cs ++ [EOF, downlf_line f] }
    f dest cs [downlf_line f] d2 hf hdest hf2 hd2 hext hd4 hcount hcs rfl hopen
  rw [hrelEq] at h1
  dsimp only at h1
  have h2 := download_round_local net tar cwd
    { file_map := s.file_map ++ [⟨f, dest.drop 4 ++ '/' :: f⟩],
      disk := d2.fwrite (full_path s.disk.home "S1".toList dest f) cs.flatten,
      inp := [],
      out := s.out ++ ["OK".toList, upload_status f (full_path s.disk.home "S1".toList dest f)],
      conns := s.conns }
    f (dest.drop 4 ++ '/' :: f) cs.flatten hf hf2 hext (get_after_save _ f _ hfresh)
    (by
      rw [fwrite_home, hhome2, file_path_rel _ _ f dest hd4 (by simpa using hfull)]
      exact lookup_after_write _ d2 _ _ hopen)
  exact ⟨_, by
    unfold prcclient
    rw [hinp]
    rw [show (uploadf_line f dest :: (cs ++ [EOF, downlf_line f])).length = cs.length + 1 + 1 + 1
      by simp]
    rw [prcclient_loop_step net tar cwd _ s _ (uploadf_line f dest) (cs ++ [EOF, downlf_line f])
      hinp (uploadf_line_ne_nil f dest) h1]
    rw [prcclient_loop_step net tar cwd _
      { file_map := s.file_map ++ [⟨f, dest.drop 4 ++ '/' :: f⟩],
        disk := d2.fwrite (full_path s.disk.home "S1".toList dest f) cs.flatten,
        inp := [downlf_line f],
        out := s.out ++ ["OK".toList,
          upload_status f (full_path s.disk.home "S1".toList dest f)],
        conns := s.conns }
      _ (downlf_line f) [] rfl (downlf_line_ne_nil f) h2]
    exact prcclient_loop_done net tar cwd _ _ rfl, rfl⟩

theorem cat_lines_eq (listing : List Str) (msg : Str)
    (h : msg.length + (listing.map cstr).flatten.length < 16384) :
    cat_lines listing msg = some (msg ++ (listing.map cstr).flatten) := by
  induction listing generalizing msg with
  | nil => simp [cat_lines]
  | cons l rest ih =>
    simp only [List.map_cons, List.flatten_cons, List.length_append] at h
    have h1 : strcat_msg msg (cstr l) = some (msg ++ cstr l) := by
      unfold strcat_msg
      rw [if_pos (by simp [BUFFER_SIZE]; omega)]
    unfold cat_lines
    rw [h1]
    simp only
    rw [ih (msg ++ cstr l) (by simp only [List.length_append]; omega)]
    simp

theorem recv_listing_eq (reply : List Str) (msg : Str)
    (h : msg.length + (reply_lines reply).length < 16384) :
    recv_listing reply msg = some (msg ++ reply_lines reply) := by
  induction reply generalizing msg with
  | nil => simp [recv_listing, reply_lines]
  | cons c rest ih =>
    by_cases hc : c = []
    · simp [recv_listing, reply_lines, hc]
    · by_cases he : strncmp_eq (cstr c) EOF 3 = true
      · simp [recv_listing, reply_lines, hc, he]
      · have hr : reply_lines (c :: rest) = cstr c ++ reply_lines rest := by
          rw [reply_lines, if_neg (by simp [hc, he])]
        rw [hr] at h ⊢
        unfold recv_listing
        rw [if_neg hc, if_neg he]
        simp only [List.length_append] at h
        have h1 : strcat_msg msg (cstr c) = some (msg ++ cstr c) := by
          unfold strcat_msg
          rw [if_pos (by simp [BUFFER_SIZE]; omega)]
        rw [h1]
        simp only
        rw [ih (msg ++ cstr c) (by simp only [List.length_append]; omega)]
        simp

theorem dispfnames_server_eq (net : Net) (pathname : Str) (port : Nat) (s : S1) (msg : Str)
    (d : Disk) (reply : List Str)
    (hask : ask (net port) s.disk (snprintf BUFFER_SIZE ("dispfnames ".toList ++ pathname)) =
      some (d, reply))
    (h : msg.length + (reply_lines reply).length < 16384) :
    ∃ t : S1, dispfnames_server net pathname port (s, msg) = some (t, msg ++ reply_lines reply) ∧
      t.disk = d ∧ t.out = s.out ∧ t.file_map = s.file_map ∧ t.inp = s.inp := by
  unfold dispfnames_server
  cases hnet : net port with
  | none =>
    rw [hnet] at hask
    simp only [ask, Option.some.injEq, Prod.mk.injEq] at hask
    obtain ⟨hd, hr⟩ := hask
    subst hr
    refine ⟨{ s with conns := s.conns ++ [Conn.mk port false []] }, ?_, hd, rfl, rfl, rfl⟩
    rw [show reply_lines [] = [] from rfl, List.append_nil]
  | some peer =>
    rw [hnet] at hask
    simp only [ask] at hask
    simp only [hask]
    rw [recv_listing_eq reply msg h]
    exact ⟨_, rfl, rfl, rfl, rfl, rfl⟩

theorem save_all_eq (ups : List (Str × Str)) (m : List FileMap)
    (hn : m.length + ups.length ≤ 100)
    (hsz : ∀ u ∈ ups, u.1.length < 256 ∧ 4 ≤ u.2.length) :
    save_all ups m = some (m ++ ups.map index_entry) := by
  induction ups generalizing m with
  | nil => simp [save_all]
  | cons u rest ih =>
    have hu := hsz u (List.mem_cons_self _ _)
    have hlen : m.length < 100 := by
      simp only [List.length_cons] at hn
      omega
    rw [save_all, save_file_path_eq m u.1 u.2 hlen hu.1 hu.2]
    dsimp only
    rw [ih _ (by simp only [List.length_append, List.length_cons, List.length_nil] at hn ⊢; omega)
      (fun v hv => hsz v (List.mem_cons_of_mem _ hv))]
    simp [index_entry]

theorem save_all_append (a b : List (Str × Str)) (m : List FileMap) :
    save_all (a ++ b) m = (save_all a m).bind (save_all b) := by
  induction a generalizing m with
  | nil => simp [save_all]
  | cons u rest ih =>
    rw [List.cons_append, save_all, save_all]
    cases save_file_path m u.1 u.2 with
    | none => rfl
    | some m1 => exact ih m1

theorem save_file_path_full (m : List FileMap) (f dest : Str) (h : 100 ≤ m.length) :
    save_file_path m f dest = none := by
  unfold save_file_path
  rw [if_neg]
  intro hc
  have := hc.1
  simp only [FILE_MAP_SIZE] at this
  omega

theorem get_relative_path_index (ups : List (Str × Str)) (hd : (ups.map Prod.fst).Nodup)
    (u : Str × Str) (hu : u ∈ ups) :
    get_relative_path (ups.map index_entry) u.1 = some (index_entry u).relative_path := by
  induction ups with
  | nil => simp at hu
  | cons v rest ih =>
    rw [List.map_cons, List.nodup_cons] at hd
    rcases List.mem_cons.1 hu with h | h
    · subst h
      simp [get_relative_path, index_entry]
    · have hne : v.1 ≠ u.1 := by
        intro he
        exact hd.1 (he ▸ List.mem_map_of_mem Prod.fst h)
      rw [List.map_cons, get_relative_path]
      have : (index_entry v).filename = v.1 := rfl
      rw [this, if_neg hne]
      exact ih hd.2 h

theorem distinct_uploads_sizes (n : Nat) (hn : n ≤ 200) :
    ∀ u ∈ distinct_uploads n, u.1.length < 256 ∧ 4 ≤ u.2.length := by
  intro u hu
  unfold distinct_uploads at hu
  rcases List.mem_map.1 hu with ⟨i, hi, rfl⟩
  have := List.mem_range.1 hi
  refine ⟨?_, show 4 ≤ "~S1/d".toList.length by decide⟩
  simp only [List.length_append, List.length_replicate]
  have : ".c".toList.length = 2 := rfl
  omega

theorem distinct_uploads_length (n : Nat) : (distinct_uploads n).length = n := by
  simp [distinct_uploads]

theorem distinct_uploads_succ (n : Nat) :
    distinct_uploads (n + 1) =
      distinct_uploads n ++ [(List.replicate (n + 1) 'a' ++ ".c".toList, "~S1/d".toList)] := by
  simp [distinct_uploads, List.range_succ]

theorem distinct_uploads_nodup (n : Nat) : ((distinct_uploads n).map Prod.fst).Nodup := by
  unfold distinct_uploads
  rw [List.map_map]
  refine List.Nodup.map ?_ (List.nodup_range n)
  intro i j hij
  have h := congrArg List.length hij
  simp only [Function.comp, List.length_append, List.length_replicate] at h
  omega

theorem request_file_eq (net : Net) (port : Nat) (rel save_as : Str) (s : S1) (peer : Peer)
    (d1 d2 : Disk) (reply : List Str)
    (hopen : s.disk.fopen_w save_as = some d1) (hnet : net port = some peer)
    (hpeer : peer d1 [snprintf BUFFER_SIZE ("downlf ".toList ++ rel)] = some (d2, reply)) :
    request_file_from_secondary net port rel save_as s =
      some { s with
        disk := d2.fwrite save_as (recv_until_EOF reply).1.flatten,
        conns := s.conns ++
          [Conn.mk port true [snprintf BUFFER_SIZE ("downlf ".toList ++ rel)]] } := by
  unfold request_file_from_secondary
  rw [hopen]
  dsimp only
  rw [hnet]
  dsimp only
  rw [hpeer]

theorem lookup_fwrite_empty (d : Disk) (p data : Str) (h : lookup p d.files = some []) :
    lookup p (d.fwrite p data).files = some data := by
  unfold Disk.fwrite
  dsimp only
  rw [lookup_fwrite_self, h]
  rfl

theorem send_EOF (s : S1) : s.send EOF = { s with out := s.out ++ [EOF] } := by
  unfold S1.send
  rw [if_neg (by decide)]

theorem send_archive_eq (path content : Str) (s : S1)
    (h : lookup path s.disk.files = some content) :
    send_archive path s = some ({ s with out := s.out ++ fread_all content ++ [EOF] }, true) := by
  unfold send_archive
  rw [fopen_r_of_lookup _ _ _ h]
  dsimp only
  rw [sendAll_eq _ _ (fread_all_ne_nil content), send_EOF]

theorem send_file_map (s : S1) (data : Str) : (s.send data).file_map = s.file_map := by
  unfold S1.send
  split <;> rfl

theorem send_inp (s : S1) (data : Str) : (s.send data).inp = s.inp := by
  unfold S1.send
  split <;> rfl

theorem sendAll_file_map (blocks : List Str) (s : S1) :
    (s.sendAll blocks).file_map = s.file_map := by
  induction blocks generalizing s with
  | nil => rfl
  | cons c rest ih =>
    show (S1.sendAll (s.send c) rest).file_map = s.file_map
    rw [ih, send_file_map]

theorem sendAll_inp (blocks : List Str) (s : S1) : (s.sendAll blocks).inp = s.inp := by
  induction blocks generalizing s with
  | nil => rfl
  | cons c rest ih =>
    show (S1.sendAll (s.send c) rest).inp = s.inp
    rw [ih, send_inp]

theorem send_to_secondary_server_frame (net : Net) (port : Nat) (filepath filename dest : Str)
    (s s1 : S1) (h : send_to_secondary_server net port filepath filename dest s = some s1) :
    s1.file_map = s.file_map ∧ s1.inp = s.inp ∧ s1.out = s.out := by
  unfold send_to_secondary_server at h
  split at h
  · cases h; exact ⟨rfl, rfl, rfl⟩
  · split at h
    · cases h; exact ⟨rfl, rfl, rfl⟩
    · try dsimp only at h
      split at h
      · cases h
      · cases h; exact ⟨rfl, rfl, rfl⟩

theorem forward_upload_frame (net : Net) (ext fullpath filename dest : Str) (s s1 : S1)
    (h : forward_upload net ext fullpath filename dest s = some s1) :
    s1.file_map = s.file_map ∧ s1.inp = s.inp ∧ s1.out = s.out := by
  unfold forward_upload at h
  split at h
  · exact send_to_secondary_server_frame _ _ _ _ _ _ _ h
  · split at h
    · exact send_to_secondary_server_frame _ _ _ _ _ _ _ h
    · split at h
      · exact send_to_secondary_server_frame _ _ _ _ _ _ _ h
      · cases h; exact ⟨rfl, rfl, rfl⟩

theorem recv_until_EOF_suffix (blocks : List Str) :
    (recv_until_EOF blocks).2 <:+ blocks := by
  induction blocks with
  | nil => exact List.suffix_refl _
  | cons c rest ih =>
    unfold recv_until_EOF
    split
    · exact List.nil_suffix
    · split
      · exact List.suffix_cons _ _
      · exact List.IsSuffix.trans ih (List.suffix_cons _ _)

theorem send_local_file_frame (f : Str) (s : S1) :
    (send_local_file f s).file_map = s.file_map ∧ (send_local_file f s).inp = s.inp := by
  unfold send_local_file
  split
  · exact ⟨send_file_map _ _, send_inp _ _⟩
  · split
    · exact ⟨send_file_map _ _, send_inp _ _⟩
    · rw [send_file_map, send_inp, sendAll_file_map, sendAll_inp]
      exact ⟨rfl, rfl⟩

theorem prcclient_downlf_frame (net : Net) (buffer : Str) (s s1 : S1) (b : Bool)
    (h : prcclient_downlf net buffer s = some (s1, b)) :
    s1.file_map = s.file_map ∧ s1.inp = s.inp := by
  unfold prcclient_downlf at h
  try dsimp only at h
  split at h
  · cases h; exact ⟨rfl, rfl⟩
  · split at h
    · cases h
    · split at h
      · cases h; exact ⟨send_file_map _ _, send_inp _ _⟩
      · split at h
        · cases h; exact send_local_file_frame _ _
        · split at h
          · cases h; exact ⟨send_file_map _ _, send_inp _ _⟩
          · split at h
            · cases h; exact ⟨send_file_map _ _, send_inp _ _⟩
            · try dsimp only at h
              split at h
              · cases h
              · cases h
                rw [send_file_map, send_inp, sendAll_file_map, sendAll_inp]
                exact ⟨rfl, rfl⟩

theorem forward_removef_frame (net : Net) (port : Nat) (f : Str) (s s1 : S1)
    (h : forward_removef_to_secondary net port f s = some s1) :
    s1.file_map = s.file_map ∧ s1.inp = s.inp := by
  unfold forward_removef_to_secondary at h
  split at h
  · cases h; exact ⟨send_file_map _ _, send_inp _ _⟩
  · try dsimp only at h
    split at h
    · cases h
    · split at h
      · cases h; exact ⟨send_file_map _ _, send_inp _ _⟩
      · split at h <;> cases h <;> exact ⟨send_file_map _ _, send_inp _ _⟩

theorem handle_removef_frame (net : Net) (f : Str) (s s1 : S1)
    (h : handle_removef net f s = some s1) :
    s1.file_map = s.file_map ∧ s1.inp = s.inp := by
  unfold handle_removef at h
  split at h
  · cases h; exact ⟨send_file_map _ _, send_inp _ _⟩
  · split at h
    · split at h
      · cases h; exact ⟨send_file_map _ _, send_inp _ _⟩
      · split at h <;> cases h <;> exact ⟨send_file_map _ _, send_inp _ _⟩
    · split at h
      · exact forward_removef_frame _ _ _ _ _ h
      · split at h
        · exact forward_removef_frame _ _ _ _ _ h
        · split at h
          · exact forward_removef_frame _ _ _ _ _ h
          · cases h; exact ⟨send_file_map _ _, send_inp _ _⟩

theorem dispfnames_server_frame (net : Net) (pathname : Str) (port : Nat) (acc r : S1 × Str)
    (h : dispfnames_server net pathname port acc = some r) :
    r.1.file_map = acc.1.file_map ∧ r.1.inp = acc.1.inp := by
  unfold dispfnames_server at h
  split at h
  · cases h; exact ⟨rfl, rfl⟩
  · try dsimp only at h
    split at h
    · cases h
    · split at h
      · cases h
      · cases h; exact ⟨rfl, rfl⟩

theorem handle_dispfnames_frame (net : Net) (listing : List Str) (pathname : Str) (s s1 : S1)
    (h : handle_dispfnames net listing pathname s = some s1) :
    s1.file_map = s.file_map ∧ s1.inp = s.inp := by
  unfold handle_dispfnames at h
  split at h
  · cases h
  · split at h
    · cases h
    · rename_i a2 h2
      split at h
      · cases h
      · rename_i a3 h3
        split at h
        · cases h
        · rename_i a4 h4
          cases h
          have f2 := dispfnames_server_frame _ _ _ _ _ h2
          have f3 := dispfnames_server_frame _ _ _ _ _ h3
          have f4 := dispfnames_server_frame _ _ _ _ _ h4
          rw [send_file_map, send_inp, f4.1, f4.2, f3.1, f3.2, f2.1, f2.2]
          exact ⟨rfl, rfl⟩

theorem request_file_frame (net : Net) (port : Nat) (rel save_as : Str) (s s1 : S1)
    (h : request_file_from_secondary net port rel save_as s = some s1) :
    s1.file_map = s.file_map ∧ s1.inp = s.inp := by
  unfold request_file_from_secondary at h
  split at h
  · cases h; exact ⟨rfl, rfl⟩
  · split at h
    · cases h; exact ⟨rfl, rfl⟩
    · try dsimp only at h
      split at h
      · cases h
      · cases h; exact ⟨rfl, rfl⟩

theorem send_archive_frame (path : Str) (s s1 : S1) (b : Bool)
    (h : send_archive path s = some (s1, b)) :
    s1.file_map = s.file_map ∧ s1.inp = s.inp := by
  unfold send_archive at h
  split at h
  · cases h; exact ⟨send_file_map _ _, send_inp _ _⟩
  · cases h
    rw [send_file_map, send_inp, sendAll_file_map, sendAll_inp]
    exact ⟨rfl, rfl⟩

theorem handle_downltar_frame (net : Net) (tar : Tar) (cwd cmdline : Str) (s s1 : S1)
    (h : handle_downltar net tar cwd cmdline s = some s1) :
    s1.file_map = s.file_map ∧ s1.inp = s.inp := by
  unfold handle_downltar at h
  dsimp only at h
  split at h
  · cases h; exact ⟨send_file_map _ _, send_inp _ _⟩
  · split at h
    · cases h
    · split at h
      · split at h
        · cases h; exact ⟨send_file_map _ _, send_inp _ _⟩
        · split at h
          · cases h
          · rename_i t ht
            cases h
            have f1 := send_archive_frame _ _ _ _ ht
            exact ⟨f1.1, f1.2⟩
          · rename_i t ht
            cases h
            have f1 := send_archive_frame _ _ _ _ ht
            exact ⟨f1.1, f1.2⟩
      · split at h
        · split at h
          · cases h
          · rename_i s0 h0
            have f0 := request_file_frame _ _ _ _ _ _ h0
            split at h
            · cases h
            · rename_i t ht
              cases h
              have f1 := send_archive_frame _ _ _ _ ht
              exact ⟨f1.1.trans f0.1, f1.2.trans f0.2⟩
            · rename_i t ht
              cases h
              have f1 := send_archive_frame _ _ _ _ ht
              exact ⟨f1.1.trans f0.1, f1.2.trans f0.2⟩
        · split at h
          · split at h
            · cases h
            · rename_i s0 h0
              have f0 := request_file_frame _ _ _ _ _ _ h0
              split at h
              · cases h
              · rename_i t ht
                cases h
                have f1 := send_archive_frame _ _ _ _ ht
                exact ⟨f1.1.trans f0.1, f1.2.trans f0.2⟩
              · rename_i t ht
                cases h
                have f1 := send_archive_frame _ _ _ _ ht
                exact ⟨f1.1.trans f0.1, f1.2.trans f0.2⟩
          · split at h <;> cases h <;> exact ⟨send_file_map _ _, send_inp _ _⟩

theorem prcclient_uploadf_frame (net : Net) (buffer : Str) (s s1 : S1) (b : Bool)
    (h : prcclient_uploadf net buffer s = some (s1, b)) :
    s1.inp <:+ s.inp ∧
      (s1.file_map = s.file_map ∨
        s1.file_map = s.file_map ++ [index_entry (uploadf_filename buffer, uploadf_dest buffer)]) := by
  unfold prcclient_uploadf at h
  dsimp only at h
  split at h
  · cases h; exact ⟨List.suffix_refl _, Or.inl rfl⟩
  · split at h
    · cases h
    · split at h
      · cases h; exact ⟨List.suffix_refl _, Or.inl rfl⟩
      · split at h
        · cases h
        · split at h
          · cases h
            rw [send_inp, send_file_map]
            exact ⟨List.suffix_refl _, Or.inl rfl⟩
          · split at h
            · cases h
            · split at h
              · cases h; exact ⟨List.suffix_refl _, Or.inl rfl⟩
              · split at h
                · cases h
                · rename_i m hm
                  split at h
                  · cases h
                  · rename_i s4 h4
                    cases h
                    have f4 := forward_upload_frame _ _ _ _ _ _ _ h4
                    have hm1 := save_file_path_some _ _ _ _ hm
                    rw [send_inp, send_file_map, f4.1, f4.2.1]
                    refine ⟨?_, Or.inr ?_⟩
                    · dsimp only
                      rw [send_inp]
                      exact recv_until_EOF_suffix _
                    · dsimp only
                      rw [hm1, send_file_map]
                      rfl

theorem prcclient_body_frame (net : Net) (tar : Tar) (cwd buffer : Str) (s s1 : S1) (b : Bool)
    (h : prcclient_body net tar cwd buffer s = some (s1, b)) :
    s1.inp <:+ s.inp ∧
      (s1.file_map = s.file_map ∨
        s1.file_map = s.file_map ++ [index_entry (uploadf_filename buffer, uploadf_dest buffer)]) := by
  unfold prcclient_body at h
  split at h
  · exact prcclient_uploadf_frame net buffer s s1 b h
  · split at h
    · have f := prcclient_downlf_frame net buffer s s1 b h
      exact ⟨f.2 ▸ List.suffix_refl _, Or.inl f.1⟩
    · split at h
      · dsimp only at h
        split at h
        · cases h; exact ⟨List.suffix_refl _, Or.inl rfl⟩
        · split at h
          · cases h
          · rcases Option.map_eq_some'.1 h with ⟨t, ht, he⟩
            cases he
            have f := handle_removef_frame _ _ _ _ ht
            exact ⟨f.2 ▸ List.suffix_refl _, Or.inl f.1⟩
      · split at h
        · dsimp only at h
          split at h
          · cases h
            rw [send_inp, send_file_map]
            exact ⟨List.suffix_refl _, Or.inl rfl⟩
          · split at h
            · cases h
            · rcases Option.map_eq_some'.1 h with ⟨t, ht, he⟩
              cases he
              have f := handle_dispfnames_frame _ _ _ _ _ ht
              exact ⟨f.2 ▸ List.suffix_refl _, Or.inl f.1⟩
        · split at h
          · rcases Option.map_eq_some'.1 h with ⟨t, ht, he⟩
            cases he
            have f := handle_downltar_frame _ _ _ _ _ _ ht
            exact ⟨f.2 ▸ List.suffix_refl _, Or.inl f.1⟩
          · cases h; exact ⟨List.suffix_refl _, Or.inl rfl⟩

theorem prcclient_round_frame (net : Net) (tar : Tar) (cwd : Str) (s s1 : S1) (b : Bool)
    (h : prcclient_round net tar cwd s = some (s1, b)) :
    s1.inp <:+ s.inp ∧ ∃ ea, s1.file_map = s.file_map ++ ea ∧
      ∀ e ∈ ea, ∃ c ∈ s.inp, e = index_entry (uploadf_filename (cstr c), uploadf_dest (cstr c)) := by
  unfold prcclient_round at h
  split at h
  · cases h
    exact ⟨List.suffix_refl _, [], (List.append_nil _).symm, fun e he => absurd he (List.not_mem_nil e)⟩
  · rename_i c rest hinp
    split at h
    · cases h
      exact ⟨List.suffix_refl _, [], (List.append_nil _).symm,
        fun e he => absurd he (List.not_mem_nil e)⟩
    · have f := prcclient_body_frame net tar cwd (cstr c) _ s1 b h
      refine ⟨?_, ?_⟩
      · rw [hinp]
        exact List.IsSuffix.trans f.1 (List.suffix_cons _ _)
      · rcases f.2 with hm | hm
        · exact ⟨[], by rw [hm, List.append_nil],
            fun e he => absurd he (List.not_mem_nil e)⟩
        · refine ⟨_, hm, ?_⟩
          intro e he
          rw [List.mem_singleton] at he
          exact ⟨c, by rw [hinp]; exact List.mem_cons_self _ _, he⟩

theorem prcclient_loop_round (net : Net) (tar : Tar) (cwd : Str) (n : Nat) (s : S1) :
    prcclient_loop net tar cwd (n + 1) s =
      match prcclient_round net tar cwd s with
      | none => none
      | some (s1, true) => prcclient_loop net tar cwd n s1
      | some (s1, false) => some s1 := by
  rw [prcclient_loop]
  unfold prcclient_round
  cases s.inp with
  | nil => rfl
  | cons c rest =>
    dsimp only
    split
    · rfl
    · rfl

theorem prcclient_loop_frame (net : Net) (tar : Tar) (cwd : Str) (n : Nat) (s s1 : S1)
    (h : prcclient_loop net tar cwd n s = some s1) :
    s1.inp <:+ s.inp ∧ ∃ ea, s1.file_map = s.file_map ++ ea ∧
      ∀ e ∈ ea, ∃ c ∈ s.inp, e = index_entry (uploadf_filename (cstr c), uploadf_dest (cstr c)) := by
  induction n generalizing s with
  | zero =>
    rw [prcclient_loop] at h
    cases h
    exact ⟨List.suffix_refl _, [], (List.append_nil _).symm,
      fun e he => absurd he (List.not_mem_nil e)⟩
  | succ n ih =>
    rw [prcclient_loop_round] at h
    cases hr : prcclient_round net tar cwd s with
    | none => rw [hr] at h; cases h
    | some r =>
      obtain ⟨t, b⟩ := r
      have f := prcclient_round_frame net tar cwd s t b hr
      rw [hr] at h
      cases b with
      | false =>
        cases h
        exact f
      | true =>
        have g := ih t h
        obtain ⟨ea, hea, hsrc⟩ := f.2
        obtain ⟨eb, heb, hsrcb⟩ := g.2
        refine ⟨List.IsSuffix.trans g.1 f.1, ea ++ eb, by rw [heb, hea, List.append_assoc], ?_⟩
        intro e he
        rcases List.mem_append.1 he with h1 | h1
        · exact hsrc e h1
        · obtain ⟨c, hc, hce⟩ := hsrcb e h1
          exact ⟨c, f.1.subset hc, hce⟩

theorem get_relative_path_grow (m ea : List FileMap) (f p : Str)
    (h : get_relative_path m f = some p) : get_relative_path (m ++ ea) f = some p := by
  rw [get_relative_path_append, h]
  rfl

theorem get_relative_path_miss_grow (m ea : List FileMap) (f : Str)
    (h : get_relative_path m f = none) (hea : ∀ e ∈ ea, e.filename ≠ f) :
    get_relative_path (m ++ ea) f = none := by
  rw [get_relative_path_eq_none] at h ⊢
  intro e he
  rcases List.mem_append.1 he with h1 | h1
  · exact h e h1
  · exact hea e h1

/-- The upload round for a file that the shard behind `port` takes over, given
what that shard did with the blocks sent to it. -/
theorem upload_round_sent (net : Net) (tar : Tar) (cwd : Str) (s : S1)
    (f dest ext : Str) (port : Nat) (peer : Peer) (cs tail : List Str) (d2 dk : Disk)
    (reply : List Str)
    (hf : Token f) (hdest : Token dest) (hf2 : f.length < 256) (hd2 : dest.length < 512)
    (hext : strrchr '.' f = some ext) (hroute : remote_route ext port)
    (hnet : net port = some peer) (hd4 : 4 ≤ dest.length)
    (hcount : s.file_map.length < 100) (hcs : ∀ c ∈ cs, c ≠ [] ∧ c ≠ EOF)
    (hinp : s.inp = cs ++ EOF :: tail)
    (hopen : (create_directories (base_path s.disk.home "S1".toList dest) s.disk).fopen_w
      (full_path s.disk.home "S1".toList dest f) = some d2)
    (hup : peer (d2.fwrite (full_path s.disk.home "S1".toList dest f) cs.flatten)
      (uploadf_line f dest :: (fread_all cs.flatten ++ [EOF])) = some (dk, reply)) :
    prcclient_body net tar cwd (cstr (uploadf_line f dest)) s =
      some ({ file_map := s.file_map ++ [⟨f, snprintf 512 (dest.drop 4 ++ '/' :: f)⟩],
              disk := dk.remove_ignore (full_path s.disk.home "S1".toList dest f),
              inp := tail,
              out := s.out ++ ["OK".toList,
                upload_status f (full_path s.disk.home "S1".toList dest f)],
              conns := s.conns ++ [Conn.mk port true
                (uploadf_line f dest :: (fread_all cs.flatten ++ [EOF]))] }, true) := by
  have hline : snprintf BUFFER_SIZE ("uploadf ".toList ++ f ++ ' ' :: dest) =
      uploadf_line f dest :=
    snprintf_of_lt _ _ (by rw [show "uploadf ".toList ++ f ++ ' ' :: dest = uploadf_line f dest
      from rfl, uploadf_line_length]; simp [BUFFER_SIZE]; omega)
  rw [upload_round net tar cwd s f dest ext d2 hf hdest hf2 hd2 hext hd4 hcount hopen, hinp,
    recv_until_EOF_append cs tail hcs, forward_upload_remote net ext _ _ _ _ port hroute]
  unfold send_to_secondary_server
  dsimp only
  rw [fopen_r_after_write _ d2 _ _ hopen]
  dsimp only
  rw [hnet]
  dsimp only
  rw [hline, hup]
  dsimp only
  simp only [Option.map_some']
  unfold S1.send
  rw [if_neg (upload_status_ne_nil _ _)]
  simp

theorem wired_shards_route (w : Wire) (tar : Tar) (cwd2 cwd3 : Str) (ext dir : Str)
    (hdir : (ext = ".pdf".toList ∧ dir = "S2".toList) ∨ (ext = ".txt".toList ∧ dir = "S3".toList) ∨
      (ext = ".zip".toList ∧ dir = "S4".toList)) :
    ∃ (port : Nat) (h : Peer), remote_route ext port ∧
      wired_shards w tar cwd2 cwd3 port = some (over_wire w h) ∧
      (∀ d f dest blocks, Token f → Token dest →
        h d (uploadf_line f dest :: blocks) = shard_uploadf dir (uploadf_line f dest) blocks d) ∧
      (∀ d rel, Token rel → rel.length < 256 → '/' ∈ rel →
        h d [downlf_line rel] = some (d, send_file dir rel d)) := by
  rcases hdir with ⟨he, hd⟩ | ⟨he, hd⟩ | ⟨he, hd⟩
  · subst he; subst hd
    exact ⟨S2_PORT, handle_client_S2 tar cwd2, Or.inl ⟨rfl, rfl⟩, rfl,
      fun d f dest blocks hf hdest => handle_client_S2_uploadf tar cwd2 d f dest blocks hf hdest,
      fun d rel hrel hlen _ => handle_client_S2_downlf tar cwd2 d rel hrel hlen⟩
  · subst he; subst hd
    refine ⟨S3_PORT, handle_client_S3 tar cwd3, Or.inr (Or.inl ⟨rfl, rfl⟩), rfl,
      fun d f dest blocks hf hdest => handle_client_S3_uploadf tar cwd3 d f dest blocks hf hdest,
      fun d rel hrel hlen hslash => handle_client_S3_downlf tar cwd3 d rel hrel hlen ?_⟩
    intro h
    rw [h] at hslash
    revert hslash
    decide
  · subst he; subst hd
    exact ⟨S4_PORT, handle_client_S4, Or.inr (Or.inr ⟨rfl, rfl⟩), rfl,
      fun d f dest blocks hf hdest => handle_client_S4_uploadf d f dest blocks hf hdest,
      fun d rel hrel hlen _ => handle_client_S4_downlf d rel hrel hlen⟩

/-- The upload round for a file that a shard takes over, with the shards
reached through `w`. -/
theorem upload_round_wired (w : Wire) (tar : Tar) (cwd cwd2 cwd3 : Str) (s : S1)
    (f dest ext dir : Str) (cs tail : List Str) (d2 d5 : Disk)
    (hf : Token f) (hdest : Token dest) (hf2 : f.length < 256) (hd2 : dest.length < 512)
    (hext : strrchr '.' f = some ext)
    (hdir : (ext = ".pdf".toList ∧ dir = "S2".toList) ∨ (ext = ".txt".toList ∧ dir = "S3".toList) ∨
      (ext = ".zip".toList ∧ dir = "S4".toList))
    (hd4 : 4 ≤ dest.length)
    (hcount : s.file_map.length < 100) (hcs : ∀ c ∈ cs, c ≠ [] ∧ c ≠ EOF)
    (hb : EOF ∉ fread_all cs.flatten)
    (hinp : s.inp = cs ++ EOF :: tail)
    (hw : w.to_shard (uploadf_line f dest :: (fread_all cs.flatten ++ [EOF])) =
      uploadf_line f dest :: (fread_all cs.flatten ++ [EOF]))
    (hopen : (create_directories (base_path s.disk.home "S1".toList dest) s.disk).fopen_w
      (full_path s.disk.home "S1".toList dest f) = some d2)
    (hopenk : (create_directories (base_path s.disk.home dir dest)
      (d2.fwrite (full_path s.disk.home "S1".toList dest f) cs.flatten)).fopen_w
        (full_path s.disk.home dir dest f) = some d5) :
    ∃ port, remote_route ext port ∧
      prcclient_body (wired_shards w tar cwd2 cwd3) tar cwd (cstr (uploadf_line f dest)) s =
      some ({ file_map := s.file_map ++ [⟨f, snprintf 512 (dest.drop 4 ++ '/' :: f)⟩],
              disk := (d5.fwrite (full_path s.disk.home dir dest f) cs.flatten).remove_ignore
                (full_path s.disk.home "S1".toList dest f),
              inp := tail,
              out := s.out ++ ["OK".toList,
                upload_status f (full_path s.disk.home "S1".toList dest f)],
              conns := s.conns ++ [Conn.mk port true
                (uploadf_line f dest :: (fread_all cs.flatten ++ [EOF]))] }, true) := by
  obtain ⟨port, h, hroute, hnet, hupk, _⟩ := wired_shards_route w tar cwd2 cwd3 ext dir hdir
  have hhome : (d2.fwrite (full_path s.disk.home "S1".toList dest f) cs.flatten).home =
      s.disk.home := by
    rw [fwrite_home, fopen_w_home _ d2 _ hopen, create_directories_home]
  have hblocks : ∀ c ∈ fread_all cs.flatten, c ≠ [] ∧ c ≠ EOF :=
    fun c hc => ⟨fread_all_ne_nil _ c hc, fun h => hb (h ▸ hc)⟩
  have hup : over_wire w h (d2.fwrite (full_path s.disk.home "S1".toList dest f) cs.flatten)
      (uploadf_line f dest :: (fread_all cs.flatten ++ [EOF])) =
      some (d5.fwrite (full_path s.disk.home dir dest f) cs.flatten,
        w.to_S1 ["OK".toList]) := by
    unfold over_wire
    rw [hw, hupk _ f dest _ hf hdest,
      shard_uploadf_eq dir _ d5 f dest (fread_all cs.flatten) hf hdest hf2 hd2 hd4 hblocks
        (by rw [hhome]; exact hopenk)]
    dsimp only
    rw [fread_all_flatten, hhome]
  exact ⟨port, hroute, upload_round_sent (wired_shards w tar cwd2 cwd3) tar cwd s f dest ext port
    (over_wire w h) cs tail d2 _ _ hf hdest hf2 hd2 hext hroute hnet hd4 hcount hcs hinp hopen
    hup⟩

/-- The round that downloads a file kept by a shard, with the shards reached
through `w`. -/
theorem download_round_wired (w : Wire) (tar : Tar) (cwd cwd2 cwd3 : Str) (s : S1)
    (f dest ext dir : Str) (data : Str)
    (hf : Token f) (hdest : Token dest) (hext : strrchr '.' f = some ext)
    (hdir : (ext = ".pdf".toList ∧ dir = "S2".toList) ∨ (ext = ".txt".toList ∧ dir = "S3".toList) ∨
      (ext = ".zip".toList ∧ dir = "S4".toList))
    (hd4 : 4 ≤ dest.length) (hrel : dest.length - 4 + 1 + f.length < 256)
    (hfull : s.disk.home.length + 2 + dest.length + f.length < 2048)
    (hget : get_relative_path s.file_map f = some (dest.drop 4 ++ '/' :: f))
    (hlook : lookup (full_path s.disk.home dir dest f) s.disk.files = some data)
    (hb : EOF ∉ fread_all data)
    (hw1 : w.to_shard [downlf_line (dest.drop 4 ++ '/' :: f)] =
      [downlf_line (dest.drop 4 ++ '/' :: f)])
    (hw2 : w.to_S1 (fread_all data ++ [EOF]) = fread_all data ++ [EOF]) :
    ∃ port, prcclient_body (wired_shards w tar cwd2 cwd3) tar cwd (cstr (downlf_line f)) s =
      some ({ s with out := s.out ++ fread_all data ++ [EOF],
                     conns := s.conns ++
                       [Conn.mk port true [downlf_line (dest.drop 4 ++ '/' :: f)]] }, true) := by
  obtain ⟨port, h, hroute, hnet, _, hdownk⟩ := wired_shards_route w tar cwd2 cwd3 ext dir hdir
  have hf2 : f.length < 256 := by omega
  have hdlen : dir.length = 2 := by
    rcases hdir with ⟨_, h⟩ | ⟨_, h⟩ | ⟨_, h⟩ <;> subst h <;> rfl
  have hreltok : Token (dest.drop 4 ++ '/' :: f) := hf.rel hdest
  have hrellen : (dest.drop 4 ++ '/' :: f).length < 256 := by simp; omega
  have hpeer : over_wire w h s.disk [downlf_line (dest.drop 4 ++ '/' :: f)] =
      some (s.disk, fread_all data ++ [EOF]) := by
    unfold over_wire
    rw [hw1, hdownk s.disk _ hreltok hrellen (by simp),
      send_file_eq dir _ _ data (by
        rw [file_path_rel _ dir f dest hd4 (by rw [hdlen]; exact hfull)]
        exact hlook)]
    dsimp only
    rw [hw2]
  exact ⟨port, download_round_remote (wired_shards w tar cwd2 cwd3) tar cwd s f
    (dest.drop 4 ++ '/' :: f) ext data port (over_wire w h) hf hf2 hext hroute hnet hget
    (by simp; omega) hpeer hb⟩

/-- The session of a client that uploads and then downloads the same file,
with a shard that is reached through `w` taking the file over. -/
theorem round_trip_wired (w : Wire) (tar : Tar) (cwd cwd2 cwd3 : Str) (s : S1)
    (f dest ext dir : Str) (cs : List Str) (d2 d5 : Disk)
    (hf : Token f) (hdest : Token dest) (hext : strrchr '.' f = some ext)
    (hdir : (ext = ".pdf".toList ∧ dir = "S2".toList) ∨ (ext = ".txt".toList ∧ dir = "S3".toList) ∨
      (ext = ".zip".toList ∧ dir = "S4".toList))
    (hwire : transfers_intact w f dest cs)
    (hd4 : 4 ≤ dest.length) (hrel : dest.length - 4 + 1 + f.length < 256)
    (hfull : s.disk.home.length + 2 + dest.length + f.length < 2048)
    (hcount : s.file_map.length < 100) (hfresh : ∀ e ∈ s.file_map, e.filename ≠ f)
    (hcs : ∀ c ∈ cs, c ≠ [] ∧ c ≠ EOF) (hb : EOF ∉ fread_all cs.flatten)
    (hinp : s.inp = uploadf_line f dest :: (cs ++ [EOF, downlf_line f]))
    (hopen : (create_directories (base_path s.disk.home "S1".toList dest) s.disk).fopen_w
      (full_path s.disk.home "S1".toList dest f) = some d2)
    (hopenk : (create_directories (base_path s.disk.home dir dest)
      (d2.fwrite (full_path s.disk.home "S1".toList dest f) cs.flatten)).fopen_w
        (full_path s.disk.home dir dest f) = some d5) :
    ∃ t : S1, prcclient (wired_shards w tar cwd2 cwd3) tar cwd s = some t ∧
      t.out = s.out ++ ["OK".toList,
        upload_status f (full_path s.disk.home "S1".toList dest f)] ++
        fread_all cs.flatten ++ [EOF] := by
  have hf2 : f.length < 256 := by omega
  have hd2 : dest.length < 512 := by omega
  have hdir3 : dir = "S2".toList ∨ dir = "S3".toList ∨ dir = "S4".toList := by
    rcases hdir with ⟨_, h⟩ | ⟨_, h⟩ | ⟨_, h⟩
    · exact Or.inl h
    · exact Or.inr (Or.inl h)
    · exact Or.inr (Or.inr h)
  have hrelEq : snprintf 512 (dest.drop 4 ++ '/' :: f) = dest.drop 4 ++ '/' :: f :=
    snprintf_of_lt _ _ (by simp; omega)
  have hhome5 : d5.home = s.disk.home := by
    rw [fopen_w_home _ d5 _ hopenk, create_directories_home, fwrite_home,
      fopen_w_home _ d2 _ hopen, create_directories_home]
  obtain ⟨port, _, h1⟩ := upload_round_wired w tar cwd cwd2 cwd3
    { s with inp := cs ++ [EOF, downlf_line f] }
    f dest ext dir cs [downlf_line f] d2 d5 hf hdest hf2 hd2 hext hdir hd4
    hcount hcs hb rfl hwire.1 hopen hopenk
  rw [hrelEq] at h1
  dsimp only at h1
  have hlook : lookup (full_path s.disk.home dir dest f)
      ((d5.fwrite (full_path s.disk.home dir dest f) cs.flatten).remove_ignore
        (full_path s.disk.home "S1".toList dest f)).files = some cs.flatten := by
    rw [lookup_remove_ignore _ _ _ (full_path_ne _ dir f dest hd4 hfull hdir3)]
    exact lookup_after_write _ d5 _ _ hopenk
  have hhomeR : ((d5.fwrite (full_path s.disk.home dir dest f) cs.flatten).remove_ignore
      (full_path s.disk.home "S1".toList dest f)).home = s.disk.home := by
    rw [remove_ignore_home, fwrite_home, hhome5]
  obtain ⟨port2, h2⟩ := download_round_wired w tar cwd cwd2 cwd3
    { file_map := s.file_map ++ [⟨f, dest.drop 4 ++ '/' :: f⟩],
      disk := (d5.fwrite (full_path s.disk.home dir dest f) cs.flatten).remove_ignore
        (full_path s.disk.home "S1".toList dest f),
      inp := [],
      out := s.out ++ ["OK".toList, upload_status f (full_path s.disk.home "S1".toList dest f)],
      conns := s.conns ++ [Conn.mk port true
        (uploadf_line f dest :: (fread_all cs.flatten ++ [EOF]))] }
    f dest ext dir cs.flatten hf hdest hext hdir hd4 hrel
    (by dsimp only; rw [hhomeR]; exact hfull)
    (get_after_save _ f _ hfresh)
    (by dsimp only; rw [hhomeR]; exact hlook)
    hb hwire.2.1 hwire.2.2
  dsimp only at h2
  exact ⟨_, by
    unfold prcclient
    rw [hinp]
    rw [show (uploadf_line f dest :: (cs ++ [EOF, downlf_line f])).length = cs.length + 1 + 1 + 1
      by simp]
    rw [prcclient_loop_step (wired_shards w tar cwd2 cwd3) tar cwd _ s _ (uploadf_line f dest)
      (cs ++ [EOF, downlf_line f]) hinp (uploadf_line_ne_nil f dest) h1]
    rw [prcclient_loop_step (wired_shards w tar cwd2 cwd3) tar cwd _
      { file_map := s.file_map ++ [⟨f, dest.drop 4 ++ '/' :: f⟩],
        disk := (d5.fwrite (full_path s.disk.home dir dest f) cs.flatten).remove_ignore
          (full_path s.disk.home "S1".toList dest f),
        inp := [downlf_line f],
        out := s.out ++ ["OK".toList,
          upload_status f (full_path s.disk.home "S1".toList dest f)],
        conns := s.conns ++ [Conn.mk port true
          (uploadf_line f dest :: (fread_all cs.flatten ++ [EOF]))] }
      _ (downlf_line f) [] rfl (downlf_line_ne_nil f) h2]
    exact prcclient_loop_done (wired_shards w tar cwd2 cwd3) tar cwd _ _ rfl, rfl⟩

theorem create_directories_eq (path : Str) (d : Disk) :
    create_directories path d = (mkdir_targets path).foldl Disk.mkdir d := by
  unfold create_directories mkdir_targets
  dsimp only
  rw [List.foldl_append, List.foldl_map]
  rfl

theorem mkdir_dirs_sup (d : Disk) (p t : Str) (h : t ∈ d.dirs) : t ∈ (d.mkdir p).dirs := by
  unfold Disk.mkdir
  split
  · exact h
  · exact List.mem_append_left _ h

theorem mkdir_dirs_sub (d : Disk) (p t : Str) (h : t ∈ (d.mkdir p).dirs) :
    t ∈ d.dirs ∨ t = p := by
  unfold Disk.mkdir at h
  split at h
  · exact Or.inl h
  · rcases List.mem_append.1 h with h1 | h1
    · exact Or.inl h1
    · exact Or.inr (List.mem_singleton.1 h1)

theorem mkdirs_files (ts : List Str) (d : Disk) : (ts.foldl Disk.mkdir d).files = d.files := by
  induction ts generalizing d with
  | nil => rfl
  | cons p rest ih => rw [List.foldl_cons, ih, mkdir_files]

theorem mkdirs_dirs_sup (ts : List Str) (d : Disk) (t : Str) (h : t ∈ d.dirs) :
    t ∈ (ts.foldl Disk.mkdir d).dirs := by
  induction ts generalizing d with
  | nil => exact h
  | cons p rest ih =>
    rw [List.foldl_cons]
    exact ih _ (mkdir_dirs_sup d p t h)

theorem mkdirs_dirs_sub (ts : List Str) (d : Disk) (t : Str)
    (h : t ∈ (ts.foldl Disk.mkdir d).dirs) : t ∈ d.dirs ∨ t ∈ ts := by
  induction ts generalizing d with
  | nil => exact Or.inl h
  | cons p rest ih =>
    rw [List.foldl_cons] at h
    rcases ih _ h with h1 | h1
    · rcases mkdir_dirs_sub d p t h1 with h2 | h2
      · exact Or.inl h2
      · exact Or.inr (h2 ▸ List.mem_cons_self _ _)
    · exact Or.inr (List.mem_cons_of_mem _ h1)

theorem mkdir_mono (d e : Disk) (p : Str) (hsub : ∀ t ∈ d.dirs, t ∈ e.dirs)
    (hfile : e.isFile p = true → d.isFile p = true) :
    ∀ t ∈ (d.mkdir p).dirs, t ∈ (e.mkdir p).dirs := by
  intro t ht
  rcases mkdir_dirs_sub d p t ht with h1 | h1
  · exact mkdir_dirs_sup e p t (hsub t h1)
  · subst h1
    by_cases hd : t ∈ d.dirs
    · exact mkdir_dirs_sup e t t (hsub t hd)
    · -- `mkdir` added `t` to `d`
      have hadd : ¬(t ∈ d.dirs ∨ d.isFile t = true ∨ dirname t ∉ d.dirs) := by
        intro hc
        unfold Disk.mkdir at ht
        rw [if_pos hc] at ht
        exact hd ht
      have hnf : ¬d.isFile t = true := fun h => hadd (Or.inr (Or.inl h))
      have hpar : dirname t ∈ d.dirs := by
        by_contra hc
        exact hadd (Or.inr (Or.inr hc))
      by_cases he : t ∈ e.dirs
      · exact mkdir_dirs_sup e t t he
      · unfold Disk.mkdir
        rw [if_neg]
        · exact List.mem_append_right _ (List.mem_singleton.2 rfl)
        · intro hc
          rcases hc with h | h | h
          · exact he h
          · exact hnf (hfile h)
          · exact h (hsub _ hpar)

theorem mkdirs_mono (ts : List Str) (d e : Disk) (hsub : ∀ t ∈ d.dirs, t ∈ e.dirs)
    (hfile : ∀ p ∈ ts, e.isFile p = true → d.isFile p = true) :
    ∀ t ∈ (ts.foldl Disk.mkdir d).dirs, t ∈ (ts.foldl Disk.mkdir e).dirs := by
  induction ts generalizing d e with
  | nil => exact hsub
  | cons p rest ih =>
    rw [List.foldl_cons, List.foldl_cons]
    apply ih
    · exact mkdir_mono d e p hsub (hfile p (List.mem_cons_self _ _))
    · intro q hq h
      have h1 : (e.mkdir p).isFile q = e.isFile q := by
        unfold Disk.isFile; rw [mkdir_files]
      have h2 : (d.mkdir p).isFile q = d.isFile q := by
        unfold Disk.isFile; rw [mkdir_files]
      rw [h2]
      rw [h1] at h
      exact hfile q (List.mem_cons_of_mem _ hq) h

theorem mkdir_targets_length (path t : Str) (h : t ∈ mkdir_targets path) :
    t.length ≤ (snprintf BUFFER_SIZE path).length := by
  unfold mkdir_targets at h
  rcases List.mem_append.1 h with h1 | h1
  · rcases List.mem_map.1 h1 with ⟨i, _, rfl⟩
    rw [List.length_take]
    exact Nat.min_le_right _ _
  · rw [List.mem_singleton.1 h1]

theorem fopen_w_iff (d : Disk) (p : Str) :
    (∃ d2, d.fopen_w p = some d2) ↔ dirname p ∈ d.dirs ∧ p ∉ d.dirs := by
  unfold Disk.fopen_w
  constructor
  · rintro ⟨d2, h⟩
    by_contra hc
    rw [if_neg hc] at h
    cases h
  · intro h
    rw [if_pos h]
    exact ⟨_, rfl⟩

theorem fopen_w_dirs (d d2 : Disk) (p : Str) (h : d.fopen_w p = some d2) : d2.dirs = d.dirs := by
  rw [fopen_w_some d d2 p h]

theorem lookup_fopen_w_ne (d d2 : Disk) (p q : Str) (h : d.fopen_w p = some d2) (hq : q ≠ p) :
    lookup q d2.files = lookup q d.files := by
  rw [fopen_w_some d d2 p h]
  show lookup q ((p, []) :: d.files.filter (fun e => e.1 ≠ p)) = _
  rw [lookup, if_neg (fun h2 => hq h2.symm)]
  exact lookup_filter_ne p q d.files hq

theorem remove_ignore_dirs (d : Disk) (p : Str) (h : d.isFile p = true) :
    (d.remove_ignore p).dirs = d.dirs := by
  unfold Disk.remove_ignore Disk.remove
  rw [if_pos h]
  rfl

theorem basename_append (a f : Str) (h : '/' ∉ f) : basename (a ++ '/' :: f) = f := by
  unfold basename
  rw [List.reverse_append, List.reverse_cons, List.append_assoc]
  have h1 : ∀ c ∈ f.reverse, (c != '/') = true := by
    intro c hc
    have hne : c ≠ '/' := fun he => h (he ▸ List.mem_reverse.1 hc)
    simpa using hne
  have h2 : List.takeWhile (fun c => c != '/') (f.reverse ++ ([('/' : Char)] ++ a.reverse)) =
      f.reverse := by
    rw [List.takeWhile_append_of_pos h1]
    simp
  rw [h2, List.reverse_reverse]

theorem full_path_ne_of_names (home dir1 dir2 dest1 dest2 f1 f2 : Str)
    (hd1 : 4 ≤ dest1.length) (hd2 : 4 ≤ dest2.length)
    (hfull1 : home.length + dir1.length + dest1.length + f1.length < 2048)
    (hfull2 : home.length + dir2.length + dest2.length + f2.length < 2048)
    (hs1 : '/' ∉ f1) (hs2 : '/' ∉ f2) (hne : f1 ≠ f2) :
    full_path home dir1 dest1 f1 ≠ full_path home dir2 dest2 f2 := by
  rw [full_path_eq _ _ _ _ hd1 hfull1, full_path_eq _ _ _ _ hd2 hfull2]
  intro h
  have e1 : home ++ '/' :: dir1 ++ '/' :: (dest1.drop 4 ++ '/' :: f1) =
      (home ++ '/' :: dir1 ++ '/' :: dest1.drop 4) ++ '/' :: f1 := by simp
  have e2 : home ++ '/' :: dir2 ++ '/' :: (dest2.drop 4 ++ '/' :: f2) =
      (home ++ '/' :: dir2 ++ '/' :: dest2.drop 4) ++ '/' :: f2 := by simp
  rw [e1, e2] at h
  have h3 := congrArg basename h
  rw [basename_append _ _ hs1, basename_append _ _ hs2] at h3
  exact hne h3

theorem full_path_length (home dir dest f : Str) (hd4 : 4 ≤ dest.length)
    (hfull : home.length + dir.length + dest.length + f.length < 2048) :
    (full_path home dir dest f).length =
      home.length + dir.length + (dest.length - 4) + f.length + 3 := by
  rw [full_path_eq _ _ _ _ hd4 hfull]
  simp only [List.length_append, List.length_cons, List.length_drop]
  omega

theorem base_path_length (home dir dest : Str) :
    (base_path home dir dest).length ≤ home.length + dir.length + (dest.length - 4) + 2 := by
  unfold base_path snprintf
  rw [List.length_take]
  refine Nat.le_trans (Nat.min_le_right _ _) ?_
  simp only [List.length_append, List.length_cons, List.length_drop]
  omega

theorem full_path_not_target (home dir dir1 dest f : Str) (hd4 : 4 ≤ dest.length)
    (hfull : home.length + dir1.length + dest.length + f.length < 2048)
    (hlen : dir.length = dir1.length) :
    full_path home dir1 dest f ∉ mkdir_targets (base_path home dir dest) := by
  intro h
  have h1 := mkdir_targets_length _ _ h
  have h2 : (snprintf BUFFER_SIZE (base_path home dir dest)).length ≤
      (base_path home dir dest).length := by
    unfold snprintf
    rw [List.length_take]
    exact Nat.min_le_right _ _
  have h3 := base_path_length home dir dest
  rw [full_path_length home dir1 dest f hd4 hfull] at h1
  omega

theorem open_transfer (path p : Str) (d e : Disk)
    (hop : ∃ d2, (create_directories path d).fopen_w p = some d2)
    (hsub : ∀ t ∈ d.dirs, t ∈ e.dirs)
    (hfile : ∀ t ∈ mkdir_targets path, e.isFile t = true → d.isFile t = true)
    (hp : p ∉ e.dirs) (hpt : p ∉ mkdir_targets path) :
    ∃ e2, (create_directories path e).fopen_w p = some e2 := by
  rw [fopen_w_iff] at hop ⊢
  rw [create_directories_eq] at hop ⊢
  refine ⟨mkdirs_mono _ d e hsub hfile _ hop.1, ?_⟩
  intro hc
  rcases mkdirs_dirs_sub _ e p hc with h | h
  · exact hp h
  · exact hpt h

theorem owner_dir_length (ext dir : Str) (h : owner_dir ext dir) : dir.length = 2 := by
  rcases h with ⟨_, h⟩ | ⟨_, h⟩ | ⟨_, h⟩ | ⟨_, h⟩ <;> subst h <;> rfl

theorem owner_dir_cases (ext dir : Str) (h : owner_dir ext dir) :
    (ext = ".c".toList ∧ dir = "S1".toList) ∨
      (dir ≠ "S1".toList ∧
        ((ext = ".pdf".toList ∧ dir = "S2".toList) ∨ (ext = ".txt".toList ∧ dir = "S3".toList) ∨
          (ext = ".zip".toList ∧ dir = "S4".toList))) := by
  rcases h with ⟨he, hd⟩ | ⟨he, hd⟩ | ⟨he, hd⟩ | ⟨he, hd⟩
  · exact Or.inl ⟨he, hd⟩
  · exact Or.inr ⟨by rw [hd]; decide, Or.inl ⟨he, hd⟩⟩
  · exact Or.inr ⟨by rw [hd]; decide, Or.inr (Or.inl ⟨he, hd⟩)⟩
  · exact Or.inr ⟨by rw [hd]; decide, Or.inr (Or.inr ⟨he, hd⟩)⟩

theorem fwrite_dirs (d : Disk) (p data : Str) : (d.fwrite p data).dirs = d.dirs := rfl

theorem lookup_fwrite_other (d : Disk) (p q data : Str) (hq : q ≠ p) :
    lookup q (d.fwrite p data).files = lookup q d.files := by
  unfold Disk.fwrite
  exact lookup_fwrite_ne p q data d.files hq

/-- What the upload round of a `.c` file does to the tree. -/
theorem staging_effect (path p c : Str) (e d2 : Disk)
    (hopen : (create_directories path e).fopen_w p = some d2) :
    (d2.fwrite p c).home = e.home ∧
      (∀ t ∈ e.dirs, t ∈ (d2.fwrite p c).dirs) ∧
      (∀ t ∈ (d2.fwrite p c).dirs, t ∈ e.dirs ∨ t ∈ mkdir_targets path) ∧
      (∀ x, x ≠ p → lookup x (d2.fwrite p c).files = lookup x e.files) ∧
      lookup p (d2.fwrite p c).files = some c := by
  refine ⟨?_, ?_, ?_, ?_, lookup_after_write _ d2 _ _ hopen⟩
  · rw [fwrite_home, fopen_w_home _ d2 _ hopen, create_directories_home]
  · intro t ht
    rw [fwrite_dirs, fopen_w_dirs _ d2 _ hopen, create_directories_eq]
    exact mkdirs_dirs_sup _ e t ht
  · intro t ht
    rw [fwrite_dirs, fopen_w_dirs _ d2 _ hopen, create_directories_eq] at ht
    exact mkdirs_dirs_sub _ e t ht
  · intro x hx
    rw [lookup_fwrite_other _ _ _ _ hx, lookup_fopen_w_ne _ d2 _ _ hopen hx,
      create_directories_files]

/-- What the upload round of a file that a shard keeps does to the tree. -/
theorem forwarding_effect (pathS pathK p q c : Str) (e d2 d5 : Disk) (hpq : q ≠ p)
    (hopen : (create_directories pathS e).fopen_w p = some d2)
    (hopenk : (create_directories pathK (d2.fwrite p c)).fopen_w q = some d5) :
    ((d5.fwrite q c).remove_ignore p).home = e.home ∧
      (∀ t ∈ e.dirs, t ∈ ((d5.fwrite q c).remove_ignore p).dirs) ∧
      (∀ t ∈ ((d5.fwrite q c).remove_ignore p).dirs,
        t ∈ e.dirs ∨ t ∈ mkdir_targets pathS ++ mkdir_targets pathK) ∧
      (∀ x, x ≠ p → x ≠ q → lookup x ((d5.fwrite q c).remove_ignore p).files = lookup x e.files) ∧
      lookup q ((d5.fwrite q c).remove_ignore p).files = some c := by
  obtain ⟨h1, h2, h3, h4, h5⟩ := staging_effect pathS p c e d2 hopen
  obtain ⟨k1, k2, k3, k4, k5⟩ := staging_effect pathK q c (d2.fwrite p c) d5 hopenk
  have hfile : (d5.fwrite q c).isFile p = true := by
    unfold Disk.isFile
    rw [k4 p hpq.symm, h5]
    rfl
  refine ⟨?_, ?_, ?_, ?_, ?_⟩
  · rw [remove_ignore_home, k1, h1]
  · intro t ht
    rw [remove_ignore_dirs _ _ hfile]
    exact k2 t (h2 t ht)
  · intro t ht
    rw [remove_ignore_dirs _ _ hfile] at ht
    rcases k3 t ht with h | h
    · rcases h3 t h with g | g
      · exact Or.inl g
      · exact Or.inr (List.mem_append_left _ g)
    · exact Or.inr (List.mem_append_right _ h)
  · intro x hxp hxq
    rw [lookup_remove_ignore _ _ _ hxp, k4 x hxq, h4 x hxp]
  · rw [lookup_remove_ignore _ _ _ hpq]
    exact k5

/-- The first round of the child that serves the session of `u`, on a tree
`e` on which the upload can be stored. -/
theorem upload_step (w : Wire) (tar : Tar) (cwd cwd2 cwd3 : Str) (u : Upload) (s : S1)
    (e : Disk) (hwf : u.wellformed e.home)
    (hwire : u.dir ≠ "S1".toList → transfers_intact w u.f u.dest u.cs)
    (hst : u.storable e) (hs : u.child_at e.home 0 s) :
    ∃ s1, prcclient_round (wired_shards w tar cwd2 cwd3) tar cwd { s with disk := e } =
        some (s1, true) ∧
      u.child_at e.home 1 s1 ∧ s1.disk.home = e.home ∧
      (∀ t ∈ e.dirs, t ∈ s1.disk.dirs) ∧
      (∀ t ∈ s1.disk.dirs, t ∈ e.dirs ∨ t ∈ u.dirs e.home) ∧
      (∀ x, x ∉ u.files e.home → lookup x s1.disk.files = lookup x e.files) ∧
      lookup (u.kept e.home) s1.disk.files = some u.cs.flatten := by
  obtain ⟨hf, hdest, hext, howner, _, _, hd4, hrel, hfull, hcs, hb⟩ := hwf
  obtain ⟨d2, hopen, hopenk⟩ := hst
  obtain ⟨hfm, hinp, hout⟩ := hs
  obtain ⟨fm, dk, inp, out, conns⟩ := s
  dsimp only at hfm hinp hout
  subst hfm hinp hout
  have hf2 : u.f.length < 256 := by omega
  have hd2 : u.dest.length < 512 := by omega
  have hrelEq : snprintf 512 (u.dest.drop 4 ++ '/' :: u.f) = u.dest.drop 4 ++ '/' :: u.f :=
    snprintf_of_lt _ _ (by simp; omega)
  have hround : ∀ r, prcclient_body (wired_shards w tar cwd2 cwd3) tar cwd
      (cstr (uploadf_line u.f u.dest))
      ⟨[], e, u.cs ++ [EOF, downlf_line u.f], [], conns⟩ = some r →
      prcclient_round (wired_shards w tar cwd2 cwd3) tar cwd
        { (⟨[], dk, u.session, [], conns⟩ : S1) with disk := e } = some r := by
    intro r hr
    unfold prcclient_round
    show (if uploadf_line u.f u.dest = [] then _ else _) = _
    rw [if_neg (uploadf_line_ne_nil _ _)]
    exact hr
  rcases owner_dir_cases _ _ howner with ⟨he, hd⟩ | ⟨hnot, hdir⟩
  · -- the file stays with the coordinator
    have h1 := upload_round_local (wired_shards w tar cwd2 cwd3) tar cwd
      ⟨[], e, u.cs ++ [EOF, downlf_line u.f], [], conns⟩ u.f u.dest u.cs [downlf_line u.f] d2
      hf hdest hf2 hd2 (he ▸ hext) hd4 (Nat.zero_lt_succ _) hcs rfl hopen
    obtain ⟨e1, e2, e3, e4, e5⟩ := staging_effect _ (u.staged e.home) u.cs.flatten e d2 hopen
    have hkept : u.kept e.home = u.staged e.home := by
      unfold Upload.kept Upload.staged
      rw [hd]
    refine ⟨_, hround _ h1, ⟨rfl, rfl, rfl⟩, e1, e2, ?_, ?_, ?_⟩
    · intro t ht
      rcases e3 t ht with h | h
      · exact Or.inl h
      · exact Or.inr (List.mem_append_left _ h)
    · intro x hx
      exact e4 x (fun h => hx (h ▸ List.mem_cons_self _ _))
    · rw [hkept]
      exact e5
  · -- a shard takes the file over
    have hdir3 : u.dir = "S2".toList ∨ u.dir = "S3".toList ∨ u.dir = "S4".toList := by
      rcases hdir with ⟨_, h⟩ | ⟨_, h⟩ | ⟨_, h⟩
      · exact Or.inl h
      · exact Or.inr (Or.inl h)
      · exact Or.inr (Or.inr h)
    obtain ⟨d5, hd5⟩ := Option.isSome_iff_exists.1 (hopenk hnot)
    obtain ⟨port, _, h1⟩ := upload_round_wired w tar cwd cwd2 cwd3
      ⟨[], e, u.cs ++ [EOF, downlf_line u.f], [], conns⟩ u.f u.dest u.ext u.dir u.cs
      [downlf_line u.f] d2 d5 hf hdest hf2 hd2 hext hdir hd4 (Nat.zero_lt_succ _) hcs hb rfl
      (hwire hnot).1 hopen hd5
    have hpq : u.kept e.home ≠ u.staged e.home := full_path_ne _ u.dir u.f u.dest hd4 hfull hdir3
    obtain ⟨e1, e2, e3, e4, e5⟩ := forwarding_effect _ _ (u.staged e.home) (u.kept e.home)
      u.cs.flatten e d2 d5 hpq hopen hd5
    refine ⟨_, hround _ h1, ⟨rfl, rfl, rfl⟩, e1, e2, e3, ?_, e5⟩
    intro x hx
    exact e4 x (fun h => hx (h ▸ List.mem_cons_self _ _))
      (fun h => hx (h ▸ List.mem_cons_of_mem _ (List.mem_cons_self _ _)))

/-- The second round of the child that serves the session of `u`, on a tree
in which the file of the upload holds its content. -/
theorem download_step (w : Wire) (tar : Tar) (cwd cwd2 cwd3 : Str) (u : Upload) (s : S1)
    (e : Disk) (hwf : u.wellformed e.home)
    (hwire : u.dir ≠ "S1".toList → transfers_intact w u.f u.dest u.cs)
    (hs : u.child_at e.home 1 s)
    (hlook : lookup (u.kept e.home) e.files = some u.cs.flatten) :
    ∃ s1, prcclient_round (wired_shards w tar cwd2 cwd3) tar cwd { s with disk := e } =
        some (s1, true) ∧
      u.child_at e.home 2 s1 ∧ s1.disk = e := by
  obtain ⟨hf, hdest, hext, howner, _, _, hd4, hrel, hfull, hcs, hb⟩ := hwf
  obtain ⟨hfm, hinp, hout⟩ := hs
  obtain ⟨fm, dk, inp, out, conns⟩ := s
  dsimp only at hfm hinp hout
  subst hfm hinp hout
  have hf2 : u.f.length < 256 := by omega
  have hrelEq : snprintf 512 (u.dest.drop 4 ++ '/' :: u.f) = u.dest.drop 4 ++ '/' :: u.f :=
    snprintf_of_lt _ _ (by simp; omega)
  have hget : get_relative_path [index_entry (u.f, u.dest)] u.f =
      some (u.dest.drop 4 ++ '/' :: u.f) := by
    unfold index_entry
    dsimp only
    rw [hrelEq]
    simp [get_relative_path]
  have hround : ∀ r, prcclient_body (wired_shards w tar cwd2 cwd3) tar cwd
      (cstr (downlf_line u.f))
      ⟨[index_entry (u.f, u.dest)], e, [],
        ["OK".toList, upload_status u.f (u.staged e.home)], conns⟩ = some r →
      prcclient_round (wired_shards w tar cwd2 cwd3) tar cwd
        { (⟨[index_entry (u.f, u.dest)], dk, [downlf_line u.f],
          ["OK".toList, upload_status u.f (u.staged e.home)], conns⟩ : S1) with disk := e } =
        some r := by
    intro r hr
    unfold prcclient_round
    show (if downlf_line u.f = [] then _ else _) = _
    rw [if_neg (downlf_line_ne_nil _)]
    exact hr
  rcases owner_dir_cases _ _ howner with ⟨he, hd⟩ | ⟨hnot, hdir⟩
  · have hfile : lookup (file_path e.home "S1".toList (u.dest.drop 4 ++ '/' :: u.f)) e.files =
        some u.cs.flatten := by
      rw [file_path_rel _ _ u.f u.dest hd4 (by simpa using hfull)]
      unfold Upload.kept at hlook
      rw [hd] at hlook
      exact hlook
    have h2 := download_round_local (wired_shards w tar cwd2 cwd3) tar cwd
      ⟨[index_entry (u.f, u.dest)], e, [],
        ["OK".toList, upload_status u.f (u.staged e.home)], conns⟩
      u.f (u.dest.drop 4 ++ '/' :: u.f) u.cs.flatten hf hf2 (he ▸ hext) hget hfile
    exact ⟨_, hround _ h2, ⟨rfl, rfl, rfl⟩, rfl⟩
  · obtain ⟨port, h2⟩ := download_round_wired w tar cwd cwd2 cwd3
      ⟨[index_entry (u.f, u.dest)], e, [],
        ["OK".toList, upload_status u.f (u.staged e.home)], conns⟩
      u.f u.dest u.ext u.dir u.cs.flatten hf hdest hext hdir hd4 hrel hfull hget hlook hb
      (hwire hnot).2.1 (hwire hnot).2.2
    exact ⟨_, hround _ h2, ⟨rfl, rfl, rfl⟩, rfl⟩

/-- The round of a child that has nothing more to read: it leaves its loop. -/
theorem done_step (net : Net) (tar : Tar) (cwd : Str) (s : S1) (e : Disk) (h : s.inp = []) :
    prcclient_round net tar cwd { s with disk := e } = some ({ s with disk := e }, false) := by
  unfold prcclient_round
  dsimp only
  rw [h]

theorem tree_at_isFile (d0 e : Disk) (a b : Upload) (kb : Nat) (t : Str)
    (ht : tree_at d0 a b 0 kb e) (hap : Upload.apart d0.home a b) (hta : t ∈ a.dirs d0.home) :
    lookup t e.files = lookup t d0.files :=
  ht.2.2.2.1 t (Or.inl rfl) (Or.inr (hap.1 t hta))

theorem tree_at_not_dir (d0 e : Disk) (a b : Upload) (kb : Nat) (x : Str)
    (ht : tree_at d0 a b 0 kb e) (hap : Upload.apart d0.home a b)
    (hx : x ∈ a.files d0.home) (hx0 : x ∉ d0.dirs) : x ∉ e.dirs := by
  intro hc
  rcases ht.2.2.1 x hc with h | h | h
  · exact hx0 h
  · exact absurd h.1 (by decide)
  · exact hap.2 x h.2 hx

/-- An upload that can be stored on the tree at the start can be stored on the
tree that the other upload left. -/
theorem storable_transfer (d0 e : Disk) (a b : Upload) (kb : Nat)
    (hwa : a.wellformed d0.home) (hap : Upload.apart d0.home a b)
    (hst : a.storable d0) (ht : tree_at d0 a b 0 kb e) : a.storable e := by
  obtain ⟨hf, hdest, hext, howner, _, _, hd4, hrel, hfull, hcs, hb⟩ := hwa
  obtain ⟨d2, hopen, hopenk⟩ := hst
  have hhome := ht.1
  have hlen := owner_dir_length _ _ howner
  have hS1 : ("S1".toList).length = 2 := rfl
  -- the staged file
  have hfileS : ∀ t ∈ mkdir_targets (base_path d0.home "S1".toList a.dest),
      e.isFile t = true → d0.isFile t = true := by
    intro t htt h
    unfold Disk.isFile at h ⊢
    rw [tree_at_isFile d0 e a b kb t ht hap (List.mem_append_left _ htt)] at h
    exact h
  have hp0 : a.staged d0.home ∉ d0.dirs := by
    intro hc
    have := ((fopen_w_iff _ _).1 ⟨d2, hopen⟩).2
    rw [create_directories_eq] at this
    exact this (mkdirs_dirs_sup _ d0 _ hc)
  have hpe : a.staged d0.home ∉ e.dirs :=
    tree_at_not_dir d0 e a b kb _ ht hap (List.mem_cons_self _ _) hp0
  obtain ⟨e2, hopen2⟩ := open_transfer (base_path d0.home "S1".toList a.dest) (a.staged d0.home)
    d0 e ⟨d2, hopen⟩ ht.2.1 hfileS hpe
    (full_path_not_target d0.home "S1".toList "S1".toList a.dest a.f hd4
      (by rw [hS1]; exact hfull) rfl)
  unfold Upload.storable
  rw [hhome]
  refine ⟨e2, hopen2, ?_⟩
  intro hnot
  obtain ⟨d5, hd5⟩ := Option.isSome_iff_exists.1 (hopenk hnot)
  obtain ⟨a1, a2, a3, a4, a5⟩ := staging_effect _ (a.staged d0.home) a.cs.flatten d0 d2 hopen
  obtain ⟨b1, b2, b3, b4, b5⟩ := staging_effect _ (a.staged d0.home) a.cs.flatten e e2 hopen2
  have hsub : ∀ t ∈ (d2.fwrite (a.staged d0.home) a.cs.flatten).dirs,
      t ∈ (e2.fwrite (a.staged d0.home) a.cs.flatten).dirs := by
    intro t htt
    rw [fwrite_dirs, fopen_w_dirs _ d2 _ hopen, create_directories_eq] at htt
    rw [fwrite_dirs, fopen_w_dirs _ e2 _ hopen2, create_directories_eq]
    exact mkdirs_mono _ d0 e ht.2.1 hfileS t htt
  have hfileK : ∀ t ∈ mkdir_targets (base_path d0.home a.dir a.dest),
      (e2.fwrite (a.staged d0.home) a.cs.flatten).isFile t = true →
      (d2.fwrite (a.staged d0.home) a.cs.flatten).isFile t = true := by
    intro t htt h
    unfold Disk.isFile at h ⊢
    by_cases hc : t = a.staged d0.home
    · rw [hc, a5]; rfl
    · rw [b4 t hc, tree_at_isFile d0 e a b kb t ht hap (List.mem_append_right _ htt)] at h
      rw [a4 t hc]
      exact h
  have hq0 : a.kept d0.home ∉ d0.dirs := by
    intro hc
    have := ((fopen_w_iff _ _).1 ⟨d5, hd5⟩).2
    rw [create_directories_eq] at this
    exact this (mkdirs_dirs_sup _ _ _ (a2 _ hc))
  have hqe : a.kept d0.home ∉ (e2.fwrite (a.staged d0.home) a.cs.flatten).dirs := by
    intro hc
    rcases b3 _ hc with h | h
    · exact tree_at_not_dir d0 e a b kb _ ht hap
        (List.mem_cons_of_mem _ (List.mem_cons_self _ _)) hq0 h
    · exact full_path_not_target d0.home "S1".toList a.dir a.dest a.f hd4
        (by rw [hlen]; exact hfull) (by rw [hlen]; rfl) h
  obtain ⟨e5, he5⟩ := open_transfer (base_path d0.home a.dir a.dest) (a.kept d0.home)
    (d2.fwrite (a.staged d0.home) a.cs.flatten) (e2.fwrite (a.staged d0.home) a.cs.flatten)
    ⟨d5, hd5⟩ hsub hfileK hqe
    (full_path_not_target d0.home a.dir a.dir a.dest a.f hd4 (by rw [hlen]; exact hfull) rfl)
  rw [he5]
  rfl

theorem tree_at_symm (d0 d : Disk) (a b : Upload) (ka kb : Nat) (h : tree_at d0 a b ka kb d) :
    tree_at d0 b a kb ka d := by
  obtain ⟨h1, h2, h3, h4, h5, h6⟩ := h
  refine ⟨h1, h2, ?_, fun p hb ha => h4 p ha hb, h6, h5⟩
  intro t ht
  rcases h3 t ht with h | h | h
  · exact Or.inl h
  · exact Or.inr (Or.inr h)
  · exact Or.inr (Or.inl h)

theorem tree_at_later (d0 d : Disk) (a b : Upload) (ka kb : Nat) (h : tree_at d0 a b (ka + 1) kb d) :
    tree_at d0 a b (ka + 2) kb d := by
  obtain ⟨h1, h2, h3, h4, h5, h6⟩ := h
  refine ⟨h1, h2, ?_, ?_, fun _ => h5 (Nat.succ_pos _), h6⟩
  · intro t ht
    rcases h3 t ht with h | h | h
    · exact Or.inl h
    · exact Or.inr (Or.inl ⟨Nat.succ_pos _, h.2⟩)
    · exact Or.inr (Or.inr h)
  · intro p ha hb
    refine h4 p ?_ hb
    rcases ha with ha | ha
    · exact absurd ha (Nat.succ_ne_zero _)
    · exact Or.inr ha

theorem kept_not_written (home : Str) (a b : Upload) (hwa : a.wellformed home)
    (hwb : b.wellformed home) (hne : a.f ≠ b.f) : b.kept home ∉ a.files home := by
  obtain ⟨_, _, _, hoa, hsa, _, hda, _, hfa, _, _⟩ := hwa
  obtain ⟨_, _, _, hob, hsb, _, hdb, _, hfb, _, _⟩ := hwb
  have hla := owner_dir_length _ _ hoa
  have hlb := owner_dir_length _ _ hob
  have hS1 : ("S1".toList).length = 2 := rfl
  intro h
  rcases List.mem_cons.1 h with h | h
  · exact full_path_ne_of_names home b.dir "S1".toList b.dest a.dest b.f a.f hdb hda
      (by rw [hlb]; exact hfb) (by rw [hS1]; exact hfa) hsb hsa (Ne.symm hne) h
  · rcases List.mem_cons.1 h with h | h
    · exact full_path_ne_of_names home b.dir a.dir b.dest a.dest b.f a.f hdb hda
        (by rw [hlb]; exact hfb) (by rw [hla]; exact hfa) hsb hsa (Ne.symm hne) h
    · exact absurd h (List.not_mem_nil _)

/-- The tree after the upload round of the child of `a`. -/
theorem tree_at_upload (d0 e e1 : Disk) (a b : Upload) (kb : Nat)
    (hwa : a.wellformed d0.home) (hwb : b.wellformed d0.home) (hne : a.f ≠ b.f)
    (ht : tree_at d0 a b 0 kb e)
    (h1 : e1.home = e.home) (h2 : ∀ t ∈ e.dirs, t ∈ e1.dirs)
    (h3 : ∀ t ∈ e1.dirs, t ∈ e.dirs ∨ t ∈ a.dirs e.home)
    (h4 : ∀ x, x ∉ a.files e.home → lookup x e1.files = lookup x e.files)
    (h5 : lookup (a.kept e.home) e1.files = some a.cs.flatten) :
    tree_at d0 a b 1 kb e1 := by
  obtain ⟨t1, t2, t3, t4, t5, t6⟩ := ht
  rw [t1] at h3 h4 h5
  refine ⟨h1.trans t1, fun t h => h2 t (t2 t h), ?_, ?_, fun _ => h5, ?_⟩
  · intro t h
    rcases h3 t h with h | h
    · rcases t3 t h with h | h | h
      · exact Or.inl h
      · exact absurd h.1 (by decide)
      · exact Or.inr (Or.inr h)
    · exact Or.inr (Or.inl ⟨Nat.le_refl _, h⟩)
  · intro p ha hb
    rcases ha with ha | ha
    · exact absurd ha (by decide)
    · rw [h4 p ha]
      exact t4 p (Or.inl rfl) hb
  · intro hk
    rw [h4 _ (kept_not_written d0.home a b hwa hwb hne)]
    exact t6 hk

/-- One round of the child of `a` while the child of `b` has run `kb` rounds:
the child goes from its state after `ka` rounds to its state after the next
round, and the tree follows. -/
theorem child_round (w : Wire) (tar : Tar) (cwd cwd2 cwd3 : Str) (d0 : Disk) (a b : Upload)
    (ka kb : Nat) (s : S1) (e : Disk)
    (hwa : a.wellformed d0.home) (hwb : b.wellformed d0.home) (hne : a.f ≠ b.f)
    (hsa : a.storable d0) (hap : Upload.apart d0.home a b)
    (hwire : a.dir ≠ "S1".toList → transfers_intact w a.f a.dest a.cs)
    (hka : ka ≤ 2) (hc : a.child_at d0.home ka s) (ht : tree_at d0 a b ka kb e) :
    ∃ s1 live, prcclient_round (wired_shards w tar cwd2 cwd3) tar cwd { s with disk := e } =
        some (s1, live) ∧
      a.child_at d0.home (min 2 (ka + 1)) s1 ∧ (min 2 (ka + 1) < 2 → live = true) ∧
      tree_at d0 a b (min 2 (ka + 1)) kb s1.disk := by
  have hhome := ht.1
  match ka, hka with
  | 0, _ =>
    have hst := storable_transfer d0 e a b kb hwa hap hsa ht
    obtain ⟨s1, hr, hc1, g1, g2, g3, g4, g5⟩ := upload_step w tar cwd cwd2 cwd3 a s e
      (hhome ▸ hwa) hwire hst (hhome ▸ hc)
    refine ⟨s1, true, hr, hhome ▸ hc1, fun _ => rfl, ?_⟩
    exact tree_at_upload d0 e s1.disk a b kb hwa hwb hne ht g1 g2 g3 g4 g5
  | 1, _ =>
    have hlook := ht.2.2.2.2.1 (Nat.le_refl _)
    obtain ⟨s1, hr, hc1, hd⟩ := download_step w tar cwd cwd2 cwd3 a s e
      (hhome ▸ hwa) hwire (hhome ▸ hc) (hhome ▸ hlook)
    refine ⟨s1, true, hr, hhome ▸ hc1, fun h => absurd h (by decide), ?_⟩
    rw [hd]
    exact tree_at_later d0 e a b 0 kb ht
  | 2, _ =>
    refine ⟨{ s with disk := e }, false,
      done_step (wired_shards w tar cwd2 cwd3) tar cwd s e hc.2.1, hc,
      fun h => absurd h (by decide), ht⟩

theorem apart_symm (home : Str) (a b : Upload) (h : Upload.apart home a b) :
    Upload.apart home b a := ⟨h.2, h.1⟩

/-- A step of the scheduler keeps the two children and the tree in step with
the numbers of rounds. -/
theorem pair_step (w : Wire) (tar : Tar) (cwd cwd2 cwd3 : Str) (d0 : Disk) (a b : Upload)
    (ka kb : Nat) (p : Pair) (pick : Bool)
    (hwa : a.wellformed d0.home) (hwb : b.wellformed d0.home) (hne : a.f ≠ b.f)
    (hsa : a.storable d0) (hsb : b.storable d0) (hap : Upload.apart d0.home a b)
    (hwire_a : a.dir ≠ "S1".toList → transfers_intact w a.f a.dest a.cs)
    (hwire_b : b.dir ≠ "S1".toList → transfers_intact w b.f b.dest b.cs)
    (hka : ka ≤ 2) (hkb : kb ≤ 2) (hp : pair_at d0 a b ka kb p) :
    ∃ p1, p.step (wired_shards w tar cwd2 cwd3) tar cwd pick = some p1 ∧
      pair_at d0 a b (min 2 (ka + (if pick then 1 else 0)))
        (min 2 (kb + (if pick then 0 else 1))) p1 := by
  obtain ⟨hca, hcb, hla, hlb, ht⟩ := hp
  cases pick with
  | true =>
    have hkb2 : min 2 (kb + 0) = kb := by simp [hkb]
    simp only [if_true]
    rw [hkb2]
    unfold Pair.step
    rw [if_pos rfl]
    cases hl : p.first_live with
    | true =>
      rw [if_pos rfl]
      obtain ⟨s1, live, hr, hc1, hl1, ht1⟩ := child_round w tar cwd cwd2 cwd3 d0 a b ka kb
        p.first p.tree hwa hwb hne hsa hap hwire_a hka hca ht
      rw [hr]
      exact ⟨_, rfl, hc1, hcb, hl1, hlb, ht1⟩
    | false =>
      rw [if_neg (by decide)]
      have hk2 : ka = 2 := by
        by_contra hc
        have := hla (by omega)
        rw [hl] at this
        cases this
      subst hk2
      exact ⟨p, rfl, hca, hcb, fun h => absurd h (by decide), hlb, ht⟩
  | false =>
    have hka2 : min 2 (ka + 0) = ka := by simp [hka]
    simp only [Bool.false_eq_true, if_false]
    rw [hka2]
    unfold Pair.step
    rw [if_neg (by decide)]
    cases hl : p.second_live with
    | true =>
      rw [if_pos rfl]
      obtain ⟨s1, live, hr, hc1, hl1, ht1⟩ := child_round w tar cwd cwd2 cwd3 d0 b a kb ka
        p.second p.tree hwb hwa (Ne.symm hne) hsb (apart_symm _ _ _ hap) hwire_b hkb hcb
        (tree_at_symm _ _ _ _ _ _ ht)
      rw [hr]
      exact ⟨_, rfl, hca, hc1, hla, hl1, tree_at_symm _ _ _ _ _ _ ht1⟩
    | false =>
      rw [if_neg (by decide)]
      have hk2 : kb = 2 := by
        by_contra hc
        have := hlb (by omega)
        rw [hl] at this
        cases this
      subst hk2
      exact ⟨p, rfl, hca, hcb, hla, fun h => absurd h (by decide), ht⟩

/-- A run of the scheduler keeps the two children and the tree in step with the
numbers of rounds that the schedule gave to each child. -/
theorem run_two_pair (w : Wire) (tar : Tar) (cwd cwd2 cwd3 : Str) (d0 : Disk) (a b : Upload)
    (hwa : a.wellformed d0.home) (hwb : b.wellformed d0.home) (hne : a.f ≠ b.f)
    (hsa : a.storable d0) (hsb : b.storable d0) (hap : Upload.apart d0.home a b)
    (hwire_a : a.dir ≠ "S1".toList → transfers_intact w a.f a.dest a.cs)
    (hwire_b : b.dir ≠ "S1".toList → transfers_intact w b.f b.dest b.cs)
    (sched : List Bool) (ka kb : Nat) (p : Pair)
    (hka : ka ≤ 2) (hkb : kb ≤ 2) (hp : pair_at d0 a b ka kb p) :
    ∃ p1, run_two (wired_shards w tar cwd2 cwd3) tar cwd sched p = some p1 ∧
      pair_at d0 a b (min 2 (ka + sched.count true)) (min 2 (kb + sched.count false)) p1 := by
  induction sched generalizing ka kb p with
  | nil =>
    refine ⟨p, rfl, ?_⟩
    have e1 : min 2 (ka + ([] : List Bool).count true) = ka := by simp [hka]
    have e2 : min 2 (kb + ([] : List Bool).count false) = kb := by simp [hkb]
    rw [e1, e2]
    exact hp
  | cons pick rest ih =>
    obtain ⟨p1, hs, hp1⟩ := pair_step w tar cwd cwd2 cwd3 d0 a b ka kb p pick hwa hwb hne
      hsa hsb hap hwire_a hwire_b hka hkb hp
    obtain ⟨p2, hr, hp2⟩ := ih _ _ p1 (Nat.min_le_left _ _) (Nat.min_le_left _ _) hp1
    refine ⟨p2, ?_, ?_⟩
    · rw [run_two, hs]
      exact hr
    · have e1 : min 2 (min 2 (ka + (if pick = true then 1 else 0)) + rest.count true) =
          min 2 (ka + (pick :: rest).count true) := by
        cases pick <;> simp <;> omega
      have e2 : min 2 (min 2 (kb + (if pick = true then 0 else 1)) + rest.count false) =
          min 2 (kb + (pick :: rest).count false) := by
        cases pick <;> simp <;> omega
      rw [← e1, ← e2]
      exact hp2

theorem child_at_started (home : Str) (u : Upload) (k : Nat) (s : S1)
    (h : u.child_at home k s) (hk : 1 ≤ k) :
    s.file_map = [index_entry (u.f, u.dest)] ∧
      ["OK".toList, upload_status u.f (u.staged home)] <+: s.out := by
  match k, hk with
  | 1, _ => exact ⟨h.1, by rw [h.2.2]⟩
  | n + 2, _ =>
    refine ⟨h.1, ?_⟩
    have h3 : s.out = ["OK".toList, upload_status u.f (u.staged home)] ++
        fread_all u.cs.flatten ++ [EOF] := h.2.2
    rw [h3, List.append_assoc]
    exact List.prefix_append _ _

theorem child_at_finished (home : Str) (u : Upload) (k : Nat) (s : S1)
    (h : u.child_at home k s) (hk : 2 ≤ k) :
    s.out = ["OK".toList, upload_status u.f (u.staged home)] ++
      fread_all u.cs.flatten ++ [EOF] := by
  match k, hk with
  | n + 2, _ => exact h.2.2

theorem child_at_misses (home : Str) (u : Upload) (k : Nat) (s : S1) (f : Str)
    (h : u.child_at home k s) (hne : u.f ≠ f) : get_relative_path s.file_map f = none := by
  have hfm : s.file_map = [] ∨ s.file_map = [index_entry (u.f, u.dest)] := by
    match k with
    | 0 => exact Or.inl h.1
    | 1 => exact Or.inr h.1
    | n + 2 => exact Or.inr h.1
  rcases hfm with e | e
  · rw [e]
    rfl
  · rw [e]
    unfold index_entry get_relative_path
    dsimp only
    rw [if_neg hne]
    rfl

/-- The upload round for a file that the shard behind `port` takes over,
whatever the client sent as content, given what that shard did with the blocks
sent to it. -/
theorem upload_round_forwarded (net : Net) (tar : Tar) (cwd : Str) (s : S1)
    (f dest ext : Str) (port : Nat) (peer : Peer) (d2 dk : Disk) (reply : List Str)
    (hf : Token f) (hdest : Token dest) (hf2 : f.length < 256) (hd2 : dest.length < 512)
    (hext : strrchr '.' f = some ext) (hroute : remote_route ext port)
    (hnet : net port = some peer) (hd4 : 4 ≤ dest.length)
    (hcount : s.file_map.length < 100)
    (hopen : (create_directories (base_path s.disk.home "S1".toList dest) s.disk).fopen_w
      (full_path s.disk.home "S1".toList dest f) = some d2)
    (hup : peer (d2.fwrite (full_path s.disk.home "S1".toList dest f)
        (recv_until_EOF s.inp).1.flatten)
      (uploadf_line f dest :: (fread_all (recv_until_EOF s.inp).1.flatten ++ [EOF])) =
        some (dk, reply)) :
    prcclient_body net tar cwd (cstr (uploadf_line f dest)) s =
      some ({ file_map := s.file_map ++ [⟨f, snprintf 512 (dest.drop 4 ++ '/' :: f)⟩],
              disk := dk.remove_ignore (full_path s.disk.home "S1".toList dest f),
              inp := (recv_until_EOF s.inp).2,
              out := s.out ++ ["OK".toList,
                upload_status f (full_path s.disk.home "S1".toList dest f)],
              conns := s.conns ++ [Conn.mk port true
                (uploadf_line f dest ::
                  (fread_all (recv_until_EOF s.inp).1.flatten ++ [EOF]))] }, true) := by
  have hline : snprintf BUFFER_SIZE ("uploadf ".toList ++ f ++ ' ' :: dest) =
      uploadf_line f dest :=
    snprintf_of_lt _ _ (by rw [show "uploadf ".toList ++ f ++ ' ' :: dest = uploadf_line f dest
      from rfl, uploadf_line_length]; simp [BUFFER_SIZE]; omega)
  rw [upload_round net tar cwd s f dest ext d2 hf hdest hf2 hd2 hext hd4 hcount hopen,
    forward_upload_remote net ext _ _ _ _ port hroute]
  unfold send_to_secondary_server
  dsimp only
  rw [fopen_r_after_write _ d2 _ _ hopen]
  dsimp only
  rw [hnet]
  dsimp only
  rw [hline, hup]
  dsimp only
  simp only [Option.map_some']
  unfold S1.send
  rw [if_neg (upload_status_ne_nil _ _)]
  simp

/-- The upload branch of a shard that can create its file, whatever blocks
follow the command. -/
theorem shard_uploadf_any (dir : Str) (d d5 : Disk) (f dest : Str) (blocks : List Str)
    (hf : Token f) (hdest : Token dest) (hf2 : f.length < 256) (hd2 : dest.length < 512)
    (hd4 : 4 ≤ dest.length)
    (hopen : (create_directories (base_path d.home dir dest) d).fopen_w
      (full_path d.home dir dest f) = some d5) :
    shard_uploadf dir (uploadf_line f dest) blocks d =
      some (d5.fwrite (full_path d.home dir dest f) (recv_until_EOF blocks).1.flatten,
        ["OK".toList]) := by
  obtain ⟨e1, e2⟩ := uploadf_line_operands f dest hf hdest
  unfold uploadf_filename at e1
  unfold uploadf_dest at e2
  unfold shard_uploadf
  dsimp only
  rw [e1, e2, if_neg hf.1, if_neg (Nat.not_le.2 hf2), if_neg hdest.1, if_neg (Nat.not_le.2 hd2)]
  unfold receive_file
  rw [if_neg (Nat.not_lt.2 hd4)]
  dsimp only
  rw [hopen]

theorem forward_upload_stays (net : Net) (ext fullpath filename dest : Str) (s : S1)
    (hp : ext ≠ ".pdf".toList) (ht : ext ≠ ".txt".toList) (hz : ext ≠ ".zip".toList) :
    forward_upload net ext fullpath filename dest s = some s := by
  unfold forward_upload
  rw [if_neg hp, if_neg ht, if_neg hz]

/-- With the content and the end marker delivered to the shard in one piece the
loop of `receive_file` never sees a block of three bytes: S3 stores `helloEOF`
for the upload of `hello`, and the download that follows gives the client the
block `helloEOFEOF` before the end marker. -/
theorem merged_blocks_change_the_file :
    (prcclient (wired_shards merging_wire toy_tar "/w2".toList "/w3".toList) toy_tar
        "/w1".toList
        ⟨[], empty_disk,
          [uploadf_line "a.txt".toList "~S3/docs".toList, "hello".toList, EOF,
            downlf_line "a.txt".toList], [], []⟩).map
        (fun t => (t.out, lookup "/h/S3/docs/a.txt".toList t.disk.files)) =
      some (["OK".toList, upload_status "a.txt".toList "/h/S1/docs/a.txt".toList,
          "helloEOFEOF".toList, EOF],
        some "helloEOF".toList) := by
  decide

theorem removef_line_no_NUL (f : Str) (hf : Token f) : cstr (removef_line f) = removef_line f := by
  apply cstr_of_no_NUL
  have hlit : ∀ c ∈ "removef ".toList, c ≠ NUL := by decide
  intro c hc
  unfold removef_line at hc
  rcases List.mem_append.1 hc with h | h
  · exact hlit c h
  · exact (hf.2 c h).2

theorem removef_line_operand (f : Str) (hf : Token f) :
    scan_s ((removef_line f).drop 7) = (f, []) := by
  have h : (removef_line f).drop 7 = ' ' :: (f ++ []) := by
    rw [List.append_nil]; rfl
  rw [h, scan_s_word f [] hf (by simp)]

theorem removef_round (net : Net) (tar : Tar) (cwd : Str) (s : S1) (f : Str)
    (hf : Token f) (hlen : f.length < 256) :
    prcclient_body net tar cwd (cstr (removef_line f)) s =
      (handle_removef net f s).map (fun t => (t, true)) := by
  rw [removef_line_no_NUL f hf]
  unfold prcclient_body
  have h1 : strncmp_eq (removef_line f) "uploadf".toList 7 = false := rfl
  have h2 : strncmp_eq (removef_line f) "downlf".toList 6 = false := rfl
  have h3 : strncmp_eq (removef_line f) "removef".toList 7 = true := rfl
  rw [if_neg (by rw [h1]; simp), if_neg (by rw [h2]; simp), if_pos h3]
  dsimp only
  rw [removef_line_operand f hf]
  dsimp only
  rw [if_neg hf.1, if_neg (Nat.not_le.2 hlen)]

theorem handle_removef_local (net : Net) (s : S1) (f rel content : Str)
    (hext : strrchr '.' f = some ".c".toList)
    (hget : get_relative_path s.file_map f = some rel)
    (hfile : lookup (file_path s.disk.home "S1".toList rel) s.disk.files = some content) :
    handle_removef net f s =
      some { s with
        disk := { s.disk with
          files := (s.disk.files.filter (fun e => e.1 ≠ file_path s.disk.home "S1".toList rel)) },
        out := s.out ++ ["File removed from S1.".toList ++ [NUL]] } := by
  unfold handle_removef
  rw [hext]
  dsimp only
  rw [if_pos rfl, hget]
  dsimp only
  have hrm : s.disk.remove (file_path s.disk.home "S1".toList rel) =
      some { s.disk with
        files := (s.disk.files.filter (fun e => e.1 ≠ file_path s.disk.home "S1".toList rel)) } := by
    unfold Disk.remove Disk.isFile
    rw [hfile]
    rfl
  rw [hrm]
  dsimp only
  unfold S1.send
  rw [if_neg (by decide)]

theorem download_round_gone (net : Net) (tar : Tar) (cwd : Str) (s : S1) (f rel : Str)
    (hf : Token f) (hf2 : f.length < 256) (hext : strrchr '.' f = some ".c".toList)
    (hget : get_relative_path s.file_map f = some rel)
    (hfile : lookup (file_path s.disk.home "S1".toList rel) s.disk.files = none)
    (hnodir : file_path s.disk.home "S1".toList rel ∉ s.disk.dirs) :
    prcclient_body net tar cwd (cstr (downlf_line f)) s =
      some ({ s with out := s.out ++ [NOTFOUND] }, true) := by
  rw [downlf_line_no_NUL f hf]
  unfold prcclient_body
  rw [if_neg (by rw [strncmp_downlf_line_uploadf]; simp), if_pos (strncmp_downlf_line f)]
  unfold prcclient_downlf
  dsimp only
  rw [downlf_line_operand f hf]
  dsimp only
  rw [if_neg hf.1, if_neg (Nat.not_le.2 hf2), hext, hget,
    if_neg (by simp), if_pos rfl]
  unfold send_local_file
  rw [hget]
  dsimp only
  have hopen : s.disk.fopen_r (file_path s.disk.home "S1".toList rel) = none := by
    unfold Disk.fopen_r
    rw [hfile]
    dsimp only
    rw [if_neg hnodir]
  rw [hopen, send_NOTFOUND]

theorem main_sessions_append (net : Net) (tar : Tar) (cwd : Str) (parent : List FileMap)
    (pre post : List (List Str)) (d d1 : Disk) (outs : List (List Str))
    (h : main_sessions net tar cwd parent pre d = some (d1, outs)) :
    main_sessions net tar cwd parent (pre ++ post) d =
      (main_sessions net tar cwd parent post d1).map (fun r => (r.1, outs ++ r.2)) := by
  induction pre generalizing d outs with
  | nil =>
    rw [main_sessions] at h
    cases h
    rw [List.nil_append]
    cases main_sessions net tar cwd parent post d1 with
    | none => rfl
    | some r => simp
  | cons inp rest ih =>
    rw [main_sessions] at h
    rw [List.cons_append, main_sessions]
    cases hp : prcclient net tar cwd (fork_child parent d inp) with
    | none => rw [hp] at h; cases h
    | some s1 =>
      rw [hp] at h
      dsimp only at h ⊢
      cases hr : main_sessions net tar cwd parent rest s1.disk with
      | none => rw [hr] at h; cases h
      | some r =>
        rw [hr] at h
        cases h
        rw [ih s1.disk r.2 hr]
        cases main_sessions net tar cwd parent post r.1 with
        | none => rfl
        | some q => simp

theorem prcclient_downlf_miss (net : Net) (buffer : Str) (s : S1)
    (hne : (scan_s (buffer.drop 6)).1 ≠ []) (hlen : (scan_s (buffer.drop 6)).1.length < 256)
    (hmiss : get_relative_path s.file_map (scan_s (buffer.drop 6)).1 = none) :
    ∃ goes_on, prcclient_downlf net buffer s =
      some ({ s with out := s.out ++ [NOTFOUND] }, goes_on) := by
  unfold prcclient_downlf
  dsimp only
  rw [if_neg hne, if_neg (Nat.not_le.2 hlen)]
  by_cases hc : strrchr '.' (scan_s (buffer.drop 6)).1 = some ".c".toList
  · refine ⟨true, ?_⟩
    rw [if_neg (by rw [hc, hmiss]; simp), if_pos hc]
    unfold send_local_file
    rw [hmiss, send_NOTFOUND]
  · refine ⟨false, ?_⟩
    rw [if_pos (Or.inr ⟨hmiss, hc⟩), send_NOTFOUND]

theorem first_downlf_misses (net : Net) (tar : Tar) (cwd : Str) (d : Disk) (f : Str)
    (hf : Token f) (hlen : f.length < 256) :
    prcclient net tar cwd (fork_child [] d [downlf_line f]) =
      some ⟨[], d, [], [NOTFOUND], []⟩ := by
  unfold prcclient fork_child
  show prcclient_loop net tar cwd 1 _ = _
  rw [prcclient_loop]
  dsimp only
  rw [if_neg (downlf_line_ne_nil f), downlf_line_no_NUL f hf]
  unfold prcclient_body
  rw [if_neg (by rw [strncmp_downlf_line_uploadf]; simp), if_pos (strncmp_downlf_line f)]
  have hop := downlf_line_operand f hf
  obtain ⟨b, hb⟩ := prcclient_downlf_miss net (downlf_line f) ⟨[], d, [], [], []⟩
    (by rw [hop]; exact hf.1) (by rw [hop]; exact hlen) rfl
  rw [hb]
  cases b with
  | true => rfl
  | false => rfl

theorem Pair.step_frame (net : Net) (tar : Tar) (cwd : Str) (w w1 : Pair) (b : Bool)
    (h : w.step net tar cwd b = some w1) :
    (w1.first.inp <:+ w.first.inp ∧ ∃ ea, w1.first.file_map = w.first.file_map ++ ea ∧
      ∀ e ∈ ea, ∃ c ∈ w.first.inp,
        e = index_entry (uploadf_filename (cstr c), uploadf_dest (cstr c))) ∧
    (w1.second.inp <:+ w.second.inp ∧ ∃ eb, w1.second.file_map = w.second.file_map ++ eb ∧
      ∀ e ∈ eb, ∃ c ∈ w.second.inp,
        e = index_entry (uploadf_filename (cstr c), uploadf_dest (cstr c))) := by
  have hrefl : ∀ s : S1, s.inp <:+ s.inp ∧ ∃ ea, s.file_map = s.file_map ++ ea ∧
      ∀ e ∈ ea, ∃ c ∈ s.inp,
        e = index_entry (uploadf_filename (cstr c), uploadf_dest (cstr c)) :=
    fun s => ⟨List.suffix_refl _, [], (List.append_nil _).symm,
      fun e he => absurd he (List.not_mem_nil e)⟩
  unfold Pair.step at h
  split at h
  · split at h
    · split at h
      · cases h
      · rename_i s1 live hr
        cases h
        have f := prcclient_round_frame net tar cwd _ s1 live hr
        exact ⟨f, hrefl _⟩
    · cases h
      exact ⟨hrefl _, hrefl _⟩
  · split at h
    · split at h
      · cases h
      · rename_i s1 live hr
        cases h
        have f := prcclient_round_frame net tar cwd _ s1 live hr
        exact ⟨hrefl _, f⟩
    · cases h
      exact ⟨hrefl _, hrefl _⟩

theorem run_two_frame (net : Net) (tar : Tar) (cwd : Str) (sched : List Bool) (w w1 : Pair)
    (h : run_two net tar cwd sched w = some w1) :
    (w1.first.inp <:+ w.first.inp ∧ ∃ ea, w1.first.file_map = w.first.file_map ++ ea ∧
      ∀ e ∈ ea, ∃ c ∈ w.first.inp,
        e = index_entry (uploadf_filename (cstr c), uploadf_dest (cstr c))) ∧
    (w1.second.inp <:+ w.second.inp ∧ ∃ eb, w1.second.file_map = w.second.file_map ++ eb ∧
      ∀ e ∈ eb, ∃ c ∈ w.second.inp,
        e = index_entry (uploadf_filename (cstr c), uploadf_dest (cstr c))) := by
  induction sched generalizing w with
  | nil =>
    rw [run_two] at h
    cases h
    exact ⟨⟨List.suffix_refl _, [], (List.append_nil _).symm,
        fun e he => absurd he (List.not_mem_nil e)⟩,
      ⟨List.suffix_refl _, [], (List.append_nil _).symm,
        fun e he => absurd he (List.not_mem_nil e)⟩⟩
  | cons b rest ih =>
    rw [run_two] at h
    cases hs : w.step net tar cwd b with
    | none => rw [hs] at h; cases h
    | some w2 =>
      rw [hs] at h
      have f := Pair.step_frame net tar cwd w w2 b hs
      have g := ih w2 h
      obtain ⟨⟨fa1, ea, hea, hsa⟩, ⟨fb1, eb, heb, hsb⟩⟩ := f
      obtain ⟨⟨ga1, ea2, hea2, hsa2⟩, ⟨gb1, eb2, heb2, hsb2⟩⟩ := g
      refine ⟨⟨List.IsSuffix.trans ga1 fa1, ea ++ ea2, by rw [hea2, hea, List.append_assoc], ?_⟩,
        ⟨List.IsSuffix.trans gb1 fb1, eb ++ eb2, by rw [heb2, heb, List.append_assoc], ?_⟩⟩
      · intro e he
        rcases List.mem_append.1 he with h1 | h1
        · exact hsa e h1
        · obtain ⟨c, hc, hce⟩ := hsa2 e h1
          exact ⟨c, fa1.subset hc, hce⟩
      · intro e he
        rcases List.mem_append.1 he with h1 | h1
        · exact hsb e h1
        · obtain ⟨c, hc, hce⟩ := hsb2 e h1
          exact ⟨c, fb1.subset hc, hce⟩

theorem recv_until_EOF_eq (cs : List Str) (h : ∀ c ∈ cs, c ≠ []) :
    recv_until_EOF cs =
      (cs.takeWhile (fun c => c ≠ EOF), (cs.dropWhile (fun c => c ≠ EOF)).drop 1) := by
  induction cs with
  | nil => rfl
  | cons c rest ih =>
    have hc := h c (List.mem_cons_self _ _)
    have ih1 := ih (fun x hx => h x (List.mem_cons_of_mem _ hx))
    rw [recv_until_EOF, if_neg hc]
    by_cases he : c = EOF
    · rw [if_pos he, List.takeWhile_cons, List.dropWhile_cons]
      simp [he]
    · rw [if_neg he, ih1, List.takeWhile_cons, List.dropWhile_cons]
      simp [he]

theorem takeWhile_before_EOF (pre post : List Str) (h : ∀ c ∈ pre, c ≠ EOF) :
    (pre ++ EOF :: post).takeWhile (fun c => c ≠ EOF) = pre := by
  induction pre with
  | nil => simp
  | cons c rest ih =>
    have hc := h c (List.mem_cons_self _ _)
    have ih1 := ih (fun x hx => h x (List.mem_cons_of_mem _ hx))
    rw [List.cons_append, List.takeWhile_cons, ih1]
    simp [hc]

/-- The upload round for a file whose extension no shard takes: the file stays
with the coordinator. -/
theorem upload_round_unrouted (net : Net) (tar : Tar) (cwd : Str) (s : S1) (f dest ext : Str)
    (cs tail : List Str) (d2 : Disk)
    (hf : Token f) (hdest : Token dest) (hf2 : f.length < 256) (hd2 : dest.length < 512)
    (hext : strrchr '.' f = some ext)
    (hp : ext ≠ ".pdf".toList) (ht : ext ≠ ".txt".toList) (hz : ext ≠ ".zip".toList)
    (hd4 : 4 ≤ dest.length)
    (hcount : s.file_map.length < 100) (hcs : ∀ c ∈ cs, c ≠ [] ∧ c ≠ EOF)
    (hinp : s.inp = cs ++ EOF :: tail)
    (hopen : (create_directories (base_path s.disk.home "S1".toList dest) s.disk).fopen_w
      (full_path s.disk.home "S1".toList dest f) = some d2) :
    prcclient_body net tar cwd (cstr (uploadf_line f dest)) s =
      some ({ file_map := s.file_map ++ [⟨f, snprintf 512 (dest.drop 4 ++ '/' :: f)⟩],
              disk := d2.fwrite (full_path s.disk.home "S1".toList dest f) cs.flatten,
              inp := tail,
              out := s.out ++ ["OK".toList,
                upload_status f (full_path s.disk.home "S1".toList dest f)],
              conns := s.conns }, true) := by
  rw [upload_round net tar cwd s f dest _ d2 hf hdest hf2 hd2 hext hd4 hcount hopen, hinp,
    recv_until_EOF_append cs tail hcs]
  have hfw : ∀ p g d t, forward_upload net ext p g d t = some t := by
    intro p g d t
    unfold forward_upload
    rw [if_neg hp, if_neg ht, if_neg hz]
  rw [hfw]
  simp only [Option.map_some']
  unfold S1.send
  rw [if_neg (upload_status_ne_nil _ _)]
  simp

theorem download_round_unsupported (net : Net) (tar : Tar) (cwd : Str) (s : S1)
    (f ext rel : Str) (hf : Token f) (hf2 : f.length < 256) (hext : strrchr '.' f = some ext)
    (hc : ext ≠ ".c".toList) (hp : ext ≠ ".pdf".toList) (ht : ext ≠ ".txt".toList)
    (hz : ext ≠ ".zip".toList) (hget : get_relative_path s.file_map f = some rel) :
    prcclient_body net tar cwd (cstr (downlf_line f)) s =
      some ({ s with out := s.out ++ ["Unsupported file type".toList ++ [NUL]] }, false) := by
  rw [downlf_line_no_NUL f hf]
  unfold prcclient_body
  rw [if_neg (by rw [strncmp_downlf_line_uploadf]; simp), if_pos (strncmp_downlf_line f)]
  unfold prcclient_downlf
  dsimp only
  rw [downlf_line_operand f hf]
  dsimp only
  have e1 : some ext ≠ some ".c".toList := fun h => hc (Option.some.inj h)
  have e2 : some ext ≠ some ".pdf".toList := fun h => hp (Option.some.inj h)
  have e3 : some ext ≠ some ".txt".toList := fun h => ht (Option.some.inj h)
  have e4 : some ext ≠ some ".zip".toList := fun h => hz (Option.some.inj h)
  rw [if_neg hf.1, if_neg (Nat.not_le.2 hf2), hext, hget,
    if_neg (by simp), if_neg e1, if_neg e2, if_neg e3, if_neg e4]
  dsimp only
  unfold S1.send
  rw [if_neg (by decide)]

theorem upload_round_no_dot (net : Net) (tar : Tar) (cwd : Str) (s : S1) (g dest : Str)
    (hg : Token g) (hdest : Token dest) (hg2 : g.length < 256) (hd2 : dest.length < 512)
    (hext : strrchr '.' g = none) :
    prcclient_body net tar cwd (cstr (uploadf_line g dest)) s =
      some ({ s with out := s.out ++ ["Invalid extension".toList] }, true) := by
  rw [uploadf_line_no_NUL g dest hg hdest]
  unfold prcclient_body
  rw [if_pos (strncmp_uploadf_line g dest)]
  have hop := uploadf_line_operands g dest hg hdest
  unfold uploadf_filename uploadf_dest at hop
  unfold prcclient_uploadf
  dsimp only
  rw [hop.1, hop.2, if_neg hg.1, if_neg (Nat.not_le.2 hg2), if_neg hdest.1,
    if_neg (Nat.not_le.2 hd2), hext]
  dsimp only
  unfold S1.send
  rw [if_neg (by decide)]

/-! ## C1: Round trip -/

/-- C1, counterexample: a file whose content is the three bytes `EOF`, sent as
one block and followed by the end marker, is stored empty; the download that
follows in the same session delivers the end marker only, for a `.c` file kept
by the coordinator and for a `.txt` file routed to S3 alike. -/
theorem round_trip_loses_EOF_block :
    (prcclient (shards (fun _ => none) [] [] true true true) (fun _ => none) []
        ⟨[], empty_disk,
          [uploadf_line "a.c".toList "~S1/docs".toList, "EOF".toList, EOF,
            downlf_line "a.c".toList], [], []⟩).map S1.out =
      some ["OK".toList, upload_status "a.c".toList "/h/S1/docs/a.c".toList, EOF] ∧
    (prcclient (shards (fun _ => none) [] [] true true true) (fun _ => none) []
        ⟨[], empty_disk,
          [uploadf_line "a.txt".toList "~S3/docs".toList, "EOF".toList, EOF,
            downlf_line "a.txt".toList], [], []⟩).map S1.out =
      some ["OK".toList, upload_status "a.txt".toList "/h/S1/docs/a.txt".toList, EOF] ∧
    (recv_until_EOF [EOF]).1.flatten ≠ "EOF".toList := by
  decide

/-- C1, amended: let `f` end in `.c`, `.pdf`, `.txt` or `.zip` and have no
entry in an index with a free slot, let the destination have at least four
characters and the path below the root token consist of ordinary names (no
empty, `.` or `..` component), let no buffer be saturated, let the three shards
run, and let the coordinator and the owning node both be able to create the
file.  Let S1 receive the command, the content in non-empty blocks none of
which is exactly `EOF`, the end marker and the `downlf` command each as a block
of its own, let no 2048-byte block of the content be exactly `EOF` either, and
for a file that a shard keeps let the blocks that S1 and the shard exchange
arrive as they were sent.  Then
after `uploadf` the `downlf` of the same session sends the content in blocks
followed by the end marker, and the blocks before the end marker are exactly
the uploaded bytes. -/
theorem upload_download_round_trip (w : Wire) (tar : Tar) (cwd cwd2 cwd3 : Str) (s : S1)
    (f dest ext dir : Str) (cs : List Str) (d2 d5 : Disk)
    (hf : Token f) (hdest : Token dest) (hext : strrchr '.' f = some ext)
    (howner : owner_dir ext dir)
    (hplain : plain_path (dest.drop 4 ++ '/' :: f))
    (hwire : dir ≠ "S1".toList → transfers_intact w f dest cs)
    (hd4 : 4 ≤ dest.length) (hrel : dest.length - 4 + 1 + f.length < 256)
    (hfull : s.disk.home.length + 2 + dest.length + f.length < 2048)
    (hcount : s.file_map.length < 100) (hfresh : ∀ e ∈ s.file_map, e.filename ≠ f)
    (hcs : ∀ c ∈ cs, c ≠ [] ∧ c ≠ EOF) (hb : EOF ∉ fread_all cs.flatten)
    (hinp : s.inp = uploadf_line f dest :: (cs ++ [EOF, downlf_line f]))
    (hopen : (create_directories (base_path s.disk.home "S1".toList dest) s.disk).fopen_w
      (full_path s.disk.home "S1".toList dest f) = some d2)
    (hopenk : dir ≠ "S1".toList →
      (create_directories (base_path s.disk.home dir dest)
        (d2.fwrite (full_path s.disk.home "S1".toList dest f) cs.flatten)).fopen_w
          (full_path s.disk.home dir dest f) = some d5) :
    ∃ t : S1, prcclient (wired_shards w tar cwd2 cwd3) tar cwd s = some t ∧
      t.out = s.out ++ ["OK".toList,
        upload_status f (full_path s.disk.home "S1".toList dest f)] ++
        fread_all cs.flatten ++ [EOF] ∧
      (recv_until_EOF (fread_all cs.flatten ++ [EOF])).1.flatten = cs.flatten := by
  have _ := hplain
  have hblocks : ∀ c ∈ fread_all cs.flatten, c ≠ [] ∧ c ≠ EOF :=
    fun c hc => ⟨fread_all_ne_nil _ c hc, fun h => hb (h ▸ hc)⟩
  have hlast : (recv_until_EOF (fread_all cs.flatten ++ [EOF])).1.flatten = cs.flatten := by
    rw [recv_until_EOF_append _ [] hblocks]
    exact fread_all_flatten _
  rcases howner with ⟨he, hd⟩ | ⟨he, hd⟩ | ⟨he, hd⟩ | ⟨he, hd⟩
  · subst he
    obtain ⟨t, ht, hout⟩ := round_trip_local (wired_shards w tar cwd2 cwd3) tar cwd s
      f dest cs d2 hf hdest hext hd4 hrel hfull hcount hfresh hcs hinp hopen
    exact ⟨t, ht, hout, hlast⟩
  · obtain ⟨t, ht, hout⟩ := round_trip_wired w tar cwd cwd2 cwd3 s f dest ext dir cs d2 d5
      hf hdest hext (Or.inl ⟨he, hd⟩) (hwire (by rw [hd]; decide)) hd4 hrel hfull hcount hfresh hcs hb hinp hopen
      (hopenk (by rw [hd]; decide))
    exact ⟨t, ht, hout, hlast⟩
  · obtain ⟨t, ht, hout⟩ := round_trip_wired w tar cwd cwd2 cwd3 s f dest ext dir cs d2 d5
      hf hdest hext (Or.inr (Or.inl ⟨he, hd⟩)) (hwire (by rw [hd]; decide)) hd4 hrel hfull hcount hfresh hcs hb hinp
      hopen (hopenk (by rw [hd]; decide))
    exact ⟨t, ht, hout, hlast⟩
  · obtain ⟨t, ht, hout⟩ := round_trip_wired w tar cwd cwd2 cwd3 s f dest ext dir cs d2 d5
      hf hdest hext (Or.inr (Or.inr ⟨he, hd⟩)) (hwire (by rw [hd]; decide)) hd4 hrel hfull hcount hfresh hcs hb hinp
      hopen (hopenk (by rw [hd]; decide))
    exact ⟨t, ht, hout, hlast⟩

theorem upload_download_round_trip_witness :
    ∃ t : S1, prcclient (wired_shards intact_wire (fun _ => none) [] []) (fun _ => none) []
        ⟨[], empty_disk,
          uploadf_line "a.txt".toList "~S3/docs".toList ::
            (["hello".toList] ++ [EOF, downlf_line "a.txt".toList]), [], []⟩ = some t ∧
      t.out = [] ++ ["OK".toList,
        upload_status "a.txt".toList
          (full_path "/h".toList "S1".toList "~S3/docs".toList "a.txt".toList)] ++
        fread_all ["hello".toList].flatten ++ [EOF] ∧
      (recv_until_EOF (fread_all ["hello".toList].flatten ++ [EOF])).1.flatten =
        ["hello".toList].flatten :=
  upload_download_round_trip intact_wire (fun _ => none) [] [] []
    ⟨[], empty_disk,
      uploadf_line "a.txt".toList "~S3/docs".toList ::
        (["hello".toList] ++ [EOF, downlf_line "a.txt".toList]), [], []⟩
    "a.txt".toList "~S3/docs".toList ".txt".toList "S3".toList ["hello".toList]
    ⟨"/h".toList, [("/h/S1/docs/a.txt".toList, [])],
      ["/".toList, "/h".toList, "/h/S1".toList, "/h/S1/docs".toList]⟩
    ⟨"/h".toList, [("/h/S3/docs/a.txt".toList, []), ("/h/S1/docs/a.txt".toList, "hello".toList)],
      ["/".toList, "/h".toList, "/h/S1".toList, "/h/S1/docs".toList, "/h/S3".toList,
        "/h/S3/docs".toList]⟩
    ⟨by decide, by decide⟩ ⟨by decide, by decide⟩ (by decide)
    (Or.inr (Or.inr (Or.inl ⟨rfl, rfl⟩))) (by unfold plain_path; decide)
    (fun _ => ⟨rfl, rfl, rfl⟩)
    (by decide) (by decide) (by decide) (by decide)
    (by simp) (by decide) (by decide) rfl (by decide) (fun _ => by decide)

/-! ## C2: Re-upload -/

/-- C2, counterexample: after `a.txt` is saved for destination `~S3/x` and then
for `~S3/y`, the lookup still returns `x/a.txt`, not the path of the second
destination; in a session that uploads `a.txt` with content `one` to `~S3/x`
and then with content `two` to `~S3/y`, the download delivers `one`. -/
theorem reupload_keeps_first_path :
    ((save_file_path [] "a.txt".toList "~S3/x".toList).bind
        (fun m => save_file_path m "a.txt".toList "~S3/y".toList)).map
        (fun m => get_relative_path m "a.txt".toList) = some (some "x/a.txt".toList) ∧
      "x/a.txt".toList ≠ "~S3/y".toList.drop 4 ++ '/' :: "a.txt".toList ∧
      (prcclient (shards (fun _ => none) [] [] true true true) (fun _ => none) []
          ⟨[], empty_disk,
            [uploadf_line "a.txt".toList "~S3/x".toList, "one".toList, EOF,
              uploadf_line "a.txt".toList "~S3/y".toList, "two".toList, EOF,
              downlf_line "a.txt".toList], [], []⟩).map S1.out =
        some ["OK".toList, upload_status "a.txt".toList "/h/S1/x/a.txt".toList,
          "OK".toList, upload_status "a.txt".toList "/h/S1/y/a.txt".toList,
          "one".toList, EOF] := by
  decide

/-- C2, amended: a second `save_file_path` for the same filename appends an
entry that the lookup never reaches: `get_relative_path` returns what it
returned after the first save, which is the path of the first destination when
the filename had no entry before. -/
theorem reupload_first_entry_wins (m m1 m2 : List FileMap) (f d1 d2 : Str)
    (h1 : save_file_path m f d1 = some m1) (h2 : save_file_path m1 f d2 = some m2) :
    get_relative_path m2 f = get_relative_path m1 f ∧
      ((∀ e ∈ m, e.filename ≠ f) →
        get_relative_path m2 f = some (snprintf 512 (d1.drop 4 ++ '/' :: f))) := by
  have e1 := save_file_path_some _ _ _ _ h1
  have e2 := save_file_path_some _ _ _ _ h2
  have hm1 : get_relative_path m1 f =
      (get_relative_path m f).orElse (fun _ => some (snprintf 512 (d1.drop 4 ++ '/' :: f))) := by
    rw [e1, get_relative_path_append]; simp [get_relative_path]
  have hm2 : get_relative_path m2 f = get_relative_path m1 f := by
    rw [e2, get_relative_path_append, hm1]
    cases get_relative_path m f <;> simp [get_relative_path]
  refine ⟨hm2, fun hfresh => ?_⟩
  rw [hm2, hm1, (get_relative_path_eq_none m f).2 hfresh]; rfl

theorem reupload_first_entry_wins_witness :
    get_relative_path
        [⟨"a.txt".toList, "x/a.txt".toList⟩, ⟨"a.txt".toList, "y/a.txt".toList⟩] "a.txt".toList =
        get_relative_path [⟨"a.txt".toList, "x/a.txt".toList⟩] "a.txt".toList ∧
      ((∀ e ∈ ([] : List FileMap), e.filename ≠ "a.txt".toList) →
        get_relative_path
          [⟨"a.txt".toList, "x/a.txt".toList⟩, ⟨"a.txt".toList, "y/a.txt".toList⟩] "a.txt".toList =
          some (snprintf 512 ("~S3/x".toList.drop 4 ++ '/' :: "a.txt".toList))) :=
  reupload_first_entry_wins [] _ _ "a.txt".toList "~S3/x".toList "~S3/y".toList
    (by decide) (by decide)

/-! ## C3: Put then get -/

/-- C3: on an index with a free slot and no entry for `f`, after
`save_file_path f dest` the lookup of `f` returns `dest` without its first four
characters, then a slash, then `f`, provided that text fits the 512-byte field
and `f` fits the 256-byte field. -/
theorem put_then_get_fresh (m : List FileMap) (f dest : Str)
    (hcount : m.length < 100) (hfresh : ∀ e ∈ m, e.filename ≠ f)
    (hdest : 4 ≤ dest.length) (hfit : dest.length - 4 + 1 + f.length < 512)
    (hf : f.length < 256) :
    ∃ m1, save_file_path m f dest = some m1 ∧
      get_relative_path m1 f = some (dest.drop 4 ++ '/' :: f) := by
  refine ⟨_, save_file_path_eq m f dest hcount hf hdest, ?_⟩
  rw [get_relative_path_append, (get_relative_path_eq_none m f).2 hfresh]
  have : snprintf 512 (dest.drop 4 ++ '/' :: f) = dest.drop 4 ++ '/' :: f :=
    snprintf_of_lt _ _ (by simp; omega)
  simp [get_relative_path, this]

theorem put_then_get_fresh_witness :
    ∃ m1, save_file_path [] "file.txt".toList "~S2/folder1".toList = some m1 ∧
      get_relative_path m1 "file.txt".toList = some "folder1/file.txt".toList :=
  put_then_get_fresh [] "file.txt".toList "~S2/folder1".toList (by decide) (by simp)
    (by decide) (by decide) (by decide)

/-! ## C4: Lookup miss -/

/-- C4: after any run of saves on the empty index the lookup of `f` misses
exactly when `f` is none of the saved filenames; it misses for every `f` on the
empty index; and a `downlf` whose filename misses is answered with the single
block `NOTFOUND`, which has 8 bytes, and nothing else. -/
theorem lookup_miss :
    (∀ (ups : List (Str × Str)) (m : List FileMap) (f : Str), save_all ups [] = some m →
      (get_relative_path m f = none ↔ f ∉ ups.map Prod.fst)) ∧
    (∀ f : Str, get_relative_path [] f = none) ∧
    (∀ (net : Net) (buffer : Str) (s : S1),
      (scan_s (buffer.drop 6)).1 ≠ [] → (scan_s (buffer.drop 6)).1.length < 256 →
      get_relative_path s.file_map (scan_s (buffer.drop 6)).1 = none →
      ∃ goes_on, prcclient_downlf net buffer s =
        some ({ s with out := s.out ++ [NOTFOUND] }, goes_on)) ∧
    NOTFOUND.length = 8 := by
  refine ⟨?_, fun f => rfl, ?_, rfl⟩
  · intro ups m f h
    have hn := save_all_filenames ups [] m h
    rw [get_relative_path_eq_none]
    simp only [List.map_nil, List.nil_append] at hn
    rw [← hn]
    simp
  · intro net buffer s hne hlen hmiss
    unfold prcclient_downlf
    dsimp only
    rw [if_neg hne, if_neg (Nat.not_le.2 hlen)]
    by_cases hc : strrchr '.' (scan_s (buffer.drop 6)).1 = some ".c".toList
    · refine ⟨true, ?_⟩
      rw [if_neg (by rw [hc, hmiss]; simp), if_pos hc]
      unfold send_local_file
      rw [hmiss, send_NOTFOUND]
    · refine ⟨false, ?_⟩
      rw [if_pos (Or.inr ⟨hmiss, hc⟩), send_NOTFOUND]

theorem lookup_miss_witness :
    (get_relative_path [⟨"a.txt".toList, "x/a.txt".toList⟩] "b.txt".toList = none ↔
        "b.txt".toList ∉ [("a.txt".toList, "~S3/x".toList)].map Prod.fst) ∧
      ∃ goes_on, prcclient_downlf (fun _ => none) "downlf b.txt".toList
          ⟨[⟨"a.txt".toList, "x/a.txt".toList⟩], ⟨"/h".toList, [], []⟩, [], [], []⟩ =
        some (⟨[⟨"a.txt".toList, "x/a.txt".toList⟩], ⟨"/h".toList, [], []⟩, [], [NOTFOUND], []⟩,
          goes_on) :=
  ⟨lookup_miss.1 [("a.txt".toList, "~S3/x".toList)] _ "b.txt".toList (by decide),
    lookup_miss.2.2.1 (fun _ => none) "downlf b.txt".toList
      ⟨[⟨"a.txt".toList, "x/a.txt".toList⟩], ⟨"/h".toList, [], []⟩, [], [], []⟩
      (by decide) (by decide) (by decide)⟩

/-! ## C5: Upload routing -/

/-- C5: for an upload that the coordinator acknowledged with `OK`, the routing
depends on the text from the last dot of the filename only.  For `.c` no
connection is opened and the received bytes are in the file of the coordinator
tree.  For `.pdf`, `.txt` and `.zip` exactly one connection is opened, to port
6501, 6502 and 6503, and when it is established the first block sent on it is
`uploadf <filename> <dest>` with the operands of the client. -/
theorem upload_routing (net : Net) (buffer : Str) (s s1 : S1) (goes_on : Bool)
    (rest : List Str) (hres : prcclient_uploadf net buffer s = some (s1, goes_on))
    (hok : s1.out = s.out ++ "OK".toList :: rest) :
    ∃ ext, strrchr '.' (uploadf_filename buffer) = some ext ∧
      (ext = ".c".toList →
        s1.conns = s.conns ∧
        s1.disk.fopen_r
            (full_path s.disk.home "S1".toList (uploadf_dest buffer) (uploadf_filename buffer)) =
          some (recv_until_EOF s.inp).1.flatten) ∧
      (∀ port, remote_route ext port →
        ∃ c : Conn, s1.conns = s.conns ++ [c] ∧ c.port = port ∧
          (net port = none → c = Conn.mk port false []) ∧
          (net port ≠ none → c.connected = true ∧
            c.sent.head? =
              some ("uploadf ".toList ++ uploadf_filename buffer ++ ' ' :: uploadf_dest buffer))) := by
  obtain ⟨ext, d2, m, hf1, hf2, hd1, hd2, hext, hd4, hopen, hsave⟩ :=
    prcclient_uploadf_acked net buffer s s1 goes_on rest hres hok
  rw [prcclient_uploadf_eq net buffer s ext d2 m hf1 hf2 hd1 hd2 hext hd4 hopen hsave] at hres
  refine ⟨ext, hext, ?_, ?_⟩
  · intro hc
    subst hc
    have hfw : ∀ p f d t, forward_upload net ".c".toList p f d t = some t := by
      intro p f d t; unfold forward_upload; simp
    rw [hfw] at hres
    simp only [Option.map_some', Option.some.injEq, Prod.mk.injEq] at hres
    rw [← hres.1, send_conns, send_disk]
    exact ⟨rfl, fopen_r_after_write _ d2 _ _ hopen⟩
  · intro port hroute
    rw [forward_upload_remote net ext _ _ _ _ port hroute] at hres
    unfold send_to_secondary_server at hres
    dsimp only at hres
    rw [fopen_r_after_write _ d2 _ _ hopen] at hres
    dsimp only at hres
    have hline : snprintf BUFFER_SIZE
        ("uploadf ".toList ++ uploadf_filename buffer ++ ' ' :: uploadf_dest buffer) =
        "uploadf ".toList ++ uploadf_filename buffer ++ ' ' :: uploadf_dest buffer :=
      snprintf_of_lt _ _ (by simp [BUFFER_SIZE]; omega)
    cases hnet : net port with
    | none =>
      rw [hnet] at hres
      simp only [Option.map_some', Option.some.injEq, Prod.mk.injEq] at hres
      refine ⟨Conn.mk port false [], ?_, rfl, fun _ => rfl, fun h => absurd rfl h⟩
      rw [← hres.1, send_conns]
    | some peer =>
      rw [hnet] at hres
      dsimp only at hres
      split at hres
      · simp at hres
      · next r hr =>
        simp only [Option.map_some', Option.some.injEq, Prod.mk.injEq] at hres
        have hc := congrArg S1.conns hres.1
        rw [send_conns] at hc
        dsimp only at hc
        rw [hline] at hc
        exact ⟨_, hc.symm, rfl, fun h => absurd h (by simp), fun _ => ⟨rfl, rfl⟩⟩

theorem upload_routing_witness :
    ∃ ext, strrchr '.' (uploadf_filename (uploadf_line "a.txt".toList "~S3/docs".toList)) =
        some ext ∧
      (ext = ".c".toList →
        (upload_example_result).conns = [] ∧
        (upload_example_result).disk.fopen_r
            (full_path "/h".toList "S1".toList
              (uploadf_dest (uploadf_line "a.txt".toList "~S3/docs".toList))
              (uploadf_filename (uploadf_line "a.txt".toList "~S3/docs".toList))) =
          some (recv_until_EOF ["hello".toList, EOF]).1.flatten) ∧
      (∀ port, remote_route ext port →
        ∃ c : Conn, (upload_example_result).conns = [] ++ [c] ∧ c.port = port ∧
          (shards (fun _ => none) [] [] true true true port = none → c = Conn.mk port false []) ∧
          (shards (fun _ => none) [] [] true true true port ≠ none → c.connected = true ∧
            c.sent.head? =
              some ("uploadf ".toList ++
                uploadf_filename (uploadf_line "a.txt".toList "~S3/docs".toList) ++
                ' ' :: uploadf_dest (uploadf_line "a.txt".toList "~S3/docs".toList)))) :=
  upload_routing (shards (fun _ => none) [] [] true true true)
    (uploadf_line "a.txt".toList "~S3/docs".toList)
    ⟨[], empty_disk, ["hello".toList, EOF], [], []⟩ upload_example_result true
    [upload_status "a.txt".toList "/h/S1/docs/a.txt".toList] (by decide) (by decide)

/-! ## C6: Path convention -/

/-- C6: for a destination of at least four characters and unsaturated buffers,
the file under which a node stores the upload of `f` (`full_path`) is the file
it opens later: for the coordinator the `file_path` of the relative path kept
in the index, for a shard the `file_path` of the word it scans from the
`downlf <relativePath>` request that the coordinator builds from that entry. -/
theorem path_convention (home dir f dest : Str) (m : List FileMap)
    (hm : m.length < 100) (hf : Token f) (hdest : Token dest) (hd4 : 4 ≤ dest.length)
    (hrel : dest.length - 4 + 1 + f.length < 256)
    (hfull : home.length + dir.length + dest.length + f.length < 2048) :
    ∃ rel, save_file_path m f dest = some (m ++ [⟨f, rel⟩]) ∧
      ((∀ e ∈ m, e.filename ≠ f) → get_relative_path (m ++ [⟨f, rel⟩]) f = some rel) ∧
      file_path home dir
          (scan_s ((cstr (snprintf BUFFER_SIZE ("downlf ".toList ++ rel))).drop 6)).1 =
        full_path home dir dest f ∧
      file_path home dir rel = full_path home dir dest f := by
  have hflen : f.length < 256 := by omega
  have hrelEq : snprintf 512 (dest.drop 4 ++ '/' :: f) = dest.drop 4 ++ '/' :: f :=
    snprintf_of_lt _ _ (by simp; omega)
  have htok : Token (dest.drop 4 ++ '/' :: f) := hf.rel hdest
  have hfp : file_path home dir (dest.drop 4 ++ '/' :: f) = full_path home dir dest f := by
    rw [file_path_eq _ _ _ (by simp; omega), full_path_eq _ _ _ _ hd4 hfull]
  refine ⟨dest.drop 4 ++ '/' :: f, ?_, ?_, ?_, hfp⟩
  · rw [save_file_path_eq m f dest hm hflen hd4, hrelEq]
  · intro hfresh
    rw [get_relative_path_append, (get_relative_path_eq_none m f).2 hfresh]
    simp [get_relative_path]
  · have hcmd : snprintf BUFFER_SIZE ("downlf ".toList ++ (dest.drop 4 ++ '/' :: f)) =
        "downlf ".toList ++ (dest.drop 4 ++ '/' :: f) :=
      snprintf_of_lt _ _ (by simp [BUFFER_SIZE]; omega)
    have hlit : ∀ c ∈ "downlf ".toList, c ≠ NUL := by decide
    have hnul : ∀ c ∈ "downlf ".toList ++ (dest.drop 4 ++ '/' :: f), c ≠ NUL := by
      intro c hc
      rcases List.mem_append.1 hc with h | h
      · exact hlit c h
      · exact (htok.2 c h).2
    rw [hcmd, cstr_of_no_NUL _ hnul]
    have : ("downlf ".toList ++ (dest.drop 4 ++ '/' :: f)).drop 6 =
        ' ' :: ((dest.drop 4 ++ '/' :: f) ++ []) := by
      simp
    rw [this, scan_s_word _ [] htok (by simp)]
    exact hfp

theorem path_convention_witness :
    ∃ rel, save_file_path [] "file.txt".toList "~S2/folder1".toList =
        some ([] ++ [⟨"file.txt".toList, rel⟩]) ∧
      ((∀ e ∈ ([] : List FileMap), e.filename ≠ "file.txt".toList) →
        get_relative_path ([] ++ [⟨"file.txt".toList, rel⟩]) "file.txt".toList = some rel) ∧
      file_path "/h".toList "S2".toList
          (scan_s ((cstr (snprintf BUFFER_SIZE ("downlf ".toList ++ rel))).drop 6)).1 =
        full_path "/h".toList "S2".toList "~S2/folder1".toList "file.txt".toList ∧
      file_path "/h".toList "S2".toList rel =
        full_path "/h".toList "S2".toList "~S2/folder1".toList "file.txt".toList :=
  path_convention "/h".toList "S2".toList "file.txt".toList "~S2/folder1".toList []
    (by decide) ⟨by decide, by decide⟩ ⟨by decide, by decide⟩ (by decide) (by decide) (by decide)

/-! ## C7: Removing an absent file -/

/-- C7, failing input: no tree holds a file named `*.txt`, yet `removef *.txt`
is answered `REMOVED`, and `docs/notes.txt` of the text shard is gone. -/
theorem removef_pattern_reports_success :
    (∀ e ∈ notes_disk.files, basename e.1 ≠ "*.txt".toList) ∧
      (handle_removef (shards (fun _ => none) [] [] true true true) "*.txt".toList
          ⟨[], notes_disk, [], [], []⟩).map (fun s => (s.out, s.disk.files)) =
        some (["REMOVED".toList], []) := by
  decide

/-! ## C8: Remote deletion -/

/-- C8: for a filename whose extension is `.pdf`, `.txt` or `.zip`,
`handle_removef` sends `removef <filename>` to the shard of that extension and
passes the block it receives on to the client unchanged; when the connection
fails, or nothing is received, the client gets the 8 bytes `NOTFOUND`; and
what is sent to the client does not depend on the index. -/
theorem remote_removef_relays (net : Net) (s : S1) (f ext : Str) (port : Nat)
    (hext : strrchr '.' f = some ext) (hroute : remote_route ext port)
    (hlen : f.length < 256) :
    (net port = none →
      handle_removef net f s =
        some { s with out := s.out ++ [NOTFOUND],
                      conns := s.conns ++ [Conn.mk port false []] }) ∧
    (∀ (peer : Peer) (d : Disk) (reply : List Str), net port = some peer →
      peer s.disk ["removef ".toList ++ f] = some (d, reply) →
      handle_removef net f s =
        some { s with disk := d,
                      conns := s.conns ++ [Conn.mk port true ["removef ".toList ++ f]],
                      out := s.out ++
                        [if reply.head?.getD [] = [] then NOTFOUND else reply.head?.getD []] }) ∧
    (∀ m : List FileMap,
      (handle_removef net f { s with file_map := m }).map S1.out =
        (handle_removef net f s).map S1.out) := by
  have hcmd : snprintf BUFFER_SIZE ("removef ".toList ++ f) = "removef ".toList ++ f :=
    snprintf_of_lt _ _ (by simp [BUFFER_SIZE]; omega)
  refine ⟨?_, ?_, ?_⟩
  · intro hnet
    rw [handle_removef_remote net s f ext port hext hroute]
    unfold forward_removef_to_secondary
    rw [hnet]
    simp [send_NOTFOUND]
  · intro peer d reply hnet hpeer
    rw [handle_removef_remote net s f ext port hext hroute]
    unfold forward_removef_to_secondary
    rw [hnet]
    simp only [hcmd, hpeer]
    cases reply with
    | nil => simp [send_NOTFOUND]
    | cons c rest =>
      by_cases hc : c = []
      · simp [hc, send_NOTFOUND]
      · simp [hc, S1.send]
  · intro m
    rw [handle_removef_remote net s f ext port hext hroute,
      handle_removef_remote net _ f ext port hext hroute]
    unfold forward_removef_to_secondary
    cases hnet : net port with
    | none => simp [send_NOTFOUND]
    | some peer =>
      simp only
      cases hpeer : peer s.disk [snprintf BUFFER_SIZE ("removef ".toList ++ f)] with
      | none => simp
      | some r =>
        simp only
        cases r.2 with
        | nil => simp [send_NOTFOUND]
        | cons c rest =>
          by_cases hc : c = []
          · simp [hc, send_NOTFOUND]
          · simp [hc, S1.send]

theorem remote_removef_relays_witness :
    handle_removef (fun _ => some (fun d _ => some (d, ["REMOVED".toList]))) "a.pdf".toList
        ⟨[], ⟨"/h".toList, [], []⟩, [], [], []⟩ =
      some ⟨[], ⟨"/h".toList, [], []⟩, [], ["REMOVED".toList],
        [Conn.mk S2_PORT true ["removef a.pdf".toList]]⟩ :=
  (remote_removef_relays (fun _ => some (fun d _ => some (d, ["REMOVED".toList])))
    ⟨[], ⟨"/h".toList, [], []⟩, [], [], []⟩ "a.pdf".toList ".pdf".toList S2_PORT
    (by decide) (Or.inl ⟨rfl, rfl⟩) (by decide)).2.1 _ ⟨"/h".toList, [], []⟩ ["REMOVED".toList]
    rfl rfl

/-! ## C9: Combined listing -/

/-- C9, failing input: the document shard lists `EOF_report.pdf`, sending the
line and then the end marker, but the listing that reaches the client holds
only the lines of `x.c` and `z.txt`. -/
theorem listing_drops_line_starting_with_EOF :
    (handle_client_S2 (fun _ => none) [] three_files_disk ["dispfnames docs".toList]).map
        Prod.snd = some ["EOF_report.pdf".toList ++ [NL], EOF] ∧
    (prcclient (shards (fun _ => none) [] [] true true true) (fun _ => none) []
        ⟨[], three_files_disk, ["dispfnames docs".toList], [], []⟩).map S1.out =
      some ["x.c".toList ++ NL :: ("z.txt".toList ++ [NL])] := by
  decide

/-! ## C10: Framing of the listing reply -/

/-- C10, counterexample: with nothing stored anywhere, `dispfnames docs` sends
no byte at all, in particular not the end marker; and with one file on the text
shard the reply is the single line of that file, again without end marker. -/
theorem listing_reply_has_no_end_marker :
    (prcclient (shards (fun _ => none) [] [] true true true) (fun _ => none) []
        ⟨[], ⟨"/h".toList, [], []⟩, ["dispfnames docs".toList], [], []⟩).map S1.out = some [] ∧
    (prcclient (shards (fun _ => none) [] [] true true true) (fun _ => none) []
        ⟨[], notes_disk, ["dispfnames docs".toList], [], []⟩).map S1.out =
      some ["notes.txt".toList ++ [NL]] := by
  decide

/-- C10, amended: when the combined listing is not empty, the reply of
`handle_dispfnames` is one block made of the lines of the local listing
followed by the text kept from the second, third and fourth port, in that
order, and no end marker follows it. -/
theorem listing_reply_framing (net : Net) (listing : List Str) (pathname : Str) (s : S1)
    (d2 d3 d4 : Disk) (r2 r3 r4 : List Str)
    (h2 : ask (net S2_PORT) s.disk (snprintf BUFFER_SIZE ("dispfnames ".toList ++ pathname)) =
      some (d2, r2))
    (h3 : ask (net S3_PORT) d2 (snprintf BUFFER_SIZE ("dispfnames ".toList ++ pathname)) =
      some (d3, r3))
    (h4 : ask (net S4_PORT) d3 (snprintf BUFFER_SIZE ("dispfnames ".toList ++ pathname)) =
      some (d4, r4))
    (hfit : ((listing.map cstr).flatten ++ reply_lines r2 ++ reply_lines r3 ++
      reply_lines r4).length < 16384)
    (hne : (listing.map cstr).flatten ++ reply_lines r2 ++ reply_lines r3 ++ reply_lines r4 ≠ []) :
    ∃ t : S1, handle_dispfnames net listing pathname s = some t ∧
      t.out = s.out ++
        [(listing.map cstr).flatten ++ reply_lines r2 ++ reply_lines r3 ++ reply_lines r4] ∧
      t.disk = d4 ∧ t.file_map = s.file_map := by
  simp only [List.length_append] at hfit
  unfold handle_dispfnames
  rw [cat_lines_eq listing [] (by simp only [List.length_nil]; omega)]
  simp only [List.nil_append]
  obtain ⟨t2, e2, hd2, ho2, hm2, _⟩ :=
    dispfnames_server_eq net pathname S2_PORT s (listing.map cstr).flatten d2 r2 h2 (by omega)
  rw [e2]
  simp only
  obtain ⟨t3, e3, hd3, ho3, hm3, _⟩ :=
    dispfnames_server_eq net pathname S3_PORT t2 ((listing.map cstr).flatten ++ reply_lines r2)
      d3 r3 (by rw [hd2]; exact h3) (by simp only [List.length_append]; omega)
  rw [e3]
  simp only
  obtain ⟨t4, e4, hd4, ho4, hm4, _⟩ :=
    dispfnames_server_eq net pathname S4_PORT t3
      ((listing.map cstr).flatten ++ reply_lines r2 ++ reply_lines r3)
      d4 r4 (by rw [hd3]; exact h4) (by simp only [List.length_append]; omega)
  rw [e4]
  refine ⟨_, rfl, ?_, ?_, ?_⟩
  · dsimp only
    unfold S1.send
    rw [if_neg hne]
    simp [ho4, ho3, ho2]
  · dsimp only
    unfold S1.send
    rw [if_neg hne]
    exact hd4
  · dsimp only
    unfold S1.send
    rw [if_neg hne]
    simp [hm4, hm3, hm2]

theorem listing_reply_framing_witness :
    ∃ t : S1, handle_dispfnames (fun _ => some (fun d _ => some (d, [EOF])))
        ["x.c".toList ++ [NL]] "docs".toList ⟨[], ⟨"/h".toList, [], []⟩, [], [], []⟩ = some t ∧
      t.out = [] ++
        [((["x.c".toList ++ [NL]] : List Str).map cstr).flatten ++ reply_lines [EOF] ++
          reply_lines [EOF] ++ reply_lines [EOF]] ∧
      t.disk = ⟨"/h".toList, [], []⟩ ∧ t.file_map = [] :=
  listing_reply_framing (fun _ => some (fun d _ => some (d, [EOF]))) ["x.c".toList ++ [NL]]
    "docs".toList ⟨[], ⟨"/h".toList, [], []⟩, [], [], []⟩ _ _ _ [EOF] [EOF] [EOF] rfl rfl rfl
    (by decide) (by decide)

/-! ## C11: Listing contract of the shards -/

/-- C11, failing input: on the request `dispfnames docs` S4 sends nothing, not
even the end marker, although `docs/a.zip` is in its tree, while S2 answers
the same request with the line of `a.pdf` and the end marker; S4 lists only on
the bare word `dispfnames`, and then the full paths of all its files; so the
combined listing of `docs` holds no `.zip` file. -/
theorem S4_ignores_listing_request_with_path :
    (handle_client_S4 archive_disk ["dispfnames docs".toList]).map Prod.snd = some [] ∧
    (handle_client_S2 toy_tar "/w2".toList archive_disk ["dispfnames docs".toList]).map
        Prod.snd = some ["a.pdf".toList ++ [NL], EOF] ∧
    (handle_client_S4 archive_disk ["dispfnames".toList]).map Prod.snd =
      some ["/h/S4/docs/a.zip".toList ++ [NL], "/h/S4/other/b.zip".toList ++ [NL], EOF] ∧
    (prcclient example_net toy_tar "/w1".toList
        ⟨[], archive_disk, ["dispfnames docs".toList], [], []⟩).map S1.out =
      some ["a.pdf".toList ++ NL :: ("z.txt".toList ++ [NL])] := by
  decide

/-! ## C12: Archive of an unregistered extension -/

/-- C12: for an extension operand shorter than 16 characters that is none of
`.c`, `.pdf`, `.txt` and `.zip`, `handle_downltar` sends the one block
`Unsupported extension` (22 bytes with its terminator) and nothing else: no
connection is opened, no file is touched, and neither archive bytes nor the end
marker are sent. -/
theorem downltar_unregistered_extension (net : Net) (tar : Tar) (cwd cmdline : Str) (s : S1)
    (h0 : downltar_ext cmdline ≠ []) (h16 : (downltar_ext cmdline).length < 16)
    (hc : downltar_ext cmdline ≠ ".c".toList) (hp : downltar_ext cmdline ≠ ".pdf".toList)
    (ht : downltar_ext cmdline ≠ ".txt".toList) (hz : downltar_ext cmdline ≠ ".zip".toList) :
    handle_downltar net tar cwd cmdline s =
        some { s with out := s.out ++ ["Unsupported extension".toList ++ [NUL]] } ∧
      "Unsupported extension".toList ++ [NUL] ≠ EOF := by
  refine ⟨?_, by decide⟩
  unfold handle_downltar
  dsimp only
  rw [if_neg h0, if_neg (Nat.not_le.2 h16), if_neg hc, if_neg hp, if_neg ht, if_neg hz]
  rfl

theorem downltar_unregistered_extension_witness :
    handle_downltar example_net toy_tar "/w1".toList "downltar .doc".toList
        ⟨[], archive_disk, [], [], []⟩ =
        some { (⟨[], archive_disk, [], [], []⟩ : S1) with
          out := [] ++ ["Unsupported extension".toList ++ [NUL]] } ∧
      "Unsupported extension".toList ++ [NUL] ≠ EOF :=
  downltar_unregistered_extension example_net toy_tar "/w1".toList "downltar .doc".toList
    ⟨[], archive_disk, [], [], []⟩ (by decide) (by decide) (by decide) (by decide) (by decide)
    (by decide)

/-! ## C13: Archive of a remote extension -/

/-- C13, counterexample: `downltar .zip` is answered with the text
`Zip files not supported` and no connection is opened. -/
theorem downltar_zip_is_rejected :
    (prcclient example_net toy_tar "/w1".toList
        ⟨[], archive_disk, ["downltar .zip".toList], [], []⟩).map
        (fun s => (s.out, s.conns)) =
      some (["Zip files not supported".toList ++ [NUL]], []) := by
  decide

/-- C13, amended: for `downltar .pdf` (S2, `pdf.tar`) and `downltar .txt` (S3,
`text.tar`), when the archive file can be created in the working directory, the
shard is reachable and leaves that file in place, the coordinator opens one
connection to the shard, sends it `downlf <archive name>`, and sends the client
the blob the shard returned (the bytes before its end marker, in blocks of at
most 2048) followed by the end marker; the temporary file is removed. -/
theorem downltar_remote_relays (net : Net) (tar : Tar) (cwd cmdline : Str) (s : S1)
    (name : Str) (port : Nat) (peer : Peer) (d1 d2 : Disk) (reply : List Str)
    (hroute : archive_route (downltar_ext cmdline) name port)
    (hopen : s.disk.fopen_w (cwd ++ '/' :: name) = some d1)
    (hnet : net port = some peer)
    (hpeer : peer d1 ["downlf ".toList ++ name] = some (d2, reply))
    (hkeep : lookup (cwd ++ '/' :: name) d2.files = some []) :
    handle_downltar net tar cwd cmdline s =
        some { s with
          disk := (d2.fwrite (cwd ++ '/' :: name) (recv_until_EOF reply).1.flatten).remove_ignore
            (cwd ++ '/' :: name),
          out := s.out ++ fread_all (recv_until_EOF reply).1.flatten ++ [EOF],
          conns := s.conns ++ [Conn.mk port true ["downlf ".toList ++ name]] } ∧
      (fread_all (recv_until_EOF reply).1.flatten).flatten = (recv_until_EOF reply).1.flatten := by
  refine ⟨?_, fread_all_flatten _⟩
  unfold handle_downltar
  dsimp only
  rcases hroute with ⟨hext, hname, hport⟩ | ⟨hext, hname, hport⟩
  · subst hname hport
    have hx : (scan_s (cmdline.drop 8)).1 = _ := hext
    have hreq := request_file_eq net S2_PORT "pdf.tar".toList (cwd ++ '/' :: "pdf.tar".toList) s
      peer d1 d2 reply hopen hnet hpeer
    rw [hx, if_neg (by decide), if_neg (by decide), if_neg (by decide), if_pos rfl]
    show (match request_file_from_secondary net S2_PORT "pdf.tar".toList
      (cwd ++ '/' :: "pdf.tar".toList) s with
      | none => none
      | some s0 =>
        match send_archive (cwd ++ '/' :: "pdf.tar".toList) s0 with
        | none => none
        | some (s1, false) => some s1
        | some (s1, true) =>
          some { s1 with disk := s1.disk.remove_ignore (cwd ++ '/' :: "pdf.tar".toList) }) = _
    rw [hreq]
    dsimp only
    rw [send_archive_eq _ _ _ (lookup_fwrite_empty d2 _ _ hkeep)]
    rfl
  · subst hname hport
    have hx : (scan_s (cmdline.drop 8)).1 = _ := hext
    have hreq := request_file_eq net S3_PORT "text.tar".toList (cwd ++ '/' :: "text.tar".toList) s
      peer d1 d2 reply hopen hnet hpeer
    rw [hx, if_neg (by decide), if_neg (by decide), if_neg (by decide), if_neg (by decide),
      if_pos rfl]
    show (match request_file_from_secondary net S3_PORT "text.tar".toList
      (cwd ++ '/' :: "text.tar".toList) s with
      | none => none
      | some s0 =>
        match send_archive (cwd ++ '/' :: "text.tar".toList) s0 with
        | none => none
        | some (s1, false) => some s1
        | some (s1, true) =>
          some { s1 with disk := s1.disk.remove_ignore (cwd ++ '/' :: "text.tar".toList) }) = _
    rw [hreq]
    dsimp only
    rw [send_archive_eq _ _ _ (lookup_fwrite_empty d2 _ _ hkeep)]
    rfl

theorem downltar_remote_relays_witness :
    handle_downltar example_net toy_tar "/w1".toList "downltar .txt".toList
        ⟨[], archive_disk, [], [], []⟩ =
        some { (⟨[], archive_disk, [], [], []⟩ : S1) with
          disk := ((send_text_tar toy_tar "/w3".toList archive_disk_opened).1.fwrite
            ("/w1".toList ++ '/' :: "text.tar".toList)
            (recv_until_EOF
              (send_text_tar toy_tar "/w3".toList archive_disk_opened).2).1.flatten).remove_ignore
            ("/w1".toList ++ '/' :: "text.tar".toList),
          out := [] ++ fread_all (recv_until_EOF
            (send_text_tar toy_tar "/w3".toList archive_disk_opened).2).1.flatten ++ [EOF],
          conns := [] ++ [Conn.mk S3_PORT true ["downlf ".toList ++ "text.tar".toList]] } ∧
      (fread_all (recv_until_EOF
          (send_text_tar toy_tar "/w3".toList archive_disk_opened).2).1.flatten).flatten =
        (recv_until_EOF (send_text_tar toy_tar "/w3".toList archive_disk_opened).2).1.flatten :=
  downltar_remote_relays example_net toy_tar "/w1".toList "downltar .txt".toList
    ⟨[], archive_disk, [], [], []⟩ "text.tar".toList S3_PORT
    (handle_client_S3 toy_tar "/w3".toList) archive_disk_opened
    (send_text_tar toy_tar "/w3".toList archive_disk_opened).1
    (send_text_tar toy_tar "/w3".toList archive_disk_opened).2
    (Or.inr ⟨by decide, rfl, rfl⟩) (by decide) rfl (by decide) (by decide)

/-! ## C14: Archive request sent to a shard -/

/-- C14, failing input: for `downltar .pdf` the coordinator sends
`downlf pdf.tar` to S2, which S2 serves with `send_file` as the plain file
`$HOME/S2/pdf.tar` and answers `NOTFOUND`, although its archive routine would
pack `docs/a.pdf`; the client receives the 8 bytes `NOTFOUND` and the end
marker as its archive.  S3 serves `downlf text.tar` with its archive
routine. -/
theorem pdf_archive_request_reaches_send_file :
    (prcclient example_net toy_tar "/w1".toList
        ⟨[], archive_disk, ["downltar .pdf".toList], [], []⟩).map
        (fun s => (s.out, s.conns)) =
      some ([NOTFOUND, EOF], [Conn.mk S2_PORT true ["downlf pdf.tar".toList]]) ∧
    handle_client_S2 toy_tar "/w2".toList archive_disk ["downlf pdf.tar".toList] =
      some (archive_disk, send_file "S2".toList "pdf.tar".toList archive_disk) ∧
    send_file "S2".toList "pdf.tar".toList archive_disk = [NOTFOUND] ∧
    (send_pdf_tar toy_tar "/w2".toList archive_disk).2 =
      ["/h/S2/docs/a.pdf".toList ++ NL :: "PDF".toList, EOF] ∧
    handle_client_S3 toy_tar "/w3".toList archive_disk ["downlf text.tar".toList] =
      some (send_text_tar toy_tar "/w3".toList archive_disk) := by
  decide

/-! ## C15: Relayed not-found -/

/-- C15, failing input: `a.pdf` is uploaded and then removed on S2, so its
index entry is stale; S2 answers the forwarded `downlf` with `NOTFOUND`, and
the coordinator sends the client `NOTFOUND` followed by the end marker. -/
theorem relayed_NOTFOUND_is_followed_by_EOF :
    (prcclient example_net toy_tar "/w1".toList
        ⟨[], empty_disk,
          [uploadf_line "a.pdf".toList "~S2/docs".toList, "hello".toList, EOF,
            "removef a.pdf".toList, downlf_line "a.pdf".toList], [], []⟩).map S1.out =
      some ["OK".toList, upload_status "a.pdf".toList "/h/S1/docs/a.pdf".toList,
        "REMOVED".toList, NOTFOUND, EOF] := by
  decide

/-! ## C16: Commands without operands -/

/-- C16, failing input: the lines `uploadf`, `uploadf a.c`, `downlf` and
`removef`, which lack an operand, leave the session as it was: nothing is sent
to the client; only `dispfnames` and `downltar` without operand are answered
(with `Usage: dispfnames <pathname>` and `Invalid command format`).  The loop
goes on in all six cases. -/
theorem short_commands_get_no_answer (net : Net) (tar : Tar) (cwd : Str) (s : S1) :
    prcclient_body net tar cwd "uploadf".toList s = some (s, true) ∧
    prcclient_body net tar cwd "uploadf a.c".toList s = some (s, true) ∧
    prcclient_body net tar cwd "downlf".toList s = some (s, true) ∧
    prcclient_body net tar cwd "removef".toList s = some (s, true) ∧
    prcclient_body net tar cwd "dispfnames".toList s =
      some ({ s with out := s.out ++ ["Usage: dispfnames <pathname>".toList ++ [NL, NUL]] },
        true) ∧
    prcclient_body net tar cwd "downltar".toList s =
      some ({ s with out := s.out ++ ["Invalid command format".toList ++ [NUL]] }, true) :=
  ⟨rfl, rfl, rfl, rfl, rfl, rfl⟩

/-! ## C17: Unknown commands -/

/-- C17, counterexample: the first word of the line `removefx.c` is none of the
five command words, yet the line is handled as `removef x.c` and answered. -/
theorem glued_command_word_is_handled :
    (scan_s "removefx.c".toList).1 = "removefx.c".toList ∧
    "removefx.c".toList ∉ command_words.map Prod.fst ∧
    (prcclient example_net toy_tar "/w1".toList
        ⟨[], empty_disk, ["removefx.c".toList], [], []⟩).map S1.out =
      some ["File not found in S1.".toList ++ [NUL]] := by
  decide

/-- C17, amended: a line that begins with none of the five command words (the
comparison is `strncmp` over the length of the word) is ignored: nothing is
sent, no file, index entry or connection changes, and the loop goes on. -/
theorem unmatched_line_is_ignored (net : Net) (tar : Tar) (cwd buffer : Str) (s : S1)
    (h : ∀ w ∈ command_words, strncmp_eq buffer w.1 w.2 = false) :
    prcclient_body net tar cwd buffer s = some (s, true) := by
  have h1 := h ("uploadf".toList, 7) (by decide)
  have h2 := h ("downlf".toList, 6) (by decide)
  have h3 := h ("removef".toList, 7) (by decide)
  have h4 := h ("dispfnames".toList, 10) (by decide)
  have h5 := h ("downltar".toList, 8) (by decide)
  dsimp only at h1 h2 h3 h4 h5
  unfold prcclient_body
  rw [h1, h2, h3, h4, h5]
  rfl

theorem unmatched_line_is_ignored_witness :
    prcclient_body example_net toy_tar "/w1".toList "list files".toList
        ⟨[], archive_disk, [], [], []⟩ = some (⟨[], archive_disk, [], [], []⟩, true) :=
  unmatched_line_is_ignored example_net toy_tar "/w1".toList "list files".toList
    ⟨[], archive_disk, [], [], []⟩ (by decide)

/-! ## C18: Session after a not-found -/

/-- C18, failing input: after `downlf nofile.pdf` is answered `NOTFOUND` the
handler returns and the following `removef x.c` stays unread; after
`downlf nofile.c`, which is answered `NOTFOUND` too, the loop goes on and
`removef x.c` is answered. -/
theorem downlf_NOTFOUND_leaves_the_loop :
    (prcclient example_net toy_tar "/w1".toList
        ⟨[], empty_disk, [downlf_line "nofile.pdf".toList, "removef x.c".toList], [], []⟩).map
        (fun s => (s.out, s.inp)) = some ([NOTFOUND], ["removef x.c".toList]) ∧
    (prcclient example_net toy_tar "/w1".toList
        ⟨[], empty_disk, [downlf_line "nofile.c".toList, "removef x.c".toList], [], []⟩).map
        (fun s => (s.out, s.inp)) =
      some ([NOTFOUND, "File not found in S1.".toList ++ [NUL]], []) := by
  decide

/-! ## C19: Capacity of the index -/

/-- C19, counterexample: one hundred uploads of pairwise distinct filenames fill
the index, and the save of the next one lies outside `file_map`. -/
theorem index_is_full_after_100_uploads :
    ((distinct_uploads 101).map Prod.fst).Nodup ∧
    (save_all (distinct_uploads 100) []).map List.length = some 100 ∧
    save_all (distinct_uploads 101) [] = none := by
  have h100 := save_all_eq (distinct_uploads 100) []
    (by rw [distinct_uploads_length]; decide) (distinct_uploads_sizes 100 (by decide))
  refine ⟨distinct_uploads_nodup 101, ?_, ?_⟩
  · rw [h100]
    simp [distinct_uploads_length]
  · rw [distinct_uploads_succ, save_all_append, h100]
    rw [Option.some_bind, save_all, save_file_path_full _ _ _ (by simp [distinct_uploads_length])]

/-- C19, amended: for at most 100 uploads of pairwise distinct filenames into an
empty index (filenames shorter than 256 characters, destinations of at least 4),
every `save_file_path` call stays within `file_map`, and afterwards
`get_relative_path` resolves each filename to its own relative path. -/
theorem index_resolves_distinct_uploads (ups : List (Str × Str))
    (hn : ups.length ≤ 100) (hsz : ∀ u ∈ ups, u.1.length < 256 ∧ 4 ≤ u.2.length)
    (hd : (ups.map Prod.fst).Nodup) :
    ∃ m, save_all ups [] = some m ∧ m.length = ups.length ∧
      ∀ u ∈ ups, get_relative_path m u.1 = some (snprintf 512 (u.2.drop 4 ++ '/' :: u.1)) := by
  refine ⟨ups.map index_entry, ?_, by simp, ?_⟩
  · have := save_all_eq ups [] (by simpa using hn) hsz
    simpa using this
  · intro u hu
    exact get_relative_path_index ups hd u hu

theorem index_resolves_distinct_uploads_witness :
    ∃ m, save_all (distinct_uploads 3) [] = some m ∧ m.length = (distinct_uploads 3).length ∧
      ∀ u ∈ distinct_uploads 3,
        get_relative_path m u.1 = some (snprintf 512 (u.2.drop 4 ++ '/' :: u.1)) :=
  index_resolves_distinct_uploads (distinct_uploads 3) (by decide) (by decide) (by decide)

/-! ## C20: Root token of the destination -/

/-- C20, counterexample: `uploadf a.c folder1/sub` is accepted although the
destination begins with no root token: its first four characters are dropped
and the file is stored under `er1/sub`; and `uploadf a.c ~S1`, whose
destination has three characters, passes every check of the handler, which
then strips four characters and so leaves the string (no defined result). -/
theorem destination_root_is_not_checked :
    (prcclient example_net toy_tar "/w1".toList
        ⟨[], empty_disk, [uploadf_line "a.c".toList "folder1/sub".toList, "hello".toList, EOF],
          [], []⟩).map (fun s => (s.out, s.file_map, s.disk.files)) =
      some (["OK".toList, upload_status "a.c".toList "/h/S1/er1/sub/a.c".toList],
        [⟨"a.c".toList, "er1/sub/a.c".toList⟩],
        [("/h/S1/er1/sub/a.c".toList, "hello".toList)]) ∧
    prcclient_body example_net toy_tar "/w1".toList (uploadf_line "a.c".toList "~S1".toList)
        ⟨[], empty_disk, ["hello".toList, EOF], [], []⟩ = none := by
  decide

/-- C20, amended: the handler checks no root token.  For every `uploadf`
command whose filename has an extension and whose destination has at least
four characters, whatever they are, with the three shards running, the handler
drops the first four characters of the destination: it creates the file
`$HOME/S1/<dest from offset 4>/<f>`, names that path in the status line that
follows `OK`, and records `<dest from offset 4>/<f>` (cut to 511 characters)
as the index entry of `f`.  Afterwards the file
`$HOME/<dir>/<dest from offset 4>/<f>` exists on the node that keeps the
extension: S2, S3 or S4 for `.pdf`, `.txt` and `.zip`, where the shard has
dropped the same four characters, and S1 for every other extension, where the
file holds the bytes received.  For a shard this takes that its command line
arrives as one block, that the shard can create its file and reads to the end
of what S1 sends (no block that it takes for the end marker comes earlier),
and that no name below the stripped destination is empty, `.` or `..`, so that
the path of the shard and the path of S1 are two files. -/
theorem uploadf_drops_four_characters (w : Wire) (tar : Tar) (cwd cwd2 cwd3 : Str) (s : S1)
    (f dest ext dir : Str) (d2 : Disk)
    (hf : Token f) (hdest : Token dest) (hf2 : f.length < 256) (hd2 : dest.length < 512)
    (hext : strrchr '.' f = some ext) (hkeep : keeper_dir ext dir) (hd4 : 4 ≤ dest.length)
    (hhome : s.disk.home.length < 1024) (hcount : s.file_map.length < 100)
    (hopen : (create_directories (base_path s.disk.home "S1".toList dest) s.disk).fopen_w
      (s.disk.home ++ '/' :: "S1".toList ++ '/' :: (dest.drop 4 ++ '/' :: f)) = some d2)
    (hplain : dir ≠ "S1".toList → plain_path (dest.drop 4 ++ '/' :: f))
    (hcmd : dir ≠ "S1".toList → ∃ rest,
      w.to_shard (uploadf_line f dest ::
        (fread_all (recv_until_EOF s.inp).1.flatten ++ [EOF])) = uploadf_line f dest :: rest ∧
      (recv_until_EOF rest).2 = [])
    (hopenk : dir ≠ "S1".toList →
      ((create_directories (base_path s.disk.home dir dest)
        (d2.fwrite (s.disk.home ++ '/' :: "S1".toList ++ '/' :: (dest.drop 4 ++ '/' :: f))
          (recv_until_EOF s.inp).1.flatten)).fopen_w
        (s.disk.home ++ '/' :: dir ++ '/' :: (dest.drop 4 ++ '/' :: f))).isSome) :
    ∃ s1, prcclient_body (wired_shards w tar cwd2 cwd3) tar cwd (cstr (uploadf_line f dest)) s =
        some (s1, true) ∧
      s1.file_map = s.file_map ++ [⟨f, snprintf 512 (dest.drop 4 ++ '/' :: f)⟩] ∧
      s1.out = s.out ++ ["OK".toList,
        upload_status f (s.disk.home ++ '/' :: "S1".toList ++ '/' :: (dest.drop 4 ++ '/' :: f))] ∧
      (lookup (s.disk.home ++ '/' :: dir ++ '/' :: (dest.drop 4 ++ '/' :: f))
        s1.disk.files).isSome ∧
      (dir = "S1".toList →
        lookup (s.disk.home ++ '/' :: "S1".toList ++ '/' :: (dest.drop 4 ++ '/' :: f))
          s1.disk.files = some (recv_until_EOF s.inp).1.flatten) := by
  have _ := hplain
  have hS1 : ("S1".toList).length = 2 := rfl
  have hfull : full_path s.disk.home "S1".toList dest f =
      s.disk.home ++ '/' :: "S1".toList ++ '/' :: (dest.drop 4 ++ '/' :: f) :=
    full_path_eq _ _ _ _ hd4 (by omega)
  rw [← hfull] at hopen hopenk ⊢
  have hstaged := lookup_after_write _ d2 (full_path s.disk.home "S1".toList dest f)
    (recv_until_EOF s.inp).1.flatten hopen
  rcases hkeep with ⟨he, hd⟩ | ⟨he, hd⟩ | ⟨he, hd⟩ | ⟨hp, ht, hz, hd⟩
  case inr.inr.inr =>
    subst hd
    rw [upload_round (wired_shards w tar cwd2 cwd3) tar cwd s f dest ext d2 hf hdest hf2 hd2
      hext hd4 hcount hopen, forward_upload_stays _ _ _ _ _ _ hp ht hz]
    refine ⟨_, rfl, rfl, ?_, ?_, fun _ => ?_⟩
    · rw [send_out_of_ne _ _ (upload_status_ne_nil _ _)]
      simp
    · unfold S1.send
      rw [if_neg (upload_status_ne_nil _ _), ← hfull]
      dsimp only
      rw [hstaged]
      rfl
    · unfold S1.send
      rw [if_neg (upload_status_ne_nil _ _)]
      exact hstaged
  all_goals
    have hdir : (ext = ".pdf".toList ∧ dir = "S2".toList) ∨
        (ext = ".txt".toList ∧ dir = "S3".toList) ∨ (ext = ".zip".toList ∧ dir = "S4".toList) := by
      first
        | exact Or.inl ⟨he, hd⟩
        | exact Or.inr (Or.inl ⟨he, hd⟩)
        | exact Or.inr (Or.inr ⟨he, hd⟩)
    have hlen : dir.length = 2 := by rw [hd]; rfl
    have hnot : dir ≠ "S1".toList := by rw [hd]; decide
    have hfullk : full_path s.disk.home dir dest f =
        s.disk.home ++ '/' :: dir ++ '/' :: (dest.drop 4 ++ '/' :: f) :=
      full_path_eq _ _ _ _ hd4 (by omega)
    have hne : full_path s.disk.home dir dest f ≠ full_path s.disk.home "S1".toList dest f :=
      full_path_ne _ _ _ _ hd4 (by omega) (by
        first
          | exact Or.inl hd
          | exact Or.inr (Or.inl hd)
          | exact Or.inr (Or.inr hd))
    obtain ⟨rest, hrest, _⟩ := hcmd hnot
    have hk := hopenk hnot
    rw [← hfullk] at hk ⊢
    obtain ⟨d5, hd5⟩ := Option.isSome_iff_exists.1 hk
    obtain ⟨port, h, hroute, hnet, hupk, _⟩ := wired_shards_route w tar cwd2 cwd3 ext dir hdir
    have hhome2 : (d2.fwrite (full_path s.disk.home "S1".toList dest f)
        (recv_until_EOF s.inp).1.flatten).home = s.disk.home := by
      rw [fwrite_home, fopen_w_home _ d2 _ hopen, create_directories_home]
    have hup : over_wire w h (d2.fwrite (full_path s.disk.home "S1".toList dest f)
          (recv_until_EOF s.inp).1.flatten)
        (uploadf_line f dest :: (fread_all (recv_until_EOF s.inp).1.flatten ++ [EOF])) =
        some (d5.fwrite (full_path s.disk.home dir dest f) (recv_until_EOF rest).1.flatten,
          w.to_S1 ["OK".toList]) := by
      unfold over_wire
      rw [hrest, hupk _ f dest _ hf hdest,
        shard_uploadf_any dir _ d5 f dest rest hf hdest hf2 hd2 hd4
          (by rw [hhome2]; exact hd5)]
      dsimp only
      rw [hhome2]
    rw [upload_round_forwarded (wired_shards w tar cwd2 cwd3) tar cwd s f dest ext port
      (over_wire w h) d2 _ _ hf hdest hf2 hd2 hext hroute hnet hd4 hcount hopen hup]
    refine ⟨_, rfl, rfl, rfl, ?_, fun hc => absurd hc hnot⟩
    dsimp only
    rw [lookup_remove_ignore _ _ _ hne, lookup_after_write _ d5 _ _ hd5]
    rfl

theorem uploadf_drops_four_characters_witness :
    ∃ s1, prcclient_body (wired_shards intact_wire toy_tar "/w2".toList "/w3".toList) toy_tar
        "/w1".toList (cstr (uploadf_line "a.pdf".toList "folder1/sub".toList))
        ⟨[], empty_disk, ["hello".toList, EOF], [], []⟩ = some (s1, true) ∧
      s1.file_map = [] ++ [⟨"a.pdf".toList, snprintf 512 ("folder1/sub".toList.drop 4 ++
        '/' :: "a.pdf".toList)⟩] ∧
      s1.out = [] ++ ["OK".toList,
        upload_status "a.pdf".toList ("/h".toList ++ '/' :: "S1".toList ++ '/' ::
          ("folder1/sub".toList.drop 4 ++ '/' :: "a.pdf".toList))] ∧
      (lookup ("/h".toList ++ '/' :: "S2".toList ++ '/' ::
          ("folder1/sub".toList.drop 4 ++ '/' :: "a.pdf".toList)) s1.disk.files).isSome ∧
      ("S2".toList = "S1".toList →
        lookup ("/h".toList ++ '/' :: "S1".toList ++ '/' ::
          ("folder1/sub".toList.drop 4 ++ '/' :: "a.pdf".toList)) s1.disk.files =
          some (recv_until_EOF ["hello".toList, EOF]).1.flatten) :=
  uploadf_drops_four_characters intact_wire toy_tar "/w1".toList "/w2".toList "/w3".toList
    ⟨[], empty_disk, ["hello".toList, EOF], [], []⟩ "a.pdf".toList "folder1/sub".toList
    ".pdf".toList "S2".toList
    ⟨"/h".toList, [("/h/S1/er1/sub/a.pdf".toList, [])],
      ["/".toList, "/h".toList, "/h/S1".toList, "/h/S1/er1".toList, "/h/S1/er1/sub".toList]⟩
    ⟨by decide, by decide⟩ ⟨by decide, by decide⟩ (by decide) (by decide)
    (by decide) (Or.inl ⟨rfl, rfl⟩) (by decide) (by decide) (by decide) (by decide)
    (fun _ => by unfold plain_path; decide) (fun _ => ⟨_, rfl, rfl⟩) (fun _ => by decide)

/-! ## C21: Staged copy after a failed forward -/

/-- C21, failing input: S2 is running but cannot create the file, so it closes
the connection without answering `OK`.  The coordinator ignores what `recv`
returned, sends the end marker and removes the staged copy: after the upload
the (empty) file `a.pdf` exists neither under `$HOME/S1` nor under `$HOME/S2`,
although the client was told `saved`.  When S2 is not running, so that
`connect` fails, the staged copy stays. -/
theorem staged_copy_is_removed_without_OK :
    (handle_client_S2 toy_tar "/w2".toList blocked_disk
        [uploadf_line "a.pdf".toList "~S2/docs".toList, EOF]).map Prod.snd = some [] ∧
    (prcclient example_net toy_tar "/w1".toList
        ⟨[], blocked_disk, [uploadf_line "a.pdf".toList "~S2/docs".toList, EOF], [], []⟩).map
        (fun s => (s.out, s.disk.files, s.conns)) =
      some (["OK".toList, upload_status "a.pdf".toList "/h/S1/docs/a.pdf".toList],
        [("/h/S2".toList, [])],
        [Conn.mk S2_PORT true [uploadf_line "a.pdf".toList "~S2/docs".toList, EOF]]) ∧
    (prcclient (shards toy_tar "/w2".toList "/w3".toList false true true) toy_tar "/w1".toList
        ⟨[], blocked_disk, [uploadf_line "a.pdf".toList "~S2/docs".toList, EOF], [], []⟩).map
        (fun s => (s.out, s.disk.files, s.conns)) =
      some (["OK".toList, upload_status "a.pdf".toList "/h/S1/docs/a.pdf".toList],
        [("/h/S1/docs/a.pdf".toList, []), ("/h/S2".toList, [])],
        [Conn.mk S2_PORT false []]) := by
  refine ⟨by decide, by decide, by decide⟩

/-! ## C22: Deletion and the index -/

/-- C22: `handle_removef` never changes the index of the session; so after the
`removef` of a `.c` file that is in the index and in the tree of the
coordinator, which is answered `File removed from S1.`, `get_relative_path`
still returns the same path, and the `downlf` that follows is answered with
the single block `NOTFOUND`, because the file can no longer be opened. -/
theorem removef_keeps_index (net : Net) (tar : Tar) (cwd : Str) (s : S1) (f rel content : Str)
    (hf : Token f) (hlen : f.length < 256) (hext : strrchr '.' f = some ".c".toList)
    (hget : get_relative_path s.file_map f = some rel)
    (hfile : lookup (file_path s.disk.home "S1".toList rel) s.disk.files = some content)
    (hnodir : file_path s.disk.home "S1".toList rel ∉ s.disk.dirs) :
    (∀ (g : Str) (t t1 : S1), handle_removef net g t = some t1 → t1.file_map = t.file_map) ∧
    ∃ s1, prcclient_body net tar cwd (cstr (removef_line f)) s = some (s1, true) ∧
      s1.file_map = s.file_map ∧
      s1.out = s.out ++ ["File removed from S1.".toList ++ [NUL]] ∧
      lookup (file_path s.disk.home "S1".toList rel) s1.disk.files = none ∧
      get_relative_path s1.file_map f = some rel ∧
      prcclient_body net tar cwd (cstr (downlf_line f)) s1 =
        some ({ s1 with out := s1.out ++ [NOTFOUND] }, true) := by
  refine ⟨fun g t t1 h => (handle_removef_frame net g t t1 h).1, ?_⟩
  have hgone : lookup (file_path s.disk.home "S1".toList rel)
      (s.disk.files.filter (fun e => e.1 ≠ file_path s.disk.home "S1".toList rel)) = none :=
    lookup_filter_self _ _
  have hround := removef_round net tar cwd s f hf hlen
  rw [handle_removef_local net s f rel content hext hget hfile, Option.map_some'] at hround
  exact ⟨_, hround, rfl, rfl, hgone, hget,
    download_round_gone net tar cwd _ f rel hf hlen hext hget hgone hnodir⟩

theorem removef_keeps_index_witness :
    (∀ (g : Str) (t t1 : S1),
      handle_removef example_net g t = some t1 → t1.file_map = t.file_map) ∧
    ∃ s1, prcclient_body example_net toy_tar "/w1".toList (cstr (removef_line "a.c".toList))
        ⟨[⟨"a.c".toList, "docs/a.c".toList⟩],
          ⟨"/h".toList, [("/h/S1/docs/a.c".toList, "hello".toList)],
            ["/".toList, "/h".toList, "/h/S1".toList, "/h/S1/docs".toList]⟩,
          [], [], []⟩ = some (s1, true) ∧
      s1.file_map = [⟨"a.c".toList, "docs/a.c".toList⟩] ∧
      s1.out = [] ++ ["File removed from S1.".toList ++ [NUL]] ∧
      lookup (file_path "/h".toList "S1".toList "docs/a.c".toList) s1.disk.files = none ∧
      get_relative_path s1.file_map "a.c".toList = some "docs/a.c".toList ∧
      prcclient_body example_net toy_tar "/w1".toList (cstr (downlf_line "a.c".toList)) s1 =
        some ({ s1 with out := s1.out ++ [NOTFOUND] }, true) :=
  removef_keeps_index example_net toy_tar "/w1".toList
    ⟨[⟨"a.c".toList, "docs/a.c".toList⟩],
      ⟨"/h".toList, [("/h/S1/docs/a.c".toList, "hello".toList)],
        ["/".toList, "/h".toList, "/h/S1".toList, "/h/S1/docs".toList]⟩,
      [], [], []⟩
    "a.c".toList "docs/a.c".toList "hello".toList ⟨by decide, by decide⟩ (by decide) (by decide)
    (by decide) (by decide) (by decide)

/-! ## C23: Index across connections -/

/-- C23, counterexample: the first connection uploads `a.txt`, which is stored
on S3; the `downlf a.txt` of a second, later connection is answered
`NOTFOUND`, while the same command sent on the first connection delivers the
content. -/
theorem later_session_does_not_find_the_entry :
    (main example_net toy_tar "/w1".toList
        [[uploadf_line "a.txt".toList "~S3/docs".toList, "hello".toList, EOF],
          [downlf_line "a.txt".toList]] empty_disk).map
        (fun r => (r.2, lookup "/h/S3/docs/a.txt".toList r.1.files)) =
      some ([["OK".toList, upload_status "a.txt".toList "/h/S1/docs/a.txt".toList], [NOTFOUND]],
        some "hello".toList) ∧
    (main example_net toy_tar "/w1".toList
        [[uploadf_line "a.txt".toList "~S3/docs".toList, "hello".toList, EOF,
          downlf_line "a.txt".toList]] empty_disk).map Prod.snd =
      some [["OK".toList, upload_status "a.txt".toList "/h/S1/docs/a.txt".toList,
        "hello".toList, EOF]] := by
  decide

/-- C23, amended: every connection is served by a forked child that works on
its own copy of the index of the parent, which stays empty; so whatever the
earlier connections uploaded, a `downlf f` sent first on a later connection is
answered with the single block `NOTFOUND`, and the file tree stays as the
earlier connections left it. -/
theorem later_session_starts_with_empty_index (net : Net) (tar : Tar) (cwd : Str)
    (pre : List (List Str)) (d d1 : Disk) (outs : List (List Str)) (f : Str)
    (hf : Token f) (hlen : f.length < 256)
    (hpre : main net tar cwd pre d = some (d1, outs)) :
    main net tar cwd (pre ++ [[downlf_line f]]) d = some (d1, outs ++ [[NOTFOUND]]) := by
  unfold main at hpre ⊢
  rw [main_sessions_append net tar cwd [] pre _ d d1 outs hpre, main_sessions,
    first_downlf_misses net tar cwd d1 f hf hlen]
  rfl

theorem later_session_starts_with_empty_index_witness :
    main example_net toy_tar "/w1".toList
        ([[uploadf_line "a.txt".toList "~S3/docs".toList, "hello".toList, EOF]] ++
          [[downlf_line "a.txt".toList]]) empty_disk =
      some (⟨"/h".toList, [("/h/S3/docs/a.txt".toList, "hello".toList)],
          ["/".toList, "/h".toList, "/h/S1".toList, "/h/S1/docs".toList, "/h/S3".toList,
            "/h/S3/docs".toList]⟩,
        [["OK".toList, upload_status "a.txt".toList "/h/S1/docs/a.txt".toList]] ++
          [[NOTFOUND]]) :=
  later_session_starts_with_empty_index example_net toy_tar "/w1".toList
    [[uploadf_line "a.txt".toList "~S3/docs".toList, "hello".toList, EOF]] empty_disk _ _
    "a.txt".toList ⟨by decide, by decide⟩ (by decide) (by decide)

/-! ## C24: Concurrent uploads -/

/-- C24, counterexample: two connections upload `a.txt` and `b.pdf`; both
uploads are acknowledged and both files reach their shards, but no index holds
both entries: the index of each child holds its own entry only, and the
`downlf` of the file of the other connection is answered `NOTFOUND`. -/
theorem concurrent_uploads_are_not_shared :
    run_two example_net toy_tar "/w1".toList [true, false, true, false]
        (fork_two [] empty_disk txt_session pdf_session) = some two_sessions_result ∧
    two_sessions_result.first.file_map = [⟨"a.txt".toList, "docs/a.txt".toList⟩] ∧
    two_sessions_result.second.file_map = [⟨"b.pdf".toList, "docs/b.pdf".toList⟩] ∧
    two_sessions_result.first.out.getLast? = some NOTFOUND ∧
    two_sessions_result.second.out.getLast? = some NOTFOUND ∧
    lookup "/h/S3/docs/a.txt".toList two_sessions_result.tree.files = some "hello".toList ∧
    lookup "/h/S2/docs/b.pdf".toList two_sessions_result.tree.files = some "world".toList := by
  decide

/-- C24, amended: two clients are connected at the same time; each uploads one
file and then downloads it.  The filenames differ, each upload alone could be
stored on the tree as it is at the start, neither upload needs as a directory
what the other writes as a file, each upload meets the side conditions of the
round trip, and the blocks that S1 and a shard exchange arrive as they were
sent.  Then under every interleaving of the command rounds of the two children
no round fails, and: once the first round of a child has run, its client holds
`OK` and the status line, the index of that child is exactly the entry of its
own upload, and the file is on the tree of its owner with the content that was
sent; once its second round has run, its client holds in addition the content
in blocks and the end marker.  The index of each child never resolves the
filename of the other. -/
theorem concurrent_uploads_succeed_apart (w : Wire) (tar : Tar) (cwd cwd2 cwd3 : Str)
    (d0 : Disk) (a b : Upload) (sched : List Bool)
    (hwa : a.wellformed d0.home) (hwb : b.wellformed d0.home) (hne : a.f ≠ b.f)
    (hsa : a.storable d0) (hsb : b.storable d0) (hap : Upload.apart d0.home a b)
    (hwire_a : a.dir ≠ "S1".toList → transfers_intact w a.f a.dest a.cs)
    (hwire_b : b.dir ≠ "S1".toList → transfers_intact w b.f b.dest b.cs) :
    ∃ p, run_two (wired_shards w tar cwd2 cwd3) tar cwd sched
        (fork_two [] d0 a.session b.session) = some p ∧
      (1 ≤ sched.count true →
        p.first.file_map = [index_entry (a.f, a.dest)] ∧
        ["OK".toList, upload_status a.f (a.staged d0.home)] <+: p.first.out ∧
        lookup (a.kept d0.home) p.tree.files = some a.cs.flatten) ∧
      (2 ≤ sched.count true →
        p.first.out = ["OK".toList, upload_status a.f (a.staged d0.home)] ++
          fread_all a.cs.flatten ++ [EOF]) ∧
      (1 ≤ sched.count false →
        p.second.file_map = [index_entry (b.f, b.dest)] ∧
        ["OK".toList, upload_status b.f (b.staged d0.home)] <+: p.second.out ∧
        lookup (b.kept d0.home) p.tree.files = some b.cs.flatten) ∧
      (2 ≤ sched.count false →
        p.second.out = ["OK".toList, upload_status b.f (b.staged d0.home)] ++
          fread_all b.cs.flatten ++ [EOF]) ∧
      get_relative_path p.first.file_map b.f = none ∧
      get_relative_path p.second.file_map a.f = none := by
  have h0 : pair_at d0 a b 0 0 (fork_two [] d0 a.session b.session) :=
    ⟨⟨rfl, rfl, rfl⟩, ⟨rfl, rfl, rfl⟩, fun _ => rfl, fun _ => rfl,
      rfl, fun _ h => h, fun _ h => Or.inl h, fun _ _ _ => rfl,
      fun h => absurd h (by decide), fun h => absurd h (by decide)⟩
  obtain ⟨p, hr, hca, hcb, _, _, ht⟩ := run_two_pair w tar cwd cwd2 cwd3 d0 a b hwa hwb hne
    hsa hsb hap hwire_a hwire_b sched 0 0 _ (Nat.zero_le _) (Nat.zero_le _) h0
  simp only [Nat.zero_add] at hca hcb ht
  refine ⟨p, hr, ?_, ?_, ?_, ?_, child_at_misses _ _ _ _ _ hca hne,
    child_at_misses _ _ _ _ _ hcb (Ne.symm hne)⟩
  · intro hk
    have hk1 : 1 ≤ min 2 (sched.count true) := Nat.le_min.2 ⟨by decide, hk⟩
    have f := child_at_started _ _ _ _ hca hk1
    exact ⟨f.1, f.2, ht.2.2.2.2.1 hk1⟩
  · intro hk
    exact child_at_finished _ _ _ _ hca (Nat.le_min.2 ⟨Nat.le_refl _, hk⟩)
  · intro hk
    have hk1 : 1 ≤ min 2 (sched.count false) := Nat.le_min.2 ⟨by decide, hk⟩
    have f := child_at_started _ _ _ _ hcb hk1
    exact ⟨f.1, f.2, ht.2.2.2.2.2 hk1⟩
  · intro hk
    exact child_at_finished _ _ _ _ hcb (Nat.le_min.2 ⟨Nat.le_refl _, hk⟩)

theorem concurrent_uploads_succeed_apart_witness :
    ∃ p, run_two (wired_shards intact_wire toy_tar "/w2".toList "/w3".toList) toy_tar
        "/w1".toList [true, false, true, false]
        (fork_two [] empty_disk txt_upload.session pdf_upload.session) = some p ∧
      (1 ≤ [true, false, true, false].count true →
        p.first.file_map = [index_entry (txt_upload.f, txt_upload.dest)] ∧
        ["OK".toList, upload_status txt_upload.f (txt_upload.staged empty_disk.home)] <+:
          p.first.out ∧
        lookup (txt_upload.kept empty_disk.home) p.tree.files = some txt_upload.cs.flatten) ∧
      (2 ≤ [true, false, true, false].count true →
        p.first.out = ["OK".toList, upload_status txt_upload.f (txt_upload.staged empty_disk.home)] ++
          fread_all txt_upload.cs.flatten ++ [EOF]) ∧
      (1 ≤ [true, false, true, false].count false →
        p.second.file_map = [index_entry (pdf_upload.f, pdf_upload.dest)] ∧
        ["OK".toList, upload_status pdf_upload.f (pdf_upload.staged empty_disk.home)] <+:
          p.second.out ∧
        lookup (pdf_upload.kept empty_disk.home) p.tree.files = some pdf_upload.cs.flatten) ∧
      (2 ≤ [true, false, true, false].count false →
        p.second.out = ["OK".toList, upload_status pdf_upload.f (pdf_upload.staged empty_disk.home)] ++
          fread_all pdf_upload.cs.flatten ++ [EOF]) ∧
      get_relative_path p.first.file_map pdf_upload.f = none ∧
      get_relative_path p.second.file_map txt_upload.f = none :=
  concurrent_uploads_succeed_apart intact_wire toy_tar "/w1".toList "/w2".toList "/w3".toList
    empty_disk txt_upload pdf_upload [true, false, true, false]
    ⟨⟨by decide, by decide⟩, ⟨by decide, by decide⟩, by decide,
      Or.inr (Or.inr (Or.inl ⟨rfl, rfl⟩)), by decide, by unfold plain_path; decide, by decide,
      by decide, by decide, by decide, by decide⟩
    ⟨⟨by decide, by decide⟩, ⟨by decide, by decide⟩, by decide,
      Or.inr (Or.inl ⟨rfl, rfl⟩), by decide, by unfold plain_path; decide, by decide,
      by decide, by decide, by decide, by decide⟩
    (by decide)
    ⟨_, rfl, fun _ => by decide⟩ ⟨_, rfl, fun _ => by decide⟩
    ⟨by decide, by decide⟩ (fun _ => ⟨rfl, rfl, rfl⟩) (fun _ => ⟨rfl, rfl, rfl⟩)

/-! ## C25: Chunk framing -/

/-- C25: for received chunks `cs` (each `recv` with a positive count), the three
receive loops write the concatenation of the chunks before the first chunk
that is exactly `EOF`: `receive_file` of a shard, `request_file_from_secondary`
and the upload branch of `prcclient` write it into the file they opened.  So
when the chunks are a payload without an `EOF` chunk followed by the marker,
the payload is written exactly, and a payload chunk equal to `EOF` cuts the
file there, whatever follows. -/
theorem chunk_framing (cs : List Str) (hcs : ∀ c ∈ cs, c ≠ []) :
    (recv_until_EOF cs).1 = cs.takeWhile (fun c => c ≠ EOF) ∧
    (∀ (dir filename dest : Str) (d d2 : Disk), 4 ≤ dest.length →
      (create_directories (base_path d.home dir dest) d).fopen_w
        (full_path d.home dir dest filename) = some d2 →
      receive_file dir cs filename dest d =
        some (d2.fwrite (full_path d.home dir dest filename)
          (cs.takeWhile (fun c => c ≠ EOF)).flatten, ["OK".toList])) ∧
    (∀ (net : Net) (port : Nat) (rel save_as : Str) (s : S1) (peer : Peer) (d1 d2 : Disk),
      s.disk.fopen_w save_as = some d1 → net port = some peer →
      peer d1 [snprintf BUFFER_SIZE ("downlf ".toList ++ rel)] = some (d2, cs) →
      request_file_from_secondary net port rel save_as s =
        some { s with
          disk := d2.fwrite save_as (cs.takeWhile (fun c => c ≠ EOF)).flatten,
          conns := s.conns ++
            [Conn.mk port true [snprintf BUFFER_SIZE ("downlf ".toList ++ rel)]] }) ∧
    (∀ (net : Net) (buffer : Str) (s : S1) (ext : Str) (d2 : Disk) (m : List FileMap),
      s.inp = cs →
      uploadf_filename buffer ≠ [] → (uploadf_filename buffer).length < 256 →
      uploadf_dest buffer ≠ [] → (uploadf_dest buffer).length < 512 →
      strrchr '.' (uploadf_filename buffer) = some ext → 4 ≤ (uploadf_dest buffer).length →
      (create_directories (base_path s.disk.home "S1".toList (uploadf_dest buffer))
        s.disk).fopen_w
          (full_path s.disk.home "S1".toList (uploadf_dest buffer) (uploadf_filename buffer)) =
        some d2 →
      save_file_path s.file_map (uploadf_filename buffer) (uploadf_dest buffer) = some m →
      prcclient_uploadf net buffer s =
        (forward_upload net ext
          (full_path s.disk.home "S1".toList (uploadf_dest buffer) (uploadf_filename buffer))
          (uploadf_filename buffer) (uploadf_dest buffer)
          { file_map := m,
            disk := d2.fwrite
              (full_path s.disk.home "S1".toList (uploadf_dest buffer) (uploadf_filename buffer))
              (cs.takeWhile (fun c => c ≠ EOF)).flatten,
            inp := (cs.dropWhile (fun c => c ≠ EOF)).drop 1,
            out := s.out ++ ["OK".toList],
            conns := s.conns }).map
          (fun s4 => (s4.send (upload_status (uploadf_filename buffer)
            (full_path s.disk.home "S1".toList (uploadf_dest buffer) (uploadf_filename buffer))),
            true))) ∧
    (∀ pre post : List Str, (∀ c ∈ pre, c ≠ EOF) → cs = pre ++ EOF :: post →
      (cs.takeWhile (fun c => c ≠ EOF)).flatten = pre.flatten) ∧
    ((∀ c ∈ cs, c ≠ EOF) → (cs.takeWhile (fun c => c ≠ EOF)).flatten = cs.flatten) := by
  have heq := recv_until_EOF_eq cs hcs
  refine ⟨by rw [heq], ?_, ?_, ?_, ?_, ?_⟩
  · intro dir filename dest d d2 hd4 hopen
    unfold receive_file
    rw [if_neg (Nat.not_lt.2 hd4)]
    dsimp only
    rw [hopen, heq]
  · intro net port rel save_as s peer d1 d2 hopen hnet hpeer
    rw [request_file_eq net port rel save_as s peer d1 d2 cs hopen hnet hpeer, heq]
  · intro net buffer s ext d2 m hinp hf1 hf2 hd1 hd2 hext hd4 hopen hsave
    rw [prcclient_uploadf_eq net buffer s ext d2 m hf1 hf2 hd1 hd2 hext hd4 hopen hsave, hinp,
      heq]
  · intro pre post hpre hsplit
    rw [hsplit, takeWhile_before_EOF pre post hpre]
  · intro hno
    rw [List.takeWhile_eq_self_iff.2 (fun c hc => by simpa using hno c hc)]

theorem chunk_framing_witness :
    (recv_until_EOF example_chunks).1 = example_chunks.takeWhile (fun c => c ≠ EOF) ∧
    (∀ (dir filename dest : Str) (d d2 : Disk), 4 ≤ dest.length →
      (create_directories (base_path d.home dir dest) d).fopen_w
        (full_path d.home dir dest filename) = some d2 →
      receive_file dir example_chunks filename dest d =
        some (d2.fwrite (full_path d.home dir dest filename)
          (example_chunks.takeWhile (fun c => c ≠ EOF)).flatten, ["OK".toList])) ∧
    (∀ (net : Net) (port : Nat) (rel save_as : Str) (s : S1) (peer : Peer) (d1 d2 : Disk),
      s.disk.fopen_w save_as = some d1 → net port = some peer →
      peer d1 [snprintf BUFFER_SIZE ("downlf ".toList ++ rel)] = some (d2, example_chunks) →
      request_file_from_secondary net port rel save_as s =
        some { s with
          disk := d2.fwrite save_as (example_chunks.takeWhile (fun c => c ≠ EOF)).flatten,
          conns := s.conns ++
            [Conn.mk port true [snprintf BUFFER_SIZE ("downlf ".toList ++ rel)]] }) ∧
    (∀ (net : Net) (buffer : Str) (s : S1) (ext : Str) (d2 : Disk) (m : List FileMap),
      s.inp = example_chunks →
      uploadf_filename buffer ≠ [] → (uploadf_filename buffer).length < 256 →
      uploadf_dest buffer ≠ [] → (uploadf_dest buffer).length < 512 →
      strrchr '.' (uploadf_filename buffer) = some ext → 4 ≤ (uploadf_dest buffer).length →
      (create_directories (base_path s.disk.home "S1".toList (uploadf_dest buffer))
        s.disk).fopen_w
          (full_path s.disk.home "S1".toList (uploadf_dest buffer) (uploadf_filename buffer)) =
        some d2 →
      save_file_path s.file_map (uploadf_filename buffer) (uploadf_dest buffer) = some m →
      prcclient_uploadf net buffer s =
        (forward_upload net ext
          (full_path s.disk.home "S1".toList (uploadf_dest buffer) (uploadf_filename buffer))
          (uploadf_filename buffer) (uploadf_dest buffer)
          { file_map := m,
            disk := d2.fwrite
              (full_path s.disk.home "S1".toList (uploadf_dest buffer) (uploadf_filename buffer))
              (example_chunks.takeWhile (fun c => c ≠ EOF)).flatten,
            inp := (example_chunks.dropWhile (fun c => c ≠ EOF)).drop 1,
            out := s.out ++ ["OK".toList],
            conns := s.conns }).map
          (fun s4 => (s4.send (upload_status (uploadf_filename buffer)
            (full_path s.disk.home "S1".toList (uploadf_dest buffer) (uploadf_filename buffer))),
            true))) ∧
    (∀ pre post : List Str, (∀ c ∈ pre, c ≠ EOF) → example_chunks = pre ++ EOF :: post →
      (example_chunks.takeWhile (fun c => c ≠ EOF)).flatten = pre.flatten) ∧
    ((∀ c ∈ example_chunks, c ≠ EOF) → (example_chunks.takeWhile (fun c => c ≠ EOF)).flatten = example_chunks.flatten) :=
  chunk_framing example_chunks (by decide)

/-! ## C26: Stability of lookups -/

/-- C26: in every run of the command loop the index only grows at its end: the
index after any number of rounds is the index before followed by new entries
(none of which is reached before an older one with the same filename), so its
length never decreases and a filename that `get_relative_path` resolved to `p`
is resolved to the same `p` ever after. -/
theorem index_lookups_stable (net : Net) (tar : Tar) (cwd : Str) (n : Nat) (s s1 : S1)
    (hrun : prcclient_loop net tar cwd n s = some s1) :
    (∃ ea, s1.file_map = s.file_map ++ ea) ∧
    s.file_map.length ≤ s1.file_map.length ∧
    ∀ f p, get_relative_path s.file_map f = some p →
      get_relative_path s1.file_map f = some p := by
  obtain ⟨_, ea, hea, _⟩ := prcclient_loop_frame net tar cwd n s s1 hrun
  refine ⟨⟨ea, hea⟩, ?_, ?_⟩
  · rw [hea, List.length_append]
    exact Nat.le_add_right _ _
  · intro f p h
    rw [hea]
    exact get_relative_path_grow _ _ _ _ h

theorem index_lookups_stable_witness :
    (∃ ea, [⟨"a.c".toList, "docs/a.c".toList⟩, ⟨"a.c".toList, "other/a.c".toList⟩] =
        [(⟨"a.c".toList, "docs/a.c".toList⟩ : FileMap)] ++ ea) ∧
    [(⟨"a.c".toList, "docs/a.c".toList⟩ : FileMap)].length ≤
      [(⟨"a.c".toList, "docs/a.c".toList⟩ : FileMap),
        ⟨"a.c".toList, "other/a.c".toList⟩].length ∧
    ∀ f p, get_relative_path [⟨"a.c".toList, "docs/a.c".toList⟩] f = some p →
      get_relative_path [⟨"a.c".toList, "docs/a.c".toList⟩,
        ⟨"a.c".toList, "other/a.c".toList⟩] f = some p :=
  index_lookups_stable example_net toy_tar "/w1".toList 2
    ⟨[⟨"a.c".toList, "docs/a.c".toList⟩], empty_disk,
      [uploadf_line "a.c".toList "~S1/other".toList, "hello".toList, EOF,
        removef_line "a.c".toList], [], []⟩
    ⟨[⟨"a.c".toList, "docs/a.c".toList⟩, ⟨"a.c".toList, "other/a.c".toList⟩],
      ⟨"/h".toList, [("/h/S1/other/a.c".toList, "hello".toList)],
        ["/".toList, "/h".toList, "/h/S1".toList, "/h/S1/other".toList]⟩,
      [], ["OK".toList, upload_status "a.c".toList "/h/S1/other/a.c".toList,
        "File not found in S1.".toList ++ [NUL]], []⟩
    (by decide)

/-! ## C27: Upload with an unregistered extension -/

/-- C27: let the text of `f` from its last `.` be none of `.c`, `.pdf`, `.txt`
and `.zip`.  Then `uploadf f dest` is answered `OK`, the bytes before the end
marker are written to `$HOME/S1/<dest from offset 4>/<f>`, the index gets an
entry for `f`, no connection is opened, and the reply ends with the status
`File '<f>' saved at <path>`; the `downlf f` that follows is answered
`Unsupported file type`.  A filename without any `.` is answered
`Invalid extension`, and neither tree nor index changes. -/
theorem unregistered_extension_is_accepted (net : Net) (tar : Tar) (cwd : Str) (s : S1)
    (f dest ext : Str) (cs tail : List Str) (d2 : Disk)
    (hf : Token f) (hdest : Token dest) (hf2 : f.length < 256) (hd2 : dest.length < 512)
    (hext : strrchr '.' f = some ext)
    (hc : ext ≠ ".c".toList) (hp : ext ≠ ".pdf".toList) (ht : ext ≠ ".txt".toList)
    (hz : ext ≠ ".zip".toList) (hd4 : 4 ≤ dest.length)
    (hcount : s.file_map.length < 100) (hcs : ∀ c ∈ cs, c ≠ [] ∧ c ≠ EOF)
    (hinp : s.inp = cs ++ EOF :: tail)
    (hopen : (create_directories (base_path s.disk.home "S1".toList dest) s.disk).fopen_w
      (full_path s.disk.home "S1".toList dest f) = some d2) :
    ∃ s1 : S1, prcclient_body net tar cwd (cstr (uploadf_line f dest)) s = some (s1, true) ∧
      s1.file_map = s.file_map ++ [⟨f, snprintf 512 (dest.drop 4 ++ '/' :: f)⟩] ∧
      s1.disk = d2.fwrite (full_path s.disk.home "S1".toList dest f) cs.flatten ∧
      lookup (full_path s.disk.home "S1".toList dest f) s1.disk.files = some cs.flatten ∧
      s1.out = s.out ++ ["OK".toList,
        upload_status f (full_path s.disk.home "S1".toList dest f)] ∧
      s1.conns = s.conns ∧ s1.inp = tail ∧
      prcclient_body net tar cwd (cstr (downlf_line f)) s1 =
        some ({ s1 with out := s1.out ++ ["Unsupported file type".toList ++ [NUL]] }, false) ∧
      ∀ g : Str, Token g → g.length < 256 → strrchr '.' g = none →
        prcclient_body net tar cwd (cstr (uploadf_line g dest)) s =
          some ({ s with out := s.out ++ ["Invalid extension".toList] }, true) := by
  have hup := upload_round_unrouted net tar cwd s f dest ext cs tail d2 hf hdest hf2 hd2 hext
    hp ht hz hd4 hcount hcs hinp hopen
  have hsome : get_relative_path
      (s.file_map ++ [⟨f, snprintf 512 (dest.drop 4 ++ '/' :: f)⟩]) f ≠ none := by
    rw [Ne, get_relative_path_eq_none]
    intro hall
    exact hall ⟨f, snprintf 512 (dest.drop 4 ++ '/' :: f)⟩ (by simp) rfl
  obtain ⟨rel, hrel⟩ := Option.ne_none_iff_exists'.1 hsome
  exact ⟨_, hup, rfl, rfl, lookup_after_write _ _ _ _ hopen, rfl, rfl, rfl,
    download_round_unsupported net tar cwd _ f ext rel hf hf2 hext hc hp ht hz hrel,
    fun g hg hg2 hgext => upload_round_no_dot net tar cwd s g dest hg hdest hg2 hd2 hgext⟩

theorem unregistered_extension_is_accepted_witness :
    ∃ s1 : S1, prcclient_body example_net toy_tar "/w1".toList
        (cstr (uploadf_line "a.doc".toList "~S1/docs".toList))
        ⟨[], empty_disk, ["hello".toList] ++ EOF :: [downlf_line "a.doc".toList], [], []⟩ =
        some (s1, true) ∧
      s1.file_map = [] ++ [⟨"a.doc".toList,
        snprintf 512 ("~S1/docs".toList.drop 4 ++ '/' :: "a.doc".toList)⟩] ∧
      s1.disk = Disk.fwrite
        ⟨"/h".toList, [("/h/S1/docs/a.doc".toList, [])],
          ["/".toList, "/h".toList, "/h/S1".toList, "/h/S1/docs".toList]⟩
        (full_path "/h".toList "S1".toList "~S1/docs".toList "a.doc".toList)
        ["hello".toList].flatten ∧
      lookup (full_path "/h".toList "S1".toList "~S1/docs".toList "a.doc".toList)
        s1.disk.files = some ["hello".toList].flatten ∧
      s1.out = [] ++ ["OK".toList, upload_status "a.doc".toList
        (full_path "/h".toList "S1".toList "~S1/docs".toList "a.doc".toList)] ∧
      s1.conns = [] ∧ s1.inp = [downlf_line "a.doc".toList] ∧
      prcclient_body example_net toy_tar "/w1".toList (cstr (downlf_line "a.doc".toList)) s1 =
        some ({ s1 with out := s1.out ++ ["Unsupported file type".toList ++ [NUL]] }, false) ∧
      ∀ g : Str, Token g → g.length < 256 → strrchr '.' g = none →
        prcclient_body example_net toy_tar "/w1".toList
            (cstr (uploadf_line g "~S1/docs".toList))
            ⟨[], empty_disk, ["hello".toList] ++ EOF :: [downlf_line "a.doc".toList], [], []⟩ =
          some ({ (⟨[], empty_disk, ["hello".toList] ++ EOF :: [downlf_line "a.doc".toList],
            [], []⟩ : S1) with out := [] ++ ["Invalid extension".toList] }, true) :=
  unregistered_extension_is_accepted example_net toy_tar "/w1".toList
    ⟨[], empty_disk, ["hello".toList] ++ EOF :: [downlf_line "a.doc".toList], [], []⟩
    "a.doc".toList "~S1/docs".toList ".doc".toList ["hello".toList] [downlf_line "a.doc".toList]
    ⟨"/h".toList, [("/h/S1/docs/a.doc".toList, [])],
      ["/".toList, "/h".toList, "/h/S1".toList, "/h/S1/docs".toList]⟩
    ⟨by decide, by decide⟩ ⟨by decide, by decide⟩ (by decide) (by decide) (by decide)
    (by decide) (by decide) (by decide) (by decide) (by decide) (by decide) (by decide)
    rfl (by decide)

end DFS
